import Mathlib

/-!
# Sumthing: puzzle generator and solution checker

A shallow embedding of `PuzzleGenerator.generate` and of the `Game` functions
`loadLevel`, `getRowSum`, `getColSum`, `isRowCorrect`, `isColCorrect`,
`checkSolution`, `toggleCell`, `giveHint` and `resetPuzzle` of `src/game.js`.

Conventions of the embedding.

* JavaScript arrays are lists; a matrix is a list of rows.  Reading a cell
  outside the matrix gives the default (`false` for a mask, `0` for a grid).
* The ambient random source `Math.random()` is made explicit: the generator
  takes the list of values that the successive calls return and gives back the
  values it did not use.  A run that needs more values than the list holds
  yields `none`; a run on an infinite sequence returns exactly when it returns
  on a long enough initial segment of it.
* A random value is an exact rational `num / den` in `[0,1)`; products and
  comparisons are computed exactly (rounding of doubles is not modelled).
-/

namespace Sumthing

/-! ## Random source -/

/-- One value returned by `Math.random()`: the rational `num / den`, which lies
in `[0,1)` because `num < den`. -/
structure Draw where
  num : Nat
  den : Nat
  lt : num < den

/-- The integer `Math.floor(Math.random() * n)`. -/
def Draw.floorMul (r : Draw) (n : Nat) : Nat := r.num * n / r.den

/-- The test `Math.random() < 0.6`. -/
def Draw.lt06 (r : Draw) : Bool := decide (r.num * 10 < 6 * r.den)

/-! ## Matrices -/

abbrev Grid := List (List Nat)
abbrev Mask := List (List Bool)

/-- The read `mask[i][j]`. -/
def getB (m : Mask) (i j : Nat) : Bool := (m.getD i []).getD j false

/-- The read `grid[i][j]`. -/
def getN (g : Grid) (i j : Nat) : Nat := (g.getD i []).getD j 0

/-- The write `mask[i][j] = v` to an existing cell. -/
def setB (m : Mask) (i j : Nat) (v : Bool) : Mask := m.set i ((m.getD i []).set j v)

/-- The count `solution[i].filter(x => x).length`. -/
def rowCount (sol : Mask) (i : Nat) : Nat := ((sol.getD i []).filter (fun x => x)).length

/-- The count `for (let i = 0; i < size; i++) if (solution[i][j]) colActive++`. -/
def colCount (size : Nat) (sol : Mask) (j : Nat) : Nat :=
  (List.range size).countP (fun i => getB sol i j)

/-! ## PuzzleGenerator.generate -/

/-- The record returned by `generate`. -/
structure Puzzle where
  grid : Grid
  solution : Mask
  rowTargets : List Nat
  colTargets : List Nat

/-- Lines 199-202: the cells of one row, `n` of them, two draws per cell (the
grid value, then the mask bit). -/
def fillRow : Nat → List Draw → Option (List Nat × List Bool × List Draw)
  | 0, ds => some ([], [], ds)
  | n + 1, g :: m :: ds =>
    match fillRow n ds with
    | some (gr, sr, rest) => some ((g.floorMul 9 + 1) :: gr, m.lt06 :: sr, rest)
    | none => none
  | _ + 1, _ => none

/-- Lines 196-203: `n` rows of `size` cells each. -/
def fillGrid (size : Nat) : Nat → List Draw → Option (Grid × Mask × List Draw)
  | 0, ds => some ([], [], ds)
  | n + 1, ds =>
    match fillRow size ds with
    | none => none
    | some (gr, sr, rest) =>
      match fillGrid size n rest with
      | none => none
      | some (g, s, rest2) => some (gr :: g, sr :: s, rest2)

/-- Lines 209-215: `while (rowActive < 2)` draw a column and activate the cell
when it is inactive.  Every iteration uses one draw. -/
def rowFill (size i : Nat) : List Draw → Mask → Nat → Option (Mask × Nat × List Draw)
  | [], sol, rowActive => if rowActive < 2 then none else some (sol, rowActive, [])
  | r :: ds, sol, rowActive =>
    if rowActive < 2 then
      if getB sol i (r.floorMul size) = false then
        rowFill size i ds (setB sol i (r.floorMul size) true) (rowActive + 1)
      else rowFill size i ds sol rowActive
    else some (sol, rowActive, r :: ds)

/-- Lines 207-221: the body of the row repair loop for row `i`. -/
def rowRepair (size i : Nat) (sol : Mask) (ds : List Draw) : Option (Mask × List Draw) :=
  match rowFill size i ds sol (rowCount sol i) with
  | none => none
  | some (sol1, rowActive, ds1) =>
    if rowActive = size then
      match ds1 with
      | [] => none
      | r :: ds2 => some (setB sol1 i (r.floorMul size) false, ds2)
    else some (sol1, ds1)

/-- A `for` loop over the given indices whose body updates the mask and uses
draws. -/
def forEach (body : Nat → Mask → List Draw → Option (Mask × List Draw)) :
    List Nat → Mask → List Draw → Option (Mask × List Draw)
  | [], sol, ds => some (sol, ds)
  | i :: is, sol, ds =>
    match body i sol ds with
    | none => none
    | some (sol1, ds1) => forEach body is sol1 ds1

/-- Lines 206-222: the row repair pass. -/
def rowPass (size : Nat) (sol : Mask) (ds : List Draw) : Option (Mask × List Draw) :=
  forEach (rowRepair size) (List.range size) sol ds

/-- Lines 230-238: `while (colActive < 2)` draw a row and activate the cell
when it is inactive. -/
def colFill (size j : Nat) : List Draw → Mask → Nat → Option (Mask × Nat × List Draw)
  | [], sol, colActive => if colActive < 2 then none else some (sol, colActive, [])
  | r :: ds, sol, colActive =>
    if colActive < 2 then
      if getB sol (r.floorMul size) j = false then
        colFill size j ds (setB sol (r.floorMul size) j true) (colActive + 1)
      else colFill size j ds sol colActive
    else some (sol, colActive, r :: ds)

/-- Lines 226-245: the body of the column repair loop for column `j`. -/
def colRepair (size j : Nat) (sol : Mask) (ds : List Draw) : Option (Mask × List Draw) :=
  match colFill size j ds sol (colCount size sol j) with
  | none => none
  | some (sol1, colActive, ds1) =>
    if colActive = size then
      match ds1 with
      | [] => none
      | r :: ds2 => some (setB sol1 (r.floorMul size) j false, ds2)
    else some (sol1, ds1)

/-- Lines 225-246: the column repair pass. -/
def colPass (size : Nat) (sol : Mask) (ds : List Draw) : Option (Mask × List Draw) :=
  forEach (colRepair size) (List.range size) sol ds

/-- Lines 253-258: the columns whose active count is greater than 2. -/
def candidates (size : Nat) (sol : Mask) : List Nat :=
  (List.range size).filter (fun j => decide (colCount size sol j > 2))

/-- Lines 250-268: the body of the final pass for row `i`. -/
def finalRepair (size i : Nat) (sol : Mask) (ds : List Draw) : Option (Mask × List Draw) :=
  if rowCount sol i = size then
    if (candidates size sol).length > 0 then
      match ds with
      | [] => none
      | r :: ds1 =>
        some (setB sol i ((candidates size sol).getD (r.floorMul (candidates size sol).length) 0)
          false, ds1)
    else
      match ds with
      | [] => none
      | r :: ds1 => some (setB sol i (r.floorMul size) false, ds1)
  else some (sol, ds)

/-- Lines 249-269: the final pass. -/
def finalPass (size : Nat) (sol : Mask) (ds : List Draw) : Option (Mask × List Draw) :=
  forEach (finalRepair size) (List.range size) sol ds

/-- Lines 273-278: the masked sum of row `i`. -/
def rowSum (size : Nat) (grid : Grid) (sol : Mask) (i : Nat) : Nat :=
  (List.range size).foldl (fun s j => if getB sol i j then s + getN grid i j else s) 0

/-- Lines 283-288: the masked sum of column `j`. -/
def colSum (size : Nat) (grid : Grid) (sol : Mask) (j : Nat) : Nat :=
  (List.range size).foldl (fun s i => if getB sol i j then s + getN grid i j else s) 0

/-- Lines 272-280: `rowTargets`. -/
def rowTargetsOf (size : Nat) (grid : Grid) (sol : Mask) : List Nat :=
  (List.range size).map (rowSum size grid sol)

/-- Lines 282-290: `colTargets`. -/
def colTargetsOf (size : Nat) (grid : Grid) (sol : Mask) : List Nat :=
  (List.range size).map (colSum size grid sol)

/-- The three repair passes, lines 205-269. -/
def repair (size : Nat) (sol : Mask) (ds : List Draw) : Option (Mask × List Draw) :=
  match rowPass size sol ds with
  | none => none
  | some (sol1, ds1) =>
    match colPass size sol1 ds1 with
    | none => none
    | some (sol2, ds2) => finalPass size sol2 ds2

/-- `PuzzleGenerator.generate(size)`, lines 189-293, on the draws `ds`: the
puzzle and the unused draws, or `none` when the draws run out first. -/
def generate (size : Nat) (ds : List Draw) : Option (Puzzle × List Draw) :=
  match fillGrid size size ds with
  | none => none
  | some (grid, sol0, ds0) =>
    match repair size sol0 ds0 with
    | none => none
    | some (sol, rest) =>
      some ({ grid := grid, solution := sol,
              rowTargets := rowTargetsOf size grid sol,
              colTargets := colTargetsOf size grid sol }, rest)

/-! ## Game -/

/-- The fields of `GameState` that the game logic reads and writes. -/
structure GameState where
  grid : Grid
  solution : Mask
  playerState : Mask
  rowTargets : List Nat
  colTargets : List Nat
  size : Nat
  level : Nat
  moves : Nat
  hintsUsed : Nat
  isComplete : Bool

/-- Lines 403-406 of `loadLevel`: the board size of a level. -/
def levelSize (level : Nat) : Nat :=
  let size := 5
  let size := if level ≥ 6 then 6 else size
  let size := if level ≥ 11 then 7 else size
  let size := if level ≥ 16 then 8 else size
  size

/-- Lines 442-448 of `loadLevel`: the all-active player state. -/
def allActive (size : Nat) : Mask :=
  (List.range size).map (fun _ => (List.range size).map (fun _ => true))

/-- Lines 408-409 and 436-452 of `loadLevel`: install a generated puzzle. -/
def install (size level : Nat) (p : Puzzle) : GameState :=
  { grid := p.grid, solution := p.solution, playerState := allActive size,
    rowTargets := p.rowTargets, colTargets := p.colTargets,
    size := size, level := level, moves := 0, hintsUsed := 0, isComplete := false }

/-- `Game.loadLevel(level)`: the new state and the unused draws. -/
def loadLevel (level : Nat) (ds : List Draw) : Option (GameState × List Draw) :=
  match generate (levelSize level) ds with
  | none => none
  | some (p, rest) => some (install (levelSize level) level p, rest)

/-- `Game.getRowSum(row)`. -/
def getRowSum (s : GameState) (row : Nat) : Nat :=
  (List.range s.size).foldl
    (fun sum j => if getB s.playerState row j then sum + getN s.grid row j else sum) 0

/-- `Game.getColSum(col)`. -/
def getColSum (s : GameState) (col : Nat) : Nat :=
  (List.range s.size).foldl
    (fun sum i => if getB s.playerState i col then sum + getN s.grid i col else sum) 0

/-- `Game.isRowCorrect(row)`: `getRowSum(row) === rowTargets[row]`. -/
def isRowCorrect (s : GameState) (row : Nat) : Bool :=
  decide (s.rowTargets.get? row = some (getRowSum s row))

/-- `Game.isColCorrect(col)`: `getColSum(col) === colTargets[col]`. -/
def isColCorrect (s : GameState) (col : Nat) : Bool :=
  decide (s.colTargets.get? col = some (getColSum s col))

/-- The loop of `checkSolution` over the indices still to visit. -/
def checkFrom (s : GameState) : List Nat → Bool
  | [] => true
  | i :: is => if !isRowCorrect s i || !isColCorrect s i then false else checkFrom s is

/-- `Game.checkSolution()`. -/
def checkSolution (s : GameState) : Bool := checkFrom s (List.range s.size)

/-- `Game.onPuzzleSolved()`, its effect on the modelled fields. -/
def onPuzzleSolved (s : GameState) : GameState :=
  if s.isComplete then s else { s with isComplete := true }

/-- `Game.toggleCell(row, col)`. -/
def toggleCell (s : GameState) (row col : Nat) : GameState :=
  if s.isComplete then s
  else
    let s1 := { s with playerState := setB s.playerState row col (!getB s.playerState row col),
                       moves := s.moves + 1 }
    if checkSolution s1 then onPuzzleSolved s1 else s1

/-- The inner loop of `giveHint` on row `i`: the first column `j < size` where
the player state differs from the solution. -/
def mismatchInRow (s : GameState) (i : Nat) : Option Nat :=
  (List.range s.size).find? (fun j => getB s.playerState i j != getB s.solution i j)

/-- The nested loops of `giveHint`: the cell at which the search stops. -/
def firstMismatch (s : GameState) : Option (Nat × Nat) :=
  (List.range s.size).findSome? (fun i => (mismatchInRow s i).map (fun j => (i, j)))

/-- `Game.giveHint()`. -/
def giveHint (s : GameState) : GameState :=
  if s.hintsUsed ≥ 3 || s.isComplete then s
  else
    match firstMismatch s with
    | none => s
    | some (i, j) =>
      let s1 := { s with playerState := setB s.playerState i j (getB s.solution i j),
                         hintsUsed := s.hintsUsed + 1 }
      if checkSolution s1 then onPuzzleSolved s1 else s1

/-- Lines 665-669 of `resetPuzzle`: write `true` to every cell `(i, j)` with
`i, j < size`. -/
def activateAll (size : Nat) (m : Mask) : Mask :=
  (List.range size).foldl
    (fun m1 i => (List.range size).foldl (fun m2 j => setB m2 i j true) m1) m

/-- `Game.resetPuzzle()`. -/
def resetPuzzle (s : GameState) : GameState :=
  { s with playerState := activateAll s.size s.playerState, moves := 0, isComplete := false }

/-- One call of the player on the game screen: a click on a cell, the hint
button or the reset button. -/
inductive Action where
  | toggle (row col : Nat)
  | hint
  | reset

/-- The effect of one call. -/
def step (s : GameState) : Action → GameState
  | Action.toggle row col => toggleCell s row col
  | Action.hint => giveHint s
  | Action.reset => resetPuzzle s

/-- The effect of a sequence of calls, first call first. -/
def run : List Action → GameState → GameState
  | [], s => s
  | a :: as, s => run as (step s a)

/-- The call is not a reset. -/
def Action.isPlay : Action → Bool
  | Action.reset => false
  | _ => true

/-! ## Measures used in the statements -/

/-- The rational number that a draw stands for. -/
def Draw.value (r : Draw) : ℚ := (r.num : ℚ) / (r.den : ℚ)


/-- The board is `size × size`: the shape that `loadLevel` builds. -/
def Square (size : Nat) (m : Mask) : Prop :=
  m.length = size ∧ ∀ row, row ∈ m → row.length = size

instance (size : Nat) (m : Mask) : Decidable (Square size m) := by
  unfold Square; infer_instance

/-- The Hamming distance of two masks on the `size × size` board: the number of
cells where they differ. -/
def hamming (size : Nat) (a b : Mask) : Nat :=
  ((Finset.range size ×ˢ Finset.range size).filter
    (fun c => getB a c.1 c.2 ≠ getB b c.1 c.2)).card

/-- The state belongs to a game on the puzzle `p` of size `N`: it holds the
puzzle, its player state is `N × N`, and it is flagged complete when its board
is solved. -/
def Playing (N : Nat) (p : Puzzle) (s : GameState) : Prop :=
  s.size = N ∧ s.grid = p.grid ∧ s.solution = p.solution ∧ s.rowTargets = p.rowTargets ∧
    s.colTargets = p.colTargets ∧ Square N s.playerState ∧
    (checkSolution s = true → s.isComplete = true)

/-- Row `i` of the mask has an inactive cell among its first `size` cells. -/
def HasGap (size : Nat) (sol : Mask) (i : Nat) : Prop := ∃ j, j < size ∧ getB sol i j = false

/-- The final pass over the rows `is`, started on `sol` with the draws `ds`,
reaches the `else` branch of line 263 (a fully active row and no candidate
column) at some row. -/
def fallbackIn (size : Nat) : List Nat → Mask → List Draw → Bool
  | [], _, _ => false
  | i :: is, sol, ds =>
    (decide (rowCount sol i = size) && decide ((candidates size sol).length = 0)) ||
      match finalRepair size i sol ds with
      | none => false
      | some (sol1, ds1) => fallbackIn size is sol1 ds1

/-- The run of `generate size` on the draws `ds` reaches the fallback branch of
the final pass. -/
def takesFallback (size : Nat) (ds : List Draw) : Bool :=
  match fillGrid size size ds with
  | none => false
  | some (_, sol0, ds0) =>
    match rowPass size sol0 ds0 with
    | none => false
    | some (sol1, ds1) =>
      match colPass size sol1 ds1 with
      | none => false
      | some (sol2, ds2) => fallbackIn size (List.range size) sol2 ds2

/-- The first `n` values of an infinite sequence of draws. -/
def firstDraws (s : Nat → Draw) : Nat → List Draw
  | 0 => []
  | n + 1 => s 0 :: firstDraws (fun k => s (k + 1)) n

/-- Every index below `size` is drawn again and again: for each `k < size` and
each position `n` some later draw `s m` has `Math.floor(s m * size) = k`. -/
def Fair (size : Nat) (s : Nat → Draw) : Prop :=
  ∀ k, k < size → ∀ n, ∃ m, n ≤ m ∧ (s m).floorMul size = k

/-! ## Sample data -/

/-- The draw `n / 10`. -/
def tenth (n : Fin 10) : Draw := ⟨n.val, 10, n.isLt⟩

/-- The draw `n / 9`, for which `Math.floor(Math.random() * 9) + 1` is `n + 1`. -/
def ninth (n : Fin 9) : Draw := ⟨n.val, 9, n.isLt⟩

/-- The grid of the end-to-end scenario. -/
def sampleGrid : Grid := [[1, 2, 3], [4, 5, 6], [7, 8, 9]]

/-- The solution mask of the end-to-end scenario. -/
def sampleMask : Mask := [[true, false, true], [false, true, true], [true, true, false]]

/-- The puzzle of the end-to-end scenario. -/
def samplePuzzle : Puzzle :=
  { grid := sampleGrid, solution := sampleMask,
    rowTargets := [4, 11, 15], colTargets := [8, 13, 9] }

/-- Draws on which `generate 3` fills in the end-to-end scenario and repairs
nothing: per cell the grid value, then the mask bit. -/
def sampleDraws : List Draw :=
  [ninth 0, tenth 0, ninth 1, tenth 9, ninth 2, tenth 0,
   ninth 3, tenth 9, ninth 4, tenth 0, ninth 5, tenth 0,
   ninth 6, tenth 0, ninth 7, tenth 0, ninth 8, tenth 9]

/-- Draws on which `generate 3` fills three rows `[true, true, false]`, the
column pass deactivates row 2 in column 0 and row 0 in column 1 and activates
rows 0 and 1 in column 2, and the final pass finds row 1 fully active with no
candidate column and deactivates its cell in column 0. -/
def fallbackDraws : List Draw :=
  [tenth 0, tenth 0, tenth 0, tenth 0, tenth 0, tenth 9,
   tenth 0, tenth 0, tenth 0, tenth 0, tenth 0, tenth 9,
   tenth 0, tenth 0, tenth 0, tenth 0, tenth 0, tenth 9,
   tenth 7, tenth 0, tenth 0, tenth 4, tenth 0]

/-- The puzzle that `generate 3` returns on `fallbackDraws`. -/
def fallbackPuzzle : Puzzle :=
  { grid := [[1, 1, 1], [1, 1, 1], [1, 1, 1]],
    solution := [[true, false, true], [false, true, true], [false, true, false]],
    rowTargets := [2, 2, 1], colTargets := [1, 2, 2] }

/-- The draw `0`. -/
def zeroDraw : Draw := tenth 0

/-- The two draws of one cell in lines 200-201 that give the grid value 1 and
the mask bit `b`. -/
def cellDraws (b : Bool) : List Draw := [tenth 0, if b then tenth 0 else tenth 9]

/-- The mask that `generate 5` fills in on `rowDropDraws`: every row has between
2 and 4 active cells, column 0 is fully active and the other columns have
between 2 and 4 active cells. -/
def rowDropFill : Mask :=
  [[true, true, false, false, false],
   [true, false, true, true, false],
   [true, false, true, false, true],
   [true, true, false, true, true],
   [true, true, true, false, true]]

/-- Draws on which `generate 5` fills in `rowDropFill`, the row pass changes
nothing, the column pass finds column 0 fully active and deactivates its cell in
row 0, and nothing else is drawn. -/
def rowDropDraws : List Draw := rowDropFill.flatten.flatMap cellDraws ++ [tenth 0]

/-- The puzzle that `generate 5` returns on `rowDropDraws`. -/
def rowDropPuzzle : Puzzle :=
  { grid := List.replicate 5 (List.replicate 5 1),
    solution :=
      [[false, true, false, false, false],
       [true, false, true, true, false],
       [true, false, true, false, true],
       [true, true, false, true, true],
       [true, true, true, false, true]],
    rowTargets := [1, 3, 3, 4, 4], colTargets := [4, 3, 3, 2, 3] }

/-- The mask that `generate 4` fills in on `candidateDraws`: the rows have 3, 2,
2 and 2 active cells, columns 0 to 2 have 3 active cells and column 3 has
none. -/
def candidateFill : Mask :=
  [[true, true, true, false],
   [true, true, false, false],
   [true, false, true, false],
   [false, true, true, false]]

/-- Draws on which `generate 4` fills in `candidateFill`, the row pass changes
nothing, the column pass activates rows 0 and 1 in column 3, which makes row 0
fully active, and the final pass finds the candidate columns 0, 1 and 2 and
deactivates the cell of row 0 in column 0. -/
def candidateDraws : List Draw :=
  candidateFill.flatten.flatMap cellDraws ++ [tenth 0, tenth 3, tenth 0]

/-- The puzzle that `generate 4` returns on `candidateDraws`. -/
def candidatePuzzle : Puzzle :=
  { grid := List.replicate 4 (List.replicate 4 1),
    solution :=
      [[false, true, true, true],
       [true, true, false, true],
       [true, false, true, false],
       [false, true, true, false]],
    rowTargets := [3, 3, 2, 2], colTargets := [2, 3, 3, 2] }

/-- A `3 × 3` state whose grid row 0 is `[3, 5, 2]` with row target 5 and whose
player state is the solution mask. -/
def lineState : GameState :=
  { grid := [[3, 5, 2], [1, 1, 1], [1, 1, 1]],
    solution := [[true, false, true], [true, true, false], [true, true, false]],
    playerState := [[true, false, true], [true, true, false], [true, true, false]],
    rowTargets := [5, 2, 2], colTargets := [5, 2, 2],
    size := 3, level := 1, moves := 0, hintsUsed := 0, isComplete := false }

/-- The sequence of draws `0, 1/3, 2/3, 0, 1/3, 2/3, ...`. -/
def thirds (m : Nat) : Draw := ⟨m % 3, 3, Nat.mod_lt m (by decide)⟩

/-- The state that `loadLevel` installs over the end-to-end puzzle. -/
def sampleState : GameState := install 3 1 samplePuzzle

/-! ## Basic facts -/

theorem foldl_cond_add (p : Nat → Bool) (g : Nat → Nat) (n : Nat) :
    (List.range n).foldl (fun s j => if p j then s + g j else s) 0
      = ∑ j in (Finset.range n).filter (fun j => p j = true), g j := by
  induction n with
  | zero => simp
  | succ n ih =>
    rw [List.range_succ, List.foldl_append, ih, Finset.range_succ, Finset.filter_insert]
    by_cases h : p n = true
    · simp [h, add_comm]
    · simp [h]

theorem getB_setB_same (m : Mask) (i j : Nat) (v : Bool)
    (hi : i < m.length) (hj : j < (m.getD i []).length) :
    getB (setB m i j v) i j = v := by
  simp [getB, setB, List.getD_eq_getElem?_getD, hi] at hj ⊢
  simp [hj]

theorem getB_setB_ne (m : Mask) (i j a b : Nat) (v : Bool) (h : ¬ (a = i ∧ b = j)) :
    getB (setB m i j v) a b = getB m a b := by
  simp only [getB, setB, List.getD_eq_getElem?_getD, List.getElem?_set]
  by_cases hai : i = a
  · subst hai
    have hb : ¬ j = b := fun e => h ⟨rfl, e.symm⟩
    by_cases hi : i < m.length
    · simp [hi, hb]
    · have hn : m[i]? = none := List.getElem?_eq_none (by omega)
      simp [hi, hn]
  · simp [hai]

theorem generate_eq_some {N : Nat} {ds rest : List Draw} {p : Puzzle}
    (h : generate N ds = some (p, rest)) :
    ∃ sol0 ds0, fillGrid N N ds = some (p.grid, sol0, ds0) ∧
      repair N sol0 ds0 = some (p.solution, rest) ∧
      p.rowTargets = rowTargetsOf N p.grid p.solution ∧
      p.colTargets = colTargetsOf N p.grid p.solution := by
  unfold generate at h
  split at h
  · simp at h
  · rename_i grid sol0 ds0 hfill
    split at h
    · simp at h
    · rename_i sol rest2 hrep
      simp only [Option.some.injEq, Prod.mk.injEq] at h
      obtain ⟨hp, hr⟩ := h
      subst hp hr
      exact ⟨sol0, ds0, hfill, hrep, rfl, rfl⟩

theorem rowTargetsOf_get (N : Nat) (grid : Grid) (sol : Mask) (i : Nat) (hi : i < N) :
    (rowTargetsOf N grid sol).get? i
      = some (∑ j in (Finset.range N).filter (fun j => getB sol i j = true), getN grid i j) := by
  simp [rowTargetsOf, rowSum, foldl_cond_add, hi, List.getElem?_range]

theorem colTargetsOf_get (N : Nat) (grid : Grid) (sol : Mask) (j : Nat) (hj : j < N) :
    (colTargetsOf N grid sol).get? j
      = some (∑ i in (Finset.range N).filter (fun i => getB sol i j = true), getN grid i j) := by
  simp [colTargetsOf, colSum, foldl_cond_add, hj, List.getElem?_range]

theorem getRowSum_eq (s : GameState) (row : Nat) :
    getRowSum s row
      = ∑ j in (Finset.range s.size).filter (fun j => getB s.playerState row j = true),
          getN s.grid row j := by
  simp [getRowSum, foldl_cond_add]

theorem getColSum_eq (s : GameState) (col : Nat) :
    getColSum s col
      = ∑ i in (Finset.range s.size).filter (fun i => getB s.playerState i col = true),
          getN s.grid i col := by
  simp [getColSum, foldl_cond_add]

theorem checkFrom_eq_all (s : GameState) (l : List Nat) :
    checkFrom s l = l.all (fun i => isRowCorrect s i && isColCorrect s i) := by
  induction l with
  | nil => rfl
  | cons i is ih =>
    simp only [checkFrom, List.all_cons, ih]
    cases isRowCorrect s i <;> cases isColCorrect s i <;> simp

theorem checkSolution_eq_true_iff (s : GameState) :
    checkSolution s = true ↔
      ∀ i, i < s.size → isRowCorrect s i = true ∧ isColCorrect s i = true := by
  simp [checkSolution, checkFrom_eq_all, List.all_eq_true]

/-! ### The solution checker and the hint -/

theorem masked_sum_ne (p q : Nat → Bool) (g : Nat → Nat) (N c : Nat) (hc : c < N)
    (hsame : ∀ j, j < N → j ≠ c → p j = q j) (hne : p c ≠ q c) (hg : 1 ≤ g c) :
    ∑ j in (Finset.range N).filter (fun j => p j = true), g j
      ≠ ∑ j in (Finset.range N).filter (fun j => q j = true), g j := by
  rw [Finset.sum_filter, Finset.sum_filter,
    ← Finset.add_sum_erase _ _ (Finset.mem_range.2 hc),
    ← Finset.add_sum_erase (Finset.range N) (fun j => if q j = true then g j else 0)
      (Finset.mem_range.2 hc)]
  have hrest : ∑ j in (Finset.range N).erase c, (if p j = true then g j else 0)
      = ∑ j in (Finset.range N).erase c, (if q j = true then g j else 0) := by
    apply Finset.sum_congr rfl
    intro j hj
    rw [Finset.mem_erase, Finset.mem_range] at hj
    rw [hsame j hj.2 hj.1]
  rw [hrest]
  cases hp : p c <;> cases hq : q c <;> simp_all <;> omega

theorem find_range_some (p : Nat → Bool) (n j : Nat)
    (h : (List.range n).find? p = some j) :
    j < n ∧ p j = true ∧ ∀ k, k < j → p k = false := by
  induction n with
  | zero => simp at h
  | succ n ih =>
    rw [List.range_succ, List.find?_append] at h
    cases hf : (List.range n).find? p with
    | some a =>
      rw [hf] at h
      simp only [Option.or_some, Option.some.injEq] at h
      subst h
      obtain ⟨h1, h2, h3⟩ := ih hf
      exact ⟨by omega, h2, h3⟩
    | none =>
      rw [hf] at h
      simp only [Option.none_or, List.find?_cons, List.find?_nil] at h
      rw [List.find?_eq_none] at hf
      cases hp : p n with
      | false => simp [hp] at h
      | true =>
        simp only [hp, Option.some.injEq] at h
        subst h
        refine ⟨by omega, hp, ?_⟩
        intro k hk
        simpa using hf k (List.mem_range.2 hk)

theorem findSome_range_some {β : Type} (f : Nat → Option β) (n : Nat) (b : β)
    (h : (List.range n).findSome? f = some b) :
    ∃ i, i < n ∧ f i = some b ∧ ∀ k, k < i → f k = none := by
  induction n with
  | zero => simp at h
  | succ n ih =>
    rw [List.range_succ, List.findSome?_append] at h
    cases hf : (List.range n).findSome? f with
    | some a =>
      rw [hf] at h
      simp only [Option.or_some, Option.some.injEq] at h
      subst h
      obtain ⟨i, h1, h2, h3⟩ := ih hf
      exact ⟨i, by omega, h2, h3⟩
    | none =>
      rw [hf] at h
      simp only [Option.none_or, List.findSome?_cons, List.findSome?_nil] at h
      rw [List.findSome?_eq_none_iff] at hf
      cases hp : f n with
      | none => simp [hp] at h
      | some c =>
        simp only [hp, Option.some.injEq] at h
        subst h
        exact ⟨n, by omega, hp, fun k hk => hf k (List.mem_range.2 hk)⟩

theorem mismatchInRow_none (s : GameState) (i : Nat) (h : mismatchInRow s i = none) :
    ∀ b, b < s.size → getB s.playerState i b = getB s.solution i b := by
  intro b hb
  unfold mismatchInRow at h
  rw [List.find?_eq_none] at h
  simpa using h b (List.mem_range.2 hb)

theorem firstMismatch_some (s : GameState) (i j : Nat) (h : firstMismatch s = some (i, j)) :
    i < s.size ∧ j < s.size ∧ getB s.playerState i j ≠ getB s.solution i j ∧
    ∀ a, a < s.size → ∀ b, b < s.size → (a < i ∨ (a = i ∧ b < j)) →
      getB s.playerState a b = getB s.solution a b := by
  obtain ⟨i0, hi0, hf, hbefore⟩ := findSome_range_some _ _ _ h
  cases hm : mismatchInRow s i0 with
  | none => simp [hm] at hf
  | some j0 =>
    simp only [hm, Option.map_some', Option.some.injEq, Prod.mk.injEq] at hf
    obtain ⟨e1, e2⟩ := hf
    subst e1 e2
    obtain ⟨hj, hp, hq⟩ := find_range_some _ _ _ hm
    refine ⟨hi0, hj, by simpa using hp, ?_⟩
    intro a ha b hb hlt
    rcases hlt with hlt | ⟨rfl, hlt⟩
    · have hn := hbefore a hlt
      simp only [Option.map_eq_none'] at hn
      exact mismatchInRow_none s a hn b hb
    · simpa using hq b hlt

theorem firstMismatch_none (s : GameState) (h : firstMismatch s = none) :
    ∀ a, a < s.size → ∀ b, b < s.size → getB s.playerState a b = getB s.solution a b := by
  intro a ha b hb
  unfold firstMismatch at h
  rw [List.findSome?_eq_none_iff] at h
  have hn := h a (List.mem_range.2 ha)
  simp only [Option.map_eq_none'] at hn
  exact mismatchInRow_none s a hn b hb

theorem square_setB (size : Nat) (m : Mask) (i j : Nat) (v : Bool) (h : Square size m) :
    Square size (setB m i j v) := by
  obtain ⟨h1, h2⟩ := h
  refine ⟨by simp [setB, h1], ?_⟩
  intro row hrow
  unfold setB at hrow
  by_cases hi : i < m.length
  · rcases List.mem_or_eq_of_mem_set hrow with hmem | heq
    · exact h2 row hmem
    · subst heq
      rw [List.length_set, List.getD_eq_getElem?_getD, List.getElem?_eq_getElem hi]
      exact h2 _ (List.getElem_mem hi)
  · rw [List.set_eq_of_length_le (by omega)] at hrow
    exact h2 row hrow

theorem square_getD_length (size : Nat) (m : Mask) (i : Nat) (h : Square size m) (hi : i < size) :
    (m.getD i []).length = size := by
  obtain ⟨h1, h2⟩ := h
  have hi2 : i < m.length := by omega
  rw [List.getD_eq_getElem?_getD, List.getElem?_eq_getElem hi2]
  exact h2 _ (List.getElem_mem hi2)

theorem getB_setB_square (size : Nat) (m : Mask) (i j : Nat) (v : Bool) (h : Square size m)
    (hi : i < size) (hj : j < size) : getB (setB m i j v) i j = v :=
  getB_setB_same m i j v (by rw [h.1]; exact hi) (by rw [square_getD_length size m i h hi]; exact hj)

theorem hamming_setB (size : Nat) (m sol : Mask) (i j : Nat) (hsq : Square size m)
    (hi : i < size) (hj : j < size) (hne : getB m i j ≠ getB sol i j) :
    hamming size (setB m i j (getB sol i j)) sol + 1 = hamming size m sol := by
  unfold hamming
  have hmem : (i, j) ∈ (Finset.range size ×ˢ Finset.range size).filter
      (fun c => getB m c.1 c.2 ≠ getB sol c.1 c.2) := by
    simp [hi, hj, hne]
  have heq : (Finset.range size ×ˢ Finset.range size).filter
        (fun c => getB (setB m i j (getB sol i j)) c.1 c.2 ≠ getB sol c.1 c.2)
      = ((Finset.range size ×ˢ Finset.range size).filter
        (fun c => getB m c.1 c.2 ≠ getB sol c.1 c.2)).erase (i, j) := by
    ext ⟨a, b⟩
    simp only [Finset.mem_filter, Finset.mem_product, Finset.mem_range, Finset.mem_erase,
      Prod.mk.injEq, ne_eq]
    by_cases hab : a = i ∧ b = j
    · obtain ⟨rfl, rfl⟩ := hab
      simp [getB_setB_square size m a b _ hsq hi hj]
    · rw [getB_setB_ne m i j a b _ hab]
      tauto
  rw [heq, Finset.card_erase_of_mem hmem]
  have : 0 < ((Finset.range size ×ˢ Finset.range size).filter
      (fun c => getB m c.1 c.2 ≠ getB sol c.1 c.2)).card := Finset.card_pos.2 ⟨_, hmem⟩
  omega

theorem giveHint_eq (s : GameState) (i j : Nat) (hh : s.hintsUsed < 3)
    (hc : s.isComplete = false) (hf : firstMismatch s = some (i, j)) :
    (giveHint s).playerState = setB s.playerState i j (getB s.solution i j) ∧
    (giveHint s).hintsUsed = s.hintsUsed + 1 ∧
    (giveHint s).solution = s.solution ∧ (giveHint s).grid = s.grid ∧
    (giveHint s).size = s.size ∧ (giveHint s).moves = s.moves ∧
    (giveHint s).rowTargets = s.rowTargets ∧ (giveHint s).colTargets = s.colTargets := by
  have hguard : (decide (s.hintsUsed ≥ 3) || s.isComplete) = false := by
    simp [hc]; omega
  unfold giveHint
  rw [if_neg (by simp [hguard]), hf]
  dsimp only
  split
  · unfold onPuzzleSolved
    split <;> simp
  · simp

theorem Draw.floorMul_lt (r : Draw) (n : Nat) (h : 0 < n) : r.floorMul n < n := by
  unfold Draw.floorMul
  have hd : 0 < r.den := Nat.lt_of_le_of_lt (Nat.zero_le _) r.lt
  rw [Nat.div_lt_iff_lt_mul hd]
  exact Nat.mul_lt_mul_of_lt_of_le r.lt (Nat.le_refl n) h |>.trans_le (by rw [Nat.mul_comm])

/-! ### Counting over an index range -/

theorem countP_range_congr (p q : Nat → Bool) (n : Nat) (h : ∀ i, i < n → p i = q i) :
    (List.range n).countP p = (List.range n).countP q := by
  apply List.countP_congr
  intro i hi
  rw [h i (List.mem_range.1 hi)]

theorem countP_range_le (p : Nat → Bool) (n : Nat) : (List.range n).countP p ≤ n := by
  have := List.countP_le_length p (l := List.range n)
  simpa using this

theorem countP_range_mono (p q : Nat → Bool) (n : Nat) (h : ∀ i, i < n → q i = true → p i = true) :
    (List.range n).countP q ≤ (List.range n).countP p := by
  apply List.countP_mono_left
  intro i hi
  exact h i (List.mem_range.1 hi)

theorem countP_range_flip (p q : Nat → Bool) (n c : Nat) (hc : c < n)
    (hsame : ∀ i, i < n → i ≠ c → q i = p i) (hp : p c = false) (hq : q c = true) :
    (List.range n).countP q = (List.range n).countP p + 1 := by
  induction n with
  | zero => omega
  | succ n ih =>
    rw [List.range_succ, List.countP_append, List.countP_append]
    by_cases hcn : c = n
    · subst hcn
      have h1 : (List.range c).countP q = (List.range c).countP p :=
        countP_range_congr q p c (fun i hi => hsame i (by omega) (by omega))
      simp [h1, hp, hq]
    · have h1 := ih (by omega) (fun i hi hne => hsame i (by omega) hne)
      have h2 : q n = p n := hsame n (by omega) (fun e => hcn e.symm)
      rw [h1, List.countP_singleton, List.countP_singleton, h2]
      omega

theorem countP_range_exists_false (p : Nat → Bool) (n : Nat)
    (h : (List.range n).countP p < n) : ∃ i, i < n ∧ p i = false := by
  by_contra hne
  push_neg at hne
  have hall : (List.range n).countP p = (List.range n).length := by
    rw [List.countP_eq_length]
    intro i hi
    have := hne i (List.mem_range.1 hi)
    simpa using this
  simp at hall
  omega

theorem countP_range_all_true (p : Nat → Bool) (n : Nat)
    (h : (List.range n).countP p = n) : ∀ i, i < n → p i = true := by
  have h2 : (List.range n).countP p = (List.range n).length := by simpa using h
  rw [List.countP_eq_length] at h2
  intro i hi
  exact h2 i (List.mem_range.2 hi)

theorem filter_length_eq_countP (l : List Bool) :
    (l.filter (fun x => x)).length = (List.range l.length).countP (fun j => l.getD j false) := by
  induction l with
  | nil => rfl
  | cons x xs ih =>
    rw [List.length_cons, List.range_succ_eq_map, List.countP_cons, List.countP_map]
    simp only [List.filter_cons]
    have : ((fun j => (x :: xs).getD j false) ∘ Nat.succ) = (fun j => xs.getD j false) := by
      funext j; simp
    rw [this, ← ih]
    cases x <;> simp

/-! ### Counts of a square mask -/

theorem rowCount_eq (size : Nat) (sol : Mask) (i : Nat) (h : Square size sol) (hi : i < size) :
    rowCount sol i = (List.range size).countP (fun j => getB sol i j) := by
  unfold rowCount
  rw [filter_length_eq_countP, square_getD_length size sol i h hi]
  rfl

theorem getB_setB_false (m : Mask) (i j a b : Nat) (h : getB m a b = false) :
    getB (setB m i j false) a b = false := by
  by_cases hab : a = i ∧ b = j
  · obtain ⟨rfl, rfl⟩ := hab
    by_cases hi : a < m.length
    · by_cases hj : b < (m.getD a []).length
      · exact getB_setB_same m a b false hi hj
      · have : (m.getD a []).set b false = m.getD a [] := List.set_eq_of_length_le (by omega)
        unfold setB
        rw [this]
        unfold getB at h ⊢
        rw [List.getD_eq_getElem?_getD (List.set _ _ _), List.getElem?_set_self hi]
        exact h
    · unfold setB
      rw [List.set_eq_of_length_le (by omega)]
      exact h
  · rw [getB_setB_ne m i j a b false hab]; exact h

theorem colCount_setB_other (size : Nat) (m : Mask) (i j k : Nat) (v : Bool) (h : k ≠ j) :
    colCount size (setB m i j v) k = colCount size m k := by
  unfold colCount
  apply countP_range_congr
  intro a _
  exact getB_setB_ne m i j a k v (fun e => h e.2)

theorem colCount_setB_true (size : Nat) (m : Mask) (i j : Nat) (hsq : Square size m)
    (hi : i < size) (hj : j < size) (hf : getB m i j = false) :
    colCount size (setB m i j true) j = colCount size m j + 1 := by
  unfold colCount
  apply countP_range_flip _ _ size i hi
  · intro a _ hne
    exact getB_setB_ne m i j a j true (fun e => hne e.1)
  · exact hf
  · exact getB_setB_square size m i j true hsq hi hj

theorem colCount_setB_false_le (size : Nat) (m : Mask) (i j k : Nat) :
    colCount size (setB m i j false) k ≤ colCount size m k := by
  unfold colCount
  apply countP_range_mono
  intro a _ ht
  by_contra hne
  have hf : getB m a k = false := by simpa using hne
  rw [getB_setB_false m i j a k hf] at ht
  exact Bool.noConfusion ht

theorem colCount_setB_false_of_true (size : Nat) (m : Mask) (i j : Nat) (hsq : Square size m)
    (hi : i < size) (hj : j < size) (ht : getB m i j = true) :
    colCount size (setB m i j false) j + 1 = colCount size m j := by
  unfold colCount
  symm
  apply countP_range_flip _ _ size i hi
  · intro a _ hne
    exact (getB_setB_ne m i j a j false (fun e => hne e.1)).symm
  · exact getB_setB_square size m i j false hsq hi hj
  · exact ht

theorem rowCount_setB_true (size : Nat) (m : Mask) (i j : Nat) (hsq : Square size m)
    (hi : i < size) (hj : j < size) (hf : getB m i j = false) :
    rowCount (setB m i j true) i = rowCount m i + 1 := by
  rw [rowCount_eq size _ i (square_setB size m i j true hsq) hi, rowCount_eq size m i hsq hi]
  apply countP_range_flip _ _ size j hj
  · intro b _ hne
    exact getB_setB_ne m i j i b true (fun e => hne e.2)
  · exact hf
  · exact getB_setB_square size m i j true hsq hi hj

/-! ### Predicates that every write preserves -/

theorem rowFill_stable (P : Mask → Prop) (hP : ∀ m i j v, P m → P (setB m i j v))
    (size i : Nat) (ds : List Draw) :
    ∀ (sol : Mask) (c : Nat) (sol1 : Mask) (c1 : Nat) (ds1 : List Draw),
      rowFill size i ds sol c = some (sol1, c1, ds1) → P sol → P sol1 := by
  induction ds with
  | nil =>
    intro sol c sol1 c1 ds1 h hp
    unfold rowFill at h
    split at h
    · simp at h
    · simp only [Option.some.injEq, Prod.mk.injEq] at h
      rw [← h.1]; exact hp
  | cons r ds ih =>
    intro sol c sol1 c1 ds1 h hp
    unfold rowFill at h
    split at h
    · split at h
      · exact ih _ _ _ _ _ h (hP _ _ _ _ hp)
      · exact ih _ _ _ _ _ h hp
    · simp only [Option.some.injEq, Prod.mk.injEq] at h
      rw [← h.1]; exact hp

theorem colFill_stable (P : Mask → Prop) (hP : ∀ m i j v, P m → P (setB m i j v))
    (size j : Nat) (ds : List Draw) :
    ∀ (sol : Mask) (c : Nat) (sol1 : Mask) (c1 : Nat) (ds1 : List Draw),
      colFill size j ds sol c = some (sol1, c1, ds1) → P sol → P sol1 := by
  induction ds with
  | nil =>
    intro sol c sol1 c1 ds1 h hp
    unfold colFill at h
    split at h
    · simp at h
    · simp only [Option.some.injEq, Prod.mk.injEq] at h
      rw [← h.1]; exact hp
  | cons r ds ih =>
    intro sol c sol1 c1 ds1 h hp
    unfold colFill at h
    split at h
    · split at h
      · exact ih _ _ _ _ _ h (hP _ _ _ _ hp)
      · exact ih _ _ _ _ _ h hp
    · simp only [Option.some.injEq, Prod.mk.injEq] at h
      rw [← h.1]; exact hp

theorem rowRepair_stable (P : Mask → Prop) (hP : ∀ m i j v, P m → P (setB m i j v))
    (size i : Nat) (sol : Mask) (ds : List Draw) (sol1 : Mask) (ds1 : List Draw)
    (h : rowRepair size i sol ds = some (sol1, ds1)) (hp : P sol) : P sol1 := by
  unfold rowRepair at h
  split at h
  · simp at h
  · rename_i sol2 c2 ds2 hfill
    have hp2 := rowFill_stable P hP size i ds sol _ sol2 c2 ds2 hfill hp
    split at h
    · split at h
      · simp at h
      · simp only [Option.some.injEq, Prod.mk.injEq] at h
        rw [← h.1]; exact hP _ _ _ _ hp2
    · simp only [Option.some.injEq, Prod.mk.injEq] at h
      rw [← h.1]; exact hp2

theorem colRepair_stable (P : Mask → Prop) (hP : ∀ m i j v, P m → P (setB m i j v))
    (size j : Nat) (sol : Mask) (ds : List Draw) (sol1 : Mask) (ds1 : List Draw)
    (h : colRepair size j sol ds = some (sol1, ds1)) (hp : P sol) : P sol1 := by
  unfold colRepair at h
  split at h
  · simp at h
  · rename_i sol2 c2 ds2 hfill
    have hp2 := colFill_stable P hP size j ds sol _ sol2 c2 ds2 hfill hp
    split at h
    · split at h
      · simp at h
      · simp only [Option.some.injEq, Prod.mk.injEq] at h
        rw [← h.1]; exact hP _ _ _ _ hp2
    · simp only [Option.some.injEq, Prod.mk.injEq] at h
      rw [← h.1]; exact hp2

theorem finalRepair_cases (size i : Nat) (sol : Mask) (ds : List Draw) (sol1 : Mask)
    (ds1 : List Draw) (h : finalRepair size i sol ds = some (sol1, ds1)) :
    (rowCount sol i ≠ size ∧ sol1 = sol ∧ ds1 = ds) ∨
    (rowCount sol i = size ∧ 0 < (candidates size sol).length ∧
      ∃ r, ds = r :: ds1 ∧
        sol1 = setB sol i
          ((candidates size sol).getD (r.floorMul (candidates size sol).length) 0) false) ∨
    (rowCount sol i = size ∧ (candidates size sol).length = 0 ∧
      ∃ r, ds = r :: ds1 ∧ sol1 = setB sol i (r.floorMul size) false) := by
  unfold finalRepair at h
  split at h
  · rename_i hfull
    split at h
    · rename_i hc
      split at h
      · simp at h
      · rename_i r ds2
        simp only [Option.some.injEq, Prod.mk.injEq] at h
        exact Or.inr (Or.inl ⟨hfull, hc, r, by rw [h.2], h.1.symm⟩)
    · rename_i hc
      split at h
      · simp at h
      · rename_i r ds2
        simp only [Option.some.injEq, Prod.mk.injEq] at h
        exact Or.inr (Or.inr ⟨hfull, by omega, r, by rw [h.2], h.1.symm⟩)
  · rename_i hfull
    simp only [Option.some.injEq, Prod.mk.injEq] at h
    exact Or.inl ⟨hfull, h.1.symm, h.2.symm⟩

theorem finalRepair_stable (P : Mask → Prop) (hP : ∀ m i j v, P m → P (setB m i j v))
    (size i : Nat) (sol : Mask) (ds : List Draw) (sol1 : Mask) (ds1 : List Draw)
    (h : finalRepair size i sol ds = some (sol1, ds1)) (hp : P sol) : P sol1 := by
  rcases finalRepair_cases size i sol ds sol1 ds1 h with ⟨-, rfl, -⟩ | ⟨-, -, r, -, rfl⟩ |
    ⟨-, -, r, -, rfl⟩
  · exact hp
  · exact hP _ _ _ _ hp
  · exact hP _ _ _ _ hp

theorem forEach_stable (body : Nat → Mask → List Draw → Option (Mask × List Draw))
    (P : Mask → Prop)
    (hbody : ∀ i sol ds sol1 ds1, body i sol ds = some (sol1, ds1) → P sol → P sol1)
    (is : List Nat) :
    ∀ (sol : Mask) (ds : List Draw) (sol1 : Mask) (ds1 : List Draw),
      forEach body is sol ds = some (sol1, ds1) → P sol → P sol1 := by
  induction is with
  | nil =>
    intro sol ds sol1 ds1 h hp
    simp only [forEach, Option.some.injEq, Prod.mk.injEq] at h
    rw [← h.1]; exact hp
  | cons i is ih =>
    intro sol ds sol1 ds1 h hp
    unfold forEach at h
    split at h
    · simp at h
    · rename_i sol2 ds2 hb
      exact ih _ _ _ _ h (hbody _ _ _ _ _ hb hp)

/-- After a loop over distinct indices whose body establishes `R` at its own
index and preserves `R` at every other index, `R` holds at all of them. -/
theorem forEach_establish (body : Nat → Mask → List Draw → Option (Mask × List Draw))
    (Inv : Mask → Prop) (R : Mask → Nat → Prop) (is : List Nat)
    (hinv : ∀ i sol ds sol1 ds1, i ∈ is → body i sol ds = some (sol1, ds1) → Inv sol →
      Inv sol1)
    (hkeep : ∀ i k sol ds sol1 ds1, i ∈ is → body i sol ds = some (sol1, ds1) → Inv sol →
      k ≠ i → R sol k → R sol1 k)
    (hmake : ∀ i sol ds sol1 ds1, i ∈ is → body i sol ds = some (sol1, ds1) → Inv sol →
      R sol1 i)
    (hnd : is.Nodup) :
    ∀ (sol : Mask) (ds : List Draw) (sol1 : Mask) (ds1 : List Draw),
      forEach body is sol ds = some (sol1, ds1) → Inv sol →
      Inv sol1 ∧ (∀ i, i ∈ is → R sol1 i) ∧ (∀ k, k ∉ is → R sol k → R sol1 k) := by
  induction is with
  | nil =>
    intro sol ds sol1 ds1 h hI
    simp only [forEach, Option.some.injEq, Prod.mk.injEq] at h
    rw [← h.1]
    exact ⟨hI, fun i hi => absurd hi (List.not_mem_nil i), fun k _ hr => hr⟩
  | cons a is ih =>
    intro sol ds sol1 ds1 h hI
    unfold forEach at h
    split at h
    · simp at h
    · rename_i sol2 ds2 hb
      rw [List.nodup_cons] at hnd
      have ha : a ∈ a :: is := List.mem_cons_self a is
      obtain ⟨h0, h1, h2⟩ := ih
        (fun i s d s1 d1 hi => hinv i s d s1 d1 (List.mem_cons_of_mem a hi))
        (fun i k s d s1 d1 hi => hkeep i k s d s1 d1 (List.mem_cons_of_mem a hi))
        (fun i s d s1 d1 hi => hmake i s d s1 d1 (List.mem_cons_of_mem a hi))
        hnd.2 sol2 ds2 sol1 ds1 h (hinv _ _ _ _ _ ha hb hI)
      refine ⟨h0, ?_, ?_⟩
      · intro i hi
        rcases List.mem_cons.1 hi with rfl | hi
        · exact h2 i hnd.1 (hmake _ _ _ _ _ ha hb hI)
        · exact h1 i hi
      · intro k hk hr
        rw [List.mem_cons, not_or] at hk
        exact h2 k hk.2 (hkeep _ _ _ _ _ _ ha hb hI hk.1 hr)

/-! ### The grid fill and the final pass -/

theorem fillRow_spec (n : Nat) :
    ∀ (ds : List Draw) (gr : List Nat) (sr : List Bool) (rest : List Draw),
      fillRow n ds = some (gr, sr, rest) →
      gr.length = n ∧ sr.length = n ∧ ∀ x, x ∈ gr → 1 ≤ x ∧ x ≤ 9 := by
  induction n with
  | zero =>
    intro ds gr sr rest h
    simp only [fillRow, Option.some.injEq, Prod.mk.injEq] at h
    obtain ⟨rfl, rfl, -⟩ := h
    simp
  | succ n ih =>
    intro ds gr sr rest h
    match ds, h with
    | [], h => simp [fillRow] at h
    | [_], h => simp [fillRow] at h
    | g :: m :: ds, h =>
      unfold fillRow at h
      split at h
      · rename_i gr1 sr1 rest1 hrec
        simp only [Option.some.injEq, Prod.mk.injEq] at h
        obtain ⟨rfl, rfl, -⟩ := h
        obtain ⟨h1, h2, h3⟩ := ih ds gr1 sr1 rest1 hrec
        refine ⟨by simp [h1], by simp [h2], ?_⟩
        intro x hx
        rcases List.mem_cons.1 hx with rfl | hx
        · have := Draw.floorMul_lt g 9 (by decide)
          omega
        · exact h3 x hx
      · simp at h

theorem fillGrid_spec (size n : Nat) :
    ∀ (ds : List Draw) (g : Grid) (s : Mask) (rest : List Draw),
      fillGrid size n ds = some (g, s, rest) →
      g.length = n ∧ s.length = n ∧
      (∀ row, row ∈ g → row.length = size ∧ ∀ x, x ∈ row → 1 ≤ x ∧ x ≤ 9) ∧
      (∀ row, row ∈ s → row.length = size) := by
  induction n with
  | zero =>
    intro ds g s rest h
    simp only [fillGrid, Option.some.injEq, Prod.mk.injEq] at h
    obtain ⟨rfl, rfl, -⟩ := h
    simp
  | succ n ih =>
    intro ds g s rest h
    unfold fillGrid at h
    split at h
    · simp at h
    · rename_i gr sr rest1 hrow
      split at h
      · simp at h
      · rename_i g1 s1 rest2 hrec
        simp only [Option.some.injEq, Prod.mk.injEq] at h
        obtain ⟨rfl, rfl, -⟩ := h
        obtain ⟨h1, h2, h3, h4⟩ := ih rest1 g1 s1 rest2 hrec
        obtain ⟨r1, r2, r3⟩ := fillRow_spec size ds gr sr rest1 hrow
        refine ⟨by simp [h1], by simp [h2], ?_, ?_⟩
        · intro row hr
          rcases List.mem_cons.1 hr with rfl | hr
          · exact ⟨r1, r3⟩
          · exact h3 row hr
        · intro row hr
          rcases List.mem_cons.1 hr with rfl | hr
          · exact r2
          · exact h4 row hr

theorem fillGrid_square (size : Nat) (ds : List Draw) (g : Grid) (s : Mask) (rest : List Draw)
    (h : fillGrid size size ds = some (g, s, rest)) : Square size s := by
  obtain ⟨-, h2, -, h4⟩ := fillGrid_spec size size ds g s rest h
  exact ⟨h2, h4⟩

theorem fillGrid_cell (size : Nat) (ds : List Draw) (g : Grid) (s : Mask) (rest : List Draw)
    (h : fillGrid size size ds = some (g, s, rest)) (i j : Nat) (hi : i < size) (hj : j < size) :
    1 ≤ getN g i j ∧ getN g i j ≤ 9 := by
  obtain ⟨h1, -, h3, -⟩ := fillGrid_spec size size ds g s rest h
  have hi2 : i < g.length := by omega
  obtain ⟨hl, hx⟩ := h3 _ (List.getElem_mem hi2)
  have hj2 : j < (g[i]).length := by omega
  have hrow : g.getD i [] = g[i] := by
    rw [List.getD_eq_getElem?_getD, List.getElem?_eq_getElem hi2, Option.getD_some]
  have hcell : (g[i]).getD j 0 = (g[i])[j] := by
    rw [List.getD_eq_getElem?_getD, List.getElem?_eq_getElem hj2, Option.getD_some]
  unfold getN
  rw [hrow, hcell]
  exact hx _ (List.getElem_mem hj2)

theorem repair_stable (P : Mask → Prop) (hP : ∀ m i j v, P m → P (setB m i j v))
    (size : Nat) (sol : Mask) (ds : List Draw) (sol1 : Mask) (ds1 : List Draw)
    (h : repair size sol ds = some (sol1, ds1)) (hp : P sol) : P sol1 := by
  unfold repair at h
  split at h
  · simp at h
  · rename_i sol2 ds2 hrow
    split at h
    · simp at h
    · rename_i sol3 ds3 hcol
      have h2 := forEach_stable (rowRepair size) P
        (fun i s d s1 d1 => rowRepair_stable P hP size i s d s1 d1) _ _ _ _ _ hrow hp
      have h3 := forEach_stable (colRepair size) P
        (fun i s d s1 d1 => colRepair_stable P hP size i s d s1 d1) _ _ _ _ _ hcol h2
      exact forEach_stable (finalRepair size) P
        (fun i s d s1 d1 => finalRepair_stable P hP size i s d s1 d1) _ _ _ _ _ h h3

theorem repair_eq_some {size : Nat} {sol : Mask} {ds : List Draw} {sol3 : Mask}
    {ds3 : List Draw} (h : repair size sol ds = some (sol3, ds3)) :
    ∃ sol1 ds1 sol2 ds2, rowPass size sol ds = some (sol1, ds1) ∧
      colPass size sol1 ds1 = some (sol2, ds2) ∧ finalPass size sol2 ds2 = some (sol3, ds3) := by
  unfold repair at h
  split at h
  · simp at h
  · rename_i sol1 ds1 hrow
    split at h
    · simp at h
    · rename_i sol2 ds2 hcol
      exact ⟨sol1, ds1, sol2, ds2, hrow, hcol, h⟩

theorem candidates_getD_lt (size : Nat) (sol : Mask) (k : Nat)
    (hk : k < (candidates size sol).length) :
    (candidates size sol).getD k 0 < size ∧
      2 < colCount size sol ((candidates size sol).getD k 0) := by
  rw [List.getD_eq_getElem?_getD, List.getElem?_eq_getElem hk, Option.getD_some]
  have hmem := List.getElem_mem hk
  unfold candidates at hmem
  rw [List.mem_filter, List.mem_range] at hmem
  exact ⟨hmem.1, by simpa using hmem.2⟩

theorem hasGap_setB_false (size : Nat) (sol : Mask) (a b k : Nat) (h : HasGap size sol k) :
    HasGap size (setB sol a b false) k := by
  obtain ⟨j, hj, hf⟩ := h
  exact ⟨j, hj, getB_setB_false sol a b k j hf⟩

theorem finalRepair_keeps_gap (size i k : Nat) (sol : Mask) (ds : List Draw) (sol1 : Mask)
    (ds1 : List Draw) (h : finalRepair size i sol ds = some (sol1, ds1))
    (hg : HasGap size sol k) : HasGap size sol1 k := by
  rcases finalRepair_cases size i sol ds sol1 ds1 h with ⟨-, rfl, -⟩ | ⟨-, -, r, -, rfl⟩ |
    ⟨-, -, r, -, rfl⟩
  · exact hg
  · exact hasGap_setB_false size sol _ _ k hg
  · exact hasGap_setB_false size sol _ _ k hg

theorem finalRepair_makes_gap (size i : Nat) (sol : Mask) (ds : List Draw) (sol1 : Mask)
    (ds1 : List Draw) (h : finalRepair size i sol ds = some (sol1, ds1))
    (hsq : Square size sol) (hi : i < size) : HasGap size sol1 i := by
  rcases finalRepair_cases size i sol ds sol1 ds1 h with ⟨hne, rfl, -⟩ | ⟨-, hc, r, -, rfl⟩ |
    ⟨-, -, r, -, rfl⟩
  · rw [rowCount_eq size sol1 i hsq hi] at hne
    have hle := countP_range_le (fun j => getB sol1 i j) size
    exact countP_range_exists_false (fun j => getB sol1 i j) size (lt_of_le_of_ne hle hne)
  · have hlt := (candidates_getD_lt size sol _ (Draw.floorMul_lt r _ hc)).1
    exact ⟨_, hlt, getB_setB_square size sol i _ false hsq hi hlt⟩
  · have hlt := Draw.floorMul_lt r size (by omega)
    exact ⟨_, hlt, getB_setB_square size sol i _ false hsq hi hlt⟩

theorem finalPass_gaps (size : Nat) (sol : Mask) (ds : List Draw) (sol1 : Mask)
    (ds1 : List Draw) (h : finalPass size sol ds = some (sol1, ds1)) (hsq : Square size sol) :
    ∀ i, i < size → HasGap size sol1 i := by
  intro i hi
  have key := forEach_establish (finalRepair size) (Square size)
    (fun m k => HasGap size m k) (List.range size)
    (fun i s d s1 d1 _ hb =>
      finalRepair_stable (Square size) (square_setB size) size i s d s1 d1 hb)
    (fun i k s d s1 d1 _ hb _ _ hr => finalRepair_keeps_gap size i k s d s1 d1 hb hr)
    (fun i s d s1 d1 hi hb hI =>
      finalRepair_makes_gap size i s d s1 d1 hb hI (List.mem_range.1 hi))
    (List.nodup_range size) sol ds sol1 ds1 h hsq
  exact key.2.1 i (List.mem_range.2 hi)

theorem getB_allActive (size i j : Nat) (hi : i < size) (hj : j < size) :
    getB (allActive size) i j = true := by
  simp [getB, allActive, List.getD_eq_getElem?_getD, List.getElem?_map, List.getElem?_range, hi, hj]

theorem generate_square {N : Nat} {ds rest : List Draw} {p : Puzzle}
    (h : generate N ds = some (p, rest)) : Square N p.solution := by
  obtain ⟨sol0, ds0, hfill, hrep, -, -⟩ := generate_eq_some h
  exact repair_stable (Square N) (square_setB N) N sol0 ds0 _ _ hrep
    (fillGrid_square N ds _ sol0 ds0 hfill)

theorem generate_gaps {N : Nat} {ds rest : List Draw} {p : Puzzle}
    (h : generate N ds = some (p, rest)) : ∀ i, i < N → HasGap N p.solution i := by
  obtain ⟨sol0, ds0, hfill, hrep, -, -⟩ := generate_eq_some h
  obtain ⟨sol1, ds1, sol2, ds2, hrow, hcol, hfin⟩ := repair_eq_some hrep
  have h0 := fillGrid_square N ds _ sol0 ds0 hfill
  have h1 := forEach_stable (rowRepair N) (Square N)
    (fun i s d s1 d1 => rowRepair_stable _ (square_setB N) N i s d s1 d1) _ _ _ _ _ hrow h0
  have h2 := forEach_stable (colRepair N) (Square N)
    (fun i s d s1 d1 => colRepair_stable _ (square_setB N) N i s d s1 d1) _ _ _ _ _ hcol h1
  exact finalPass_gaps N sol2 ds2 _ rest hfin h2

/-! ### The column pass and the fallback branch -/

theorem colCount_le (size : Nat) (m : Mask) (j : Nat) : colCount size m j ≤ size :=
  countP_range_le _ size

theorem colCount_setB_false_ge (size : Nat) (m : Mask) (i j k : Nat) (hsq : Square size m)
    (hi : i < size) (hj : j < size) :
    colCount size m k ≤ colCount size (setB m i j false) k + 1 := by
  by_cases hk : k = j
  · subst hk
    cases hc : getB m i k with
    | true =>
      have := colCount_setB_false_of_true size m i k hsq hi hj hc
      omega
    | false =>
      have : colCount size (setB m i k false) k = colCount size m k := by
        unfold colCount
        apply countP_range_congr
        intro a _
        by_cases ha : a = i
        · subst ha
          rw [getB_setB_square size m a k false hsq hi hj, hc]
        · exact getB_setB_ne m i k a k false (fun e => ha e.1)
      omega
  · rw [colCount_setB_other size m i j k false hk]
    omega

theorem colFill_spec (size j : Nat) (hj : j < size) (ds : List Draw) :
    ∀ (sol : Mask) (c : Nat) (sol1 : Mask) (c1 : Nat) (ds1 : List Draw),
      colFill size j ds sol c = some (sol1, c1, ds1) → Square size sol →
      c = colCount size sol j →
      Square size sol1 ∧ c1 = colCount size sol1 j ∧ 2 ≤ c1 ∧
        ∀ k, k ≠ j → colCount size sol1 k = colCount size sol k := by
  induction ds with
  | nil =>
    intro sol c sol1 c1 ds1 h hsq hc
    unfold colFill at h
    split at h
    · simp at h
    · rename_i hge
      simp only [Option.some.injEq, Prod.mk.injEq] at h
      obtain ⟨rfl, rfl, -⟩ := h
      exact ⟨hsq, hc, by omega, fun k _ => rfl⟩
  | cons r ds ih =>
    intro sol c sol1 c1 ds1 h hsq hc
    unfold colFill at h
    split at h
    · split at h
      · rename_i hcell
        have hi := Draw.floorMul_lt r size (by omega)
        obtain ⟨h1, h2, h3, h4⟩ := ih _ _ _ _ _ h (square_setB size sol _ _ _ hsq)
          (by rw [colCount_setB_true size sol _ j hsq hi hj hcell, hc])
        refine ⟨h1, h2, h3, ?_⟩
        intro k hk
        rw [h4 k hk, colCount_setB_other size sol _ j k true hk]
      · exact ih _ _ _ _ _ h hsq hc
    · rename_i hge
      simp only [Option.some.injEq, Prod.mk.injEq] at h
      obtain ⟨rfl, rfl, -⟩ := h
      exact ⟨hsq, hc, by omega, fun k _ => rfl⟩

theorem colRepair_spec (size j : Nat) (hj : j < size) (sol : Mask) (ds : List Draw)
    (sol1 : Mask) (ds1 : List Draw) (h : colRepair size j sol ds = some (sol1, ds1))
    (hsq : Square size sol) :
    (3 ≤ size → 2 ≤ colCount size sol1 j) ∧ colCount size sol1 j ≤ size - 1 ∧
      ∀ k, k ≠ j → colCount size sol1 k = colCount size sol k := by
  unfold colRepair at h
  split at h
  · simp at h
  · rename_i sol2 c2 ds2 hfill
    obtain ⟨h1, h2, h3, h4⟩ := colFill_spec size j hj ds sol _ sol2 c2 ds2 hfill hsq rfl
    have hle := colCount_le size sol2 j
    split at h
    · rename_i hfull
      split at h
      · simp at h
      · rename_i r ds3
        simp only [Option.some.injEq, Prod.mk.injEq] at h
        obtain ⟨rfl, -⟩ := h
        have hi := Draw.floorMul_lt r size (by omega)
        have hcnt : colCount size sol2 j = size := by omega
        have hall := countP_range_all_true (fun i => getB sol2 i j) size hcnt
        have hdec := colCount_setB_false_of_true size sol2 _ j h1 hi hj (hall _ hi)
        refine ⟨fun h3 => by omega, by omega, ?_⟩
        intro k hk
        rw [colCount_setB_other size sol2 _ j k false hk, h4 k hk]
    · rename_i hne
      simp only [Option.some.injEq, Prod.mk.injEq] at h
      obtain ⟨rfl, -⟩ := h
      exact ⟨fun _ => by omega, by omega, h4⟩

theorem colPass_spec (size : Nat) (sol : Mask) (ds : List Draw) (sol1 : Mask)
    (ds1 : List Draw) (h : colPass size sol ds = some (sol1, ds1)) (hsq : Square size sol) :
    Square size sol1 ∧
    ∀ j, j < size → (3 ≤ size → 2 ≤ colCount size sol1 j) ∧ colCount size sol1 j ≤ size - 1 := by
  have key := forEach_establish (colRepair size) (Square size)
    (fun m k => (3 ≤ size → 2 ≤ colCount size m k) ∧ colCount size m k ≤ size - 1)
    (List.range size)
    (fun i s d s1 d1 _ hb =>
      colRepair_stable (Square size) (square_setB size) size i s d s1 d1 hb)
    (fun i k s d s1 d1 hi hb hI hne hr => by
      have he := (colRepair_spec size i (List.mem_range.1 hi) s d s1 d1 hb hI).2.2 k hne
      dsimp only at hr ⊢
      rw [he]
      exact hr)
    (fun i s d s1 d1 hi hb hI =>
      ⟨(colRepair_spec size i (List.mem_range.1 hi) s d s1 d1 hb hI).1,
        (colRepair_spec size i (List.mem_range.1 hi) s d s1 d1 hb hI).2.1⟩)
    (List.nodup_range size) sol ds sol1 ds1 h hsq
  exact ⟨key.1, fun j hj => key.2.1 j (List.mem_range.2 hj)⟩

theorem finalRepair_stable_off (P : Mask → Prop) (hP : ∀ m i j, P m → P (setB m i j false))
    (size i : Nat) (sol : Mask) (ds : List Draw) (sol1 : Mask) (ds1 : List Draw)
    (h : finalRepair size i sol ds = some (sol1, ds1)) (hp : P sol) : P sol1 := by
  rcases finalRepair_cases size i sol ds sol1 ds1 h with ⟨-, rfl, -⟩ | ⟨-, -, r, -, rfl⟩ |
    ⟨-, -, r, -, rfl⟩
  · exact hp
  · exact hP _ _ _ hp
  · exact hP _ _ _ hp

theorem finalPass_colCount_le (size : Nat) (sol : Mask) (ds : List Draw) (sol1 : Mask)
    (ds1 : List Draw) (h : finalPass size sol ds = some (sol1, ds1)) (j : Nat) :
    colCount size sol1 j ≤ colCount size sol j := by
  exact forEach_stable (finalRepair size) (fun m => colCount size m j ≤ colCount size sol j)
    (fun i s d s1 d1 hb hp =>
      finalRepair_stable_off (fun m => colCount size m j ≤ colCount size sol j)
        (fun m a b hm => le_trans (colCount_setB_false_le size m a b j) hm)
        size i s d s1 d1 hb hp)
    (List.range size) sol ds sol1 ds1 h (le_refl _)

theorem finalPass_no_fallback (size : Nat) (is : List Nat) (his : ∀ i, i ∈ is → i < size) :
    ∀ (sol : Mask) (ds : List Draw) (sol1 : Mask) (ds1 : List Draw),
      forEach (finalRepair size) is sol ds = some (sol1, ds1) →
      fallbackIn size is sol ds = false → Square size sol →
      (∀ j, j < size → 2 ≤ colCount size sol j) →
      ∀ j, j < size → 2 ≤ colCount size sol1 j := by
  induction is with
  | nil =>
    intro sol ds sol1 ds1 h _ _ hcols
    simp only [forEach, Option.some.injEq, Prod.mk.injEq] at h
    rw [← h.1]; exact hcols
  | cons a is ih =>
    intro sol ds sol1 ds1 h hfb hsq hcols
    have ha : a < size := his a (List.mem_cons_self a is)
    unfold forEach at h
    split at h
    · simp at h
    · rename_i sol2 ds2 hb
      unfold fallbackIn at hfb
      rw [hb, Bool.or_eq_false_iff] at hfb
      obtain ⟨hno, hrest⟩ := hfb
      have hsq2 := finalRepair_stable (Square size) (square_setB size) size a sol ds sol2 ds2 hb hsq
      refine ih (fun i hi => his i (List.mem_cons_of_mem a hi)) sol2 ds2 sol1 ds1 h hrest hsq2 ?_
      rcases finalRepair_cases size a sol ds sol2 ds2 hb with ⟨-, rfl, -⟩ | ⟨-, hc, r, -, rfl⟩ |
        ⟨hfull, hc, r, -, rfl⟩
      · exact hcols
      · intro k hk
        obtain ⟨hlt, hgt⟩ := candidates_getD_lt size sol _ (Draw.floorMul_lt r _ hc)
        by_cases hkj : k = (candidates size sol).getD (r.floorMul (candidates size sol).length) 0
        · have := colCount_setB_false_ge size sol a _ k hsq ha hlt
          rw [← hkj] at hgt
          omega
        · rw [colCount_setB_other size sol a _ k false hkj]
          exact hcols k hk
      · simp [hfull, hc] at hno

theorem takesFallback_eq {N : Nat} {ds ds0 ds1 ds2 : List Draw} {grid : Grid}
    {sol0 sol1 sol2 : Mask} (hfill : fillGrid N N ds = some (grid, sol0, ds0))
    (hrow : rowPass N sol0 ds0 = some (sol1, ds1)) (hcol : colPass N sol1 ds1 = some (sol2, ds2)) :
    takesFallback N ds = fallbackIn N (List.range N) sol2 ds2 := by
  unfold takesFallback
  rw [hfill]
  dsimp only
  rw [hrow]
  dsimp only
  rw [hcol]

/-! ### Termination on fair sequences of draws -/

theorem firstDraws_add (n m : Nat) :
    ∀ s : Nat → Draw, firstDraws s (n + m) = firstDraws s n ++ firstDraws (fun k => s (k + n)) m := by
  induction n with
  | zero => intro s; simp [firstDraws]
  | succ n ih =>
    intro s
    have e : n + 1 + m = (n + m) + 1 := by omega
    rw [e]
    simp only [firstDraws, List.cons_append, ih]
    rfl

theorem firstDraws_const (d : Draw) (n : Nat) :
    firstDraws (fun _ => d) n = List.replicate n d := by
  induction n with
  | zero => rfl
  | succ n ih => simp only [firstDraws, List.replicate_succ, ih]

theorem fair_shift (size : Nat) (s : Nat → Draw) (a : Nat) (h : Fair size s) :
    Fair size (fun k => s (k + a)) := by
  intro k hk n
  obtain ⟨m, hm, he⟩ := h k hk (n + a)
  exact ⟨m - a, by omega, by
    have : m - a + a = m := by omega
    simp only [this, he]⟩

theorem rowFill_done (size i : Nat) (ds : List Draw) (sol : Mask) (c : Nat) (hc : 2 ≤ c) :
    rowFill size i ds sol c = some (sol, c, ds) := by
  cases ds with
  | nil => simp [rowFill]; omega
  | cons r ds => simp [rowFill]; omega

theorem colFill_done (size j : Nat) (ds : List Draw) (sol : Mask) (c : Nat) (hc : 2 ≤ c) :
    colFill size j ds sol c = some (sol, c, ds) := by
  cases ds with
  | nil => simp [colFill]; omega
  | cons r ds => simp [colFill]; omega

/-- One round of the row retry loop: with an inactive cell of row `i` that the
sequence draws at position `d`, the loop reaches its next activation. -/
theorem rowFill_round (size i : Nat) (hi : i < size) (c j0 : Nat) (hc : c < 2)
    (hnext : ∀ (s : Nat → Draw) (sol : Mask), Fair size s → Square size sol →
      c + 1 = rowCount sol i →
      ∃ n sol1 c1, Square size sol1 ∧
        ∀ tail, rowFill size i (firstDraws s n ++ tail) sol (c + 1) = some (sol1, c1, tail))
    (d : Nat) :
    ∀ (s : Nat → Draw) (sol : Mask), Fair size s → Square size sol → c = rowCount sol i →
      getB sol i j0 = false → (s d).floorMul size = j0 →
      ∃ n sol1 c1, Square size sol1 ∧
        ∀ tail, rowFill size i (firstDraws s n ++ tail) sol c = some (sol1, c1, tail) := by
  induction d with
  | zero =>
    intro s sol hfair hsq hcnt hgap hhit
    have hj : (s 0).floorMul size < size := Draw.floorMul_lt _ size (by omega)
    rw [← hhit] at hgap
    obtain ⟨n, sol1, c1, h1, h2⟩ := hnext (fun k => s (k + 1)) _ (fair_shift size s 1 hfair)
      (square_setB size sol i _ true hsq)
      (by rw [rowCount_setB_true size sol i _ hsq hi hj hgap, hcnt])
    refine ⟨n + 1, sol1, c1, h1, ?_⟩
    intro tail
    simp only [firstDraws, List.cons_append, rowFill, hc, if_true, hgap]
    exact h2 tail
  | succ d ih =>
    intro s sol hfair hsq hcnt hgap hhit
    have hj : (s 0).floorMul size < size := Draw.floorMul_lt _ size (by omega)
    cases hcell : getB sol i ((s 0).floorMul size) with
    | false =>
      obtain ⟨n, sol1, c1, h1, h2⟩ := hnext (fun k => s (k + 1)) _ (fair_shift size s 1 hfair)
        (square_setB size sol i _ true hsq)
        (by rw [rowCount_setB_true size sol i _ hsq hi hj hcell, hcnt])
      refine ⟨n + 1, sol1, c1, h1, ?_⟩
      intro tail
      simp only [firstDraws, List.cons_append, rowFill, hc, if_true, hcell]
      exact h2 tail
    | true =>
      obtain ⟨n, sol1, c1, h1, h2⟩ := ih (fun k => s (k + 1)) sol (fair_shift size s 1 hfair)
        hsq hcnt hgap hhit
      refine ⟨n + 1, sol1, c1, h1, ?_⟩
      intro tail
      simp only [firstDraws, List.cons_append, rowFill, hc, if_true, hcell]
      exact h2 tail

theorem rowFill_terminates (size i : Nat) (hN : 2 ≤ size) (hi : i < size) (k : Nat) :
    ∀ (c : Nat) (s : Nat → Draw) (sol : Mask), 2 - c ≤ k → Fair size s → Square size sol →
      c = rowCount sol i →
      ∃ n sol1 c1, Square size sol1 ∧
        ∀ tail, rowFill size i (firstDraws s n ++ tail) sol c = some (sol1, c1, tail) := by
  induction k with
  | zero =>
    intro c s sol hk _ hsq _
    exact ⟨0, sol, c, hsq, fun tail => rowFill_done size i _ sol c (by omega)⟩
  | succ k ih =>
    intro c s sol hk hfair hsq hcnt
    by_cases hc : 2 ≤ c
    · exact ⟨0, sol, c, hsq, fun tail => rowFill_done size i _ sol c hc⟩
    · have hc2 : c < 2 := by omega
      have hlt : (List.range size).countP (fun j => getB sol i j) < size := by
        rw [← rowCount_eq size sol i hsq hi, ← hcnt]; omega
      obtain ⟨j0, hj0, hgap⟩ := countP_range_exists_false _ size hlt
      obtain ⟨m, -, hhit⟩ := hfair j0 hj0 0
      exact rowFill_round size i hi c j0 hc2
        (fun s2 sol2 hf2 hsq2 hcnt2 => ih (c + 1) s2 sol2 (by omega) hf2 hsq2 hcnt2)
        m s sol hfair hsq hcnt hgap hhit

/-- One round of the column retry loop. -/
theorem colFill_round (size j : Nat) (hj : j < size) (c i0 : Nat) (hc : c < 2)
    (hnext : ∀ (s : Nat → Draw) (sol : Mask), Fair size s → Square size sol →
      c + 1 = colCount size sol j →
      ∃ n sol1 c1, Square size sol1 ∧
        ∀ tail, colFill size j (firstDraws s n ++ tail) sol (c + 1) = some (sol1, c1, tail))
    (d : Nat) :
    ∀ (s : Nat → Draw) (sol : Mask), Fair size s → Square size sol →
      c = colCount size sol j → getB sol i0 j = false → (s d).floorMul size = i0 →
      ∃ n sol1 c1, Square size sol1 ∧
        ∀ tail, colFill size j (firstDraws s n ++ tail) sol c = some (sol1, c1, tail) := by
  induction d with
  | zero =>
    intro s sol hfair hsq hcnt hgap hhit
    have hi : (s 0).floorMul size < size := Draw.floorMul_lt _ size (by omega)
    rw [← hhit] at hgap
    obtain ⟨n, sol1, c1, h1, h2⟩ := hnext (fun k => s (k + 1)) _ (fair_shift size s 1 hfair)
      (square_setB size sol _ j true hsq)
      (by rw [colCount_setB_true size sol _ j hsq hi hj hgap, hcnt])
    refine ⟨n + 1, sol1, c1, h1, ?_⟩
    intro tail
    simp only [firstDraws, List.cons_append, colFill, hc, if_true, hgap]
    exact h2 tail
  | succ d ih =>
    intro s sol hfair hsq hcnt hgap hhit
    have hi : (s 0).floorMul size < size := Draw.floorMul_lt _ size (by omega)
    cases hcell : getB sol ((s 0).floorMul size) j with
    | false =>
      obtain ⟨n, sol1, c1, h1, h2⟩ := hnext (fun k => s (k + 1)) _ (fair_shift size s 1 hfair)
        (square_setB size sol _ j true hsq)
        (by rw [colCount_setB_true size sol _ j hsq hi hj hcell, hcnt])
      refine ⟨n + 1, sol1, c1, h1, ?_⟩
      intro tail
      simp only [firstDraws, List.cons_append, colFill, hc, if_true, hcell]
      exact h2 tail
    | true =>
      obtain ⟨n, sol1, c1, h1, h2⟩ := ih (fun k => s (k + 1)) sol (fair_shift size s 1 hfair)
        hsq hcnt hgap hhit
      refine ⟨n + 1, sol1, c1, h1, ?_⟩
      intro tail
      simp only [firstDraws, List.cons_append, colFill, hc, if_true, hcell]
      exact h2 tail

theorem colFill_terminates (size j : Nat) (hN : 2 ≤ size) (hj : j < size) (k : Nat) :
    ∀ (c : Nat) (s : Nat → Draw) (sol : Mask), 2 - c ≤ k → Fair size s → Square size sol →
      c = colCount size sol j →
      ∃ n sol1 c1, Square size sol1 ∧
        ∀ tail, colFill size j (firstDraws s n ++ tail) sol c = some (sol1, c1, tail) := by
  induction k with
  | zero =>
    intro c s sol hk _ hsq _
    exact ⟨0, sol, c, hsq, fun tail => colFill_done size j _ sol c (by omega)⟩
  | succ k ih =>
    intro c s sol hk hfair hsq hcnt
    by_cases hc : 2 ≤ c
    · exact ⟨0, sol, c, hsq, fun tail => colFill_done size j _ sol c hc⟩
    · have hc2 : c < 2 := by omega
      have hlt : (List.range size).countP (fun i => getB sol i j) < size := by
        have : colCount size sol j < size := by omega
        exact this
      obtain ⟨i0, hi0, hgap⟩ := countP_range_exists_false _ size hlt
      obtain ⟨m, -, hhit⟩ := hfair i0 hi0 0
      exact colFill_round size j hj c i0 hc2
        (fun s2 sol2 hf2 hsq2 hcnt2 => ih (c + 1) s2 sol2 (by omega) hf2 hsq2 hcnt2)
        m s sol hfair hsq hcnt hgap hhit

theorem firstDraws_succ_append (s : Nat → Draw) (n : Nat) (tail : List Draw) :
    firstDraws s (n + 1) ++ tail = firstDraws s n ++ (s n :: tail) := by
  rw [firstDraws_add]
  simp [firstDraws]

theorem rowRepair_terminates (size i : Nat) (hN : 2 ≤ size) (hi : i < size)
    (s : Nat → Draw) (sol : Mask) (hfair : Fair size s) (hsq : Square size sol) :
    ∃ n sol1, Square size sol1 ∧
      ∀ tail, rowRepair size i sol (firstDraws s n ++ tail) = some (sol1, tail) := by
  obtain ⟨n, sol1, c1, h1, h2⟩ :=
    rowFill_terminates size i hN hi 2 (rowCount sol i) s sol (by omega) hfair hsq rfl
  by_cases hfull : c1 = size
  · refine ⟨n + 1, setB sol1 i ((s n).floorMul size) false, square_setB size sol1 _ _ _ h1, ?_⟩
    intro tail
    unfold rowRepair
    rw [firstDraws_succ_append, h2]
    simp [hfull]
  · refine ⟨n, sol1, h1, ?_⟩
    intro tail
    unfold rowRepair
    rw [h2]
    simp [hfull]

theorem colRepair_terminates (size j : Nat) (hN : 2 ≤ size) (hj : j < size)
    (s : Nat → Draw) (sol : Mask) (hfair : Fair size s) (hsq : Square size sol) :
    ∃ n sol1, Square size sol1 ∧
      ∀ tail, colRepair size j sol (firstDraws s n ++ tail) = some (sol1, tail) := by
  obtain ⟨n, sol1, c1, h1, h2⟩ :=
    colFill_terminates size j hN hj 2 (colCount size sol j) s sol (by omega) hfair hsq rfl
  by_cases hfull : c1 = size
  · refine ⟨n + 1, setB sol1 ((s n).floorMul size) j false, square_setB size sol1 _ _ _ h1, ?_⟩
    intro tail
    unfold colRepair
    rw [firstDraws_succ_append, h2]
    simp [hfull]
  · refine ⟨n, sol1, h1, ?_⟩
    intro tail
    unfold colRepair
    rw [h2]
    simp [hfull]

theorem finalRepair_terminates (size i : Nat) (s : Nat → Draw) (sol : Mask)
    (hsq : Square size sol) :
    ∃ n sol1, Square size sol1 ∧
      ∀ tail, finalRepair size i sol (firstDraws s n ++ tail) = some (sol1, tail) := by
  by_cases hfull : rowCount sol i = size
  · by_cases hc : (candidates size sol).length > 0
    · refine ⟨1, _, square_setB size sol i
        ((candidates size sol).getD ((s 0).floorMul (candidates size sol).length) 0) false hsq, ?_⟩
      intro tail
      simp [finalRepair, hfull, hc, firstDraws]
    · refine ⟨1, _, square_setB size sol i ((s 0).floorMul size) false hsq, ?_⟩
      intro tail
      simp only [finalRepair, hfull, hc, firstDraws, if_true, if_false, List.cons_append,
        List.nil_append]
  · exact ⟨0, sol, hsq, fun tail => by simp [finalRepair, hfull, firstDraws]⟩

theorem forEach_terminates (size : Nat)
    (body : Nat → Mask → List Draw → Option (Mask × List Draw)) (is : List Nat)
    (hbody : ∀ i, i ∈ is → ∀ (s : Nat → Draw) (sol : Mask), Fair size s → Square size sol →
      ∃ n sol1, Square size sol1 ∧
        ∀ tail, body i sol (firstDraws s n ++ tail) = some (sol1, tail)) :
    ∀ (s : Nat → Draw) (sol : Mask), Fair size s → Square size sol →
      ∃ n sol1, Square size sol1 ∧
        ∀ tail, forEach body is sol (firstDraws s n ++ tail) = some (sol1, tail) := by
  induction is with
  | nil =>
    intro s sol _ hsq
    exact ⟨0, sol, hsq, fun tail => rfl⟩
  | cons a is ih =>
    intro s sol hfair hsq
    obtain ⟨n, sol1, h1, h2⟩ := hbody a (List.mem_cons_self a is) s sol hfair hsq
    obtain ⟨m, sol2, h3, h4⟩ := ih (fun i hi => hbody i (List.mem_cons_of_mem a hi))
      (fun k => s (k + n)) sol1 (fair_shift size s n hfair) h1
    refine ⟨n + m, sol2, h3, ?_⟩
    intro tail
    unfold forEach
    rw [firstDraws_add, List.append_assoc, h2]
    exact h4 tail

theorem fillRow_terminates (k : Nat) :
    ∀ s : Nat → Draw, ∃ n gr sr, ∀ tail, fillRow k (firstDraws s n ++ tail) = some (gr, sr, tail) := by
  induction k with
  | zero => intro s; exact ⟨0, [], [], fun tail => rfl⟩
  | succ k ih =>
    intro s
    obtain ⟨n, gr, sr, h⟩ := ih (fun m => s (m + 1 + 1))
    refine ⟨n + 1 + 1, ((s 0).floorMul 9 + 1) :: gr, (s 1).lt06 :: sr, ?_⟩
    intro tail
    have e : firstDraws s (n + 1 + 1) ++ tail
        = s 0 :: s 1 :: (firstDraws (fun m => s (m + 1 + 1)) n ++ tail) := rfl
    rw [e, fillRow, h tail]

theorem fillGrid_terminates (size k : Nat) :
    ∀ s : Nat → Draw, ∃ n g sol,
      ∀ tail, fillGrid size k (firstDraws s n ++ tail) = some (g, sol, tail) := by
  induction k with
  | zero => intro s; exact ⟨0, [], [], fun tail => rfl⟩
  | succ k ih =>
    intro s
    obtain ⟨n, gr, sr, h1⟩ := fillRow_terminates size s
    obtain ⟨m, g, sol, h2⟩ := ih (fun k => s (k + n))
    refine ⟨n + m, gr :: g, sr :: sol, ?_⟩
    intro tail
    simp only [fillGrid, firstDraws_add, List.append_assoc, h1, h2]

theorem repair_terminates (size : Nat) (hN : 2 ≤ size) (s : Nat → Draw) (sol : Mask)
    (hfair : Fair size s) (hsq : Square size sol) :
    ∃ n sol1, ∀ tail, repair size sol (firstDraws s n ++ tail) = some (sol1, tail) := by
  obtain ⟨n1, sol1, hs1, h1⟩ := forEach_terminates size (rowRepair size) (List.range size)
    (fun i hi s2 m hf hm => rowRepair_terminates size i hN (List.mem_range.1 hi) s2 m hf hm)
    s sol hfair hsq
  obtain ⟨n2, sol2, hs2, h2⟩ := forEach_terminates size (colRepair size) (List.range size)
    (fun i hi s2 m hf hm => colRepair_terminates size i hN (List.mem_range.1 hi) s2 m hf hm)
    (fun k => s (k + n1)) sol1 (fair_shift size s n1 hfair) hs1
  obtain ⟨n3, sol3, -, h3⟩ := forEach_terminates size (finalRepair size) (List.range size)
    (fun i _ s2 m _ hm => finalRepair_terminates size i s2 m hm)
    (fun k => s (k + n2 + n1)) sol2
    (fair_shift size (fun k => s (k + n1)) n2 (fair_shift size s n1 hfair)) hs2
  refine ⟨n1 + n2 + n3, sol3, ?_⟩
  intro tail
  unfold repair rowPass colPass finalPass
  rw [Nat.add_assoc, firstDraws_add, List.append_assoc, h1]
  dsimp only
  rw [firstDraws_add, List.append_assoc, h2]
  dsimp only
  exact h3 tail

theorem generate_terminates (size : Nat) (hN : 2 ≤ size) (s : Nat → Draw)
    (hfair : Fair size s) :
    ∃ n p, ∀ tail, generate size (firstDraws s n ++ tail) = some (p, tail) := by
  obtain ⟨n0, g, sol0, h0⟩ := fillGrid_terminates size size s
  have hsq : Square size sol0 :=
    fillGrid_square size (firstDraws s n0 ++ []) g sol0 [] (h0 [])
  obtain ⟨n1, sol1, h1⟩ := repair_terminates size hN (fun k => s (k + n0)) sol0
    (fair_shift size s n0 hfair) hsq
  refine ⟨n0 + n1, Puzzle.mk g sol1 (rowTargetsOf size g sol1) (colTargetsOf size g sol1), ?_⟩
  intro tail
  unfold generate
  rw [firstDraws_add, List.append_assoc, h0]
  dsimp only
  rw [h1]

/-! ### A board of one cell -/

theorem rowFill_spec (size i : Nat) (hi : i < size) (ds : List Draw) :
    ∀ (sol : Mask) (c : Nat) (sol1 : Mask) (c1 : Nat) (ds1 : List Draw),
      rowFill size i ds sol c = some (sol1, c1, ds1) → Square size sol →
      c = rowCount sol i →
      Square size sol1 ∧ c1 = rowCount sol1 i ∧ 2 ≤ c1 := by
  induction ds with
  | nil =>
    intro sol c sol1 c1 ds1 h hsq hc
    unfold rowFill at h
    split at h
    · simp at h
    · rename_i hge
      simp only [Option.some.injEq, Prod.mk.injEq] at h
      obtain ⟨rfl, rfl, -⟩ := h
      exact ⟨hsq, hc, by omega⟩
  | cons r ds ih =>
    intro sol c sol1 c1 ds1 h hsq hc
    unfold rowFill at h
    split at h
    · split at h
      · rename_i hcell
        have hj := Draw.floorMul_lt r size (by omega)
        exact ih _ _ _ _ _ h (square_setB size sol _ _ _ hsq)
          (by rw [rowCount_setB_true size sol i _ hsq hi hj hcell, hc])
      · exact ih _ _ _ _ _ h hsq hc
    · rename_i hge
      simp only [Option.some.injEq, Prod.mk.injEq] at h
      obtain ⟨rfl, rfl, -⟩ := h
      exact ⟨hsq, hc, by omega⟩

theorem generate_one_none (ds : List Draw) : generate 1 ds = none := by
  cases hg : generate 1 ds with
  | none => rfl
  | some res =>
    obtain ⟨p, rest⟩ := res
    exfalso
    obtain ⟨sol0, ds0, hfill, hrep, -, -⟩ := generate_eq_some hg
    obtain ⟨sol1, ds1, sol2, ds2, hrow, -, -⟩ := repair_eq_some hrep
    have hsq := fillGrid_square 1 ds _ sol0 ds0 hfill
    have hr : List.range 1 = [0] := rfl
    unfold rowPass at hrow
    rw [hr] at hrow
    unfold forEach at hrow
    split at hrow
    · simp at hrow
    · rename_i sol3 ds3 hb
      unfold rowRepair at hb
      split at hb
      · simp at hb
      · rename_i sol4 c4 ds4 hfillrow
        obtain ⟨h1, h2, h3⟩ := rowFill_spec 1 0 (by decide) ds0 sol0 _ sol4 c4 ds4 hfillrow hsq rfl
        rw [rowCount_eq 1 sol4 0 h1 (by decide)] at h2
        have := countP_range_le (fun j => getB sol4 0 j) 1
        omega

/-! ### A sequence of draws on which the column retry loop never ends -/

theorem colFill_stuck (n : Nat) (sol : Mask) (h : getB sol 0 0 = true) :
    colFill 3 0 (List.replicate n zeroDraw) sol 1 = none := by
  induction n with
  | zero => rfl
  | succ n ih =>
    have hz : zeroDraw.floorMul 3 = 0 := rfl
    simp only [List.replicate_succ, colFill, hz, h]
    simpa using ih

theorem generate_zero_prefix (m : Nat) :
    generate 3 (List.replicate 21 zeroDraw ++ List.replicate m zeroDraw) = none := by
  have hfill : ∀ tail, fillGrid 3 3 (List.replicate 18 zeroDraw ++ tail)
      = some ([[1, 1, 1], [1, 1, 1], [1, 1, 1]],
          [[true, true, true], [true, true, true], [true, true, true]], tail) := by
    intro tail; rfl
  have hrow : ∀ tail, rowPass 3 [[true, true, true], [true, true, true], [true, true, true]]
      (List.replicate 3 zeroDraw ++ tail)
      = some ([[false, true, true], [false, true, true], [false, true, true]], tail) := by
    intro tail; rfl
  have h21 : List.replicate 21 zeroDraw ++ List.replicate m zeroDraw
      = List.replicate 18 zeroDraw ++ (List.replicate 3 zeroDraw ++ List.replicate m zeroDraw) := by
    rw [← List.append_assoc]
    rfl
  rw [h21]
  unfold generate
  rw [hfill]
  dsimp only
  unfold repair
  rw [hrow]
  dsimp only
  have hcol : colRepair 3 0 [[false, true, true], [false, true, true], [false, true, true]]
      (List.replicate m zeroDraw) = none := by
    unfold colRepair
    have h0 : colCount 3 [[false, true, true], [false, true, true], [false, true, true]] 0 = 0 :=
      rfl
    rw [h0]
    cases m with
    | zero => rfl
    | succ k =>
      have hstep : colFill 3 0 (List.replicate (k + 1) zeroDraw)
          [[false, true, true], [false, true, true], [false, true, true]] 0
          = colFill 3 0 (List.replicate k zeroDraw)
              [[true, true, true], [false, true, true], [false, true, true]] 1 := rfl
      rw [hstep]
      rw [colFill_stuck k [[true, true, true], [false, true, true], [false, true, true]] rfl]
  have hpass : colPass 3 [[false, true, true], [false, true, true], [false, true, true]]
      (List.replicate m zeroDraw) = none := by
    have hr : List.range 3 = [0, 1, 2] := rfl
    unfold colPass
    rw [hr]
    unfold forEach
    rw [hcol]
  rw [hpass]

theorem generate_zero_none (n : Nat) : generate 3 (List.replicate n zeroDraw) = none := by
  by_cases h : n < 21
  · interval_cases n <;> rfl
  · obtain ⟨m, rfl⟩ : ∃ m, n = 21 + m := ⟨n - 21, by omega⟩
    rw [List.replicate_add]
    exact generate_zero_prefix m

/-! ### The value of a draw -/

theorem Draw.value_nonneg (r : Draw) : 0 ≤ r.value := by
  unfold Draw.value
  positivity

theorem Draw.value_lt_one (r : Draw) : r.value < 1 := by
  unfold Draw.value
  have hd : (0 : ℚ) < r.den := by
    have := r.lt
    exact_mod_cast Nat.lt_of_le_of_lt (Nat.zero_le _) this
  rw [div_lt_one hd]
  exact_mod_cast r.lt

theorem Draw.floorMul_eq_floor (r : Draw) (n : Nat) : r.floorMul n = ⌊(n : ℚ) * r.value⌋₊ := by
  unfold Draw.floorMul Draw.value
  have : (n : ℚ) * ((r.num : ℚ) / (r.den : ℚ)) = ((r.num * n : ℕ) : ℚ) / (r.den : ℚ) := by
    push_cast
    ring
  rw [this, Nat.floor_div_eq_div]

theorem Draw.lt06_iff (r : Draw) : r.lt06 = true ↔ r.value < 6 / 10 := by
  unfold Draw.lt06 Draw.value
  have hd : (0 : ℚ) < r.den := by
    have := r.lt
    exact_mod_cast Nat.lt_of_le_of_lt (Nat.zero_le _) this
  rw [decide_eq_true_eq, div_lt_iff₀ hd]
  constructor
  · intro h
    have : ((r.num * 10 : ℕ) : ℚ) < ((6 * r.den : ℕ) : ℚ) := by exact_mod_cast h
    push_cast at this
    linarith
  · intro h
    have : ((r.num * 10 : ℕ) : ℚ) < ((6 * r.den : ℕ) : ℚ) := by
      push_cast
      linarith
    exact_mod_cast this

/-! ### The level policy and the hint budget -/

theorem levelSize_cases (level : Nat) :
    (level ≤ 5 → levelSize level = 5) ∧ (6 ≤ level → level ≤ 10 → levelSize level = 6) ∧
    (11 ≤ level → level ≤ 15 → levelSize level = 7) ∧ (16 ≤ level → levelSize level = 8) := by
  unfold levelSize
  refine ⟨?_, ?_, ?_, ?_⟩ <;> intros <;> simp only [ge_iff_le] <;> split_ifs <;> omega

theorem toggleCell_hintsUsed (s : GameState) (r c : Nat) :
    (toggleCell s r c).hintsUsed = s.hintsUsed := by
  unfold toggleCell
  split
  · rfl
  · dsimp only
    split
    · unfold onPuzzleSolved
      split <;> rfl
    · rfl

theorem giveHint_of_capped (s : GameState) (h : 3 ≤ s.hintsUsed) : giveHint s = s := by
  unfold giveHint
  rw [if_pos]
  simp [h]

theorem giveHint_of_complete (s : GameState) (h : s.isComplete = true) : giveHint s = s := by
  unfold giveHint
  rw [if_pos]
  simp [h]

theorem toggleCell_of_complete (s : GameState) (r c : Nat) (h : s.isComplete = true) :
    toggleCell s r c = s := by
  unfold toggleCell
  rw [if_pos h]

theorem giveHint_hintsUsed_le (s : GameState) (h : s.hintsUsed ≤ 3) :
    (giveHint s).hintsUsed ≤ 3 := by
  by_cases hc : 3 ≤ s.hintsUsed
  · rw [giveHint_of_capped s hc]; exact h
  · cases hd : s.isComplete with
    | true => rw [giveHint_of_complete s hd]; exact h
    | false =>
      cases hf : firstMismatch s with
      | none =>
        have : giveHint s = s := by
          unfold giveHint
          rw [hf]
          simp
        rw [this]; exact h
      | some c =>
        obtain ⟨i, j⟩ := c
        rw [(giveHint_eq s i j (by omega) hd hf).2.1]
        omega

theorem step_hintsUsed_le (s : GameState) (a : Action) (h : s.hintsUsed ≤ 3) :
    (step s a).hintsUsed ≤ 3 := by
  cases a with
  | toggle r c => simp only [step, toggleCell_hintsUsed]; exact h
  | hint => exact giveHint_hintsUsed_le s h
  | reset => exact h

theorem run_hintsUsed_le (acts : List Action) :
    ∀ s : GameState, s.hintsUsed ≤ 3 → (run acts s).hintsUsed ≤ 3 := by
  induction acts with
  | nil => intro s h; exact h
  | cons a as ih => intro s h; exact ih _ (step_hintsUsed_le s a h)

/-! ### Completion and the states of a game -/

theorem checkSolution_congr (s t : GameState) (h1 : s.size = t.size) (h2 : s.grid = t.grid)
    (h3 : s.playerState = t.playerState) (h4 : s.rowTargets = t.rowTargets)
    (h5 : s.colTargets = t.colTargets) : checkSolution s = checkSolution t := by
  have hr : ∀ i, isRowCorrect s i = isRowCorrect t i := by
    intro i; simp only [isRowCorrect, getRowSum, h1, h2, h3, h4]
  have hc : ∀ i, isColCorrect s i = isColCorrect t i := by
    intro i; simp only [isColCorrect, getColSum, h1, h2, h3, h5]
  simp only [checkSolution, checkFrom_eq_all, h1, hr, hc]

theorem toggleCell_eq (s : GameState) (r c : Nat) (h : s.isComplete = false) :
    toggleCell s r c =
      { s with playerState := setB s.playerState r c (!getB s.playerState r c),
               moves := s.moves + 1,
               isComplete := checkSolution
                 { s with playerState := setB s.playerState r c (!getB s.playerState r c),
                          moves := s.moves + 1 } } := by
  unfold toggleCell
  rw [if_neg (by simp [h])]
  dsimp only
  cases hc : checkSolution
      { s with playerState := setB s.playerState r c (!getB s.playerState r c),
               moves := s.moves + 1 } with
  | true => simp [onPuzzleSolved, h]
  | false => simp [h]

theorem toggleCell_solved (s : GameState) (r c : Nat)
    (h : checkSolution (toggleCell s r c) = true) : (toggleCell s r c).isComplete = true := by
  cases hc : s.isComplete with
  | true => rw [toggleCell_of_complete s r c hc]; exact hc
  | false =>
    rw [toggleCell_eq s r c hc] at h ⊢
    dsimp only
    rw [← h]
    exact checkSolution_congr _ _ rfl rfl rfl rfl rfl

theorem giveHint_solved (s : GameState) (hinv : checkSolution s = true → s.isComplete = true)
    (h : checkSolution (giveHint s) = true) : (giveHint s).isComplete = true := by
  unfold giveHint at h ⊢
  split
  · rename_i hg
    rw [if_pos hg] at h
    exact hinv h
  · rename_i hg
    rw [if_neg hg] at h
    split
    · rename_i hf
      rw [hf] at h
      exact hinv h
    · rename_i i j hf
      rw [hf] at h
      dsimp only at h ⊢
      split
      · unfold onPuzzleSolved
        split
        · assumption
        · rfl
      · rename_i hns
        rw [if_neg hns] at h
        exact absurd h hns

theorem getB_setB_true (m : Mask) (i j a b : Nat) (h : getB m a b = true) :
    getB (setB m i j true) a b = true := by
  by_cases hab : a = i ∧ b = j
  · obtain ⟨rfl, rfl⟩ := hab
    by_cases hi : a < m.length
    · by_cases hj : b < (m.getD a []).length
      · exact getB_setB_same m a b true hi hj
      · have : (m.getD a []).set b true = m.getD a [] := List.set_eq_of_length_le (by omega)
        unfold setB
        rw [this]
        unfold getB at h ⊢
        rw [List.getD_eq_getElem?_getD (List.set _ _ _), List.getElem?_set_self hi]
        exact h
    · unfold setB
      rw [List.set_eq_of_length_le (by omega)]
      exact h
  · rw [getB_setB_ne m i j a b true hab]; exact h

theorem activateRow_spec (size i : Nat) (js : List Nat) :
    ∀ m : Mask, Square size m →
      Square size (js.foldl (fun m2 j => setB m2 i j true) m) ∧
      (∀ a b, getB m a b = true → getB (js.foldl (fun m2 j => setB m2 i j true) m) a b = true) ∧
      (∀ b, b ∈ js → i < size → b < size →
        getB (js.foldl (fun m2 j => setB m2 i j true) m) i b = true) := by
  induction js with
  | nil => intro m h; exact ⟨h, fun _ _ h => h, fun b hb => absurd hb (List.not_mem_nil b)⟩
  | cons j js ih =>
    intro m h
    obtain ⟨h1, h2, h3⟩ := ih (setB m i j true) (square_setB size m i j true h)
    simp only [List.foldl_cons]
    refine ⟨h1, fun a b hab => h2 a b (getB_setB_true m i j a b hab), ?_⟩
    intro b hb hi hbs
    rcases List.mem_cons.1 hb with rfl | hb
    · exact h2 i b (getB_setB_square size m i b true h hi hbs)
    · exact h3 b hb hi hbs

theorem activateRows_spec (size : Nat) (is : List Nat) :
    ∀ m : Mask, Square size m →
      Square size
        (is.foldl (fun m1 i => (List.range size).foldl (fun m2 j => setB m2 i j true) m1) m) ∧
      (∀ a b, getB m a b = true → getB
        (is.foldl (fun m1 i => (List.range size).foldl (fun m2 j => setB m2 i j true) m1) m)
        a b = true) ∧
      (∀ a b, a ∈ is → a < size → b < size → getB
        (is.foldl (fun m1 i => (List.range size).foldl (fun m2 j => setB m2 i j true) m1) m)
        a b = true) := by
  induction is with
  | nil => intro m h; exact ⟨h, fun _ _ h => h, fun a b ha => absurd ha (List.not_mem_nil a)⟩
  | cons i is ih =>
    intro m h
    obtain ⟨r1, r2, r3⟩ := activateRow_spec size i (List.range size) m h
    obtain ⟨h1, h2, h3⟩ := ih _ r1
    simp only [List.foldl_cons]
    refine ⟨h1, fun a b hab => h2 a b (r2 a b hab), ?_⟩
    intro a b ha has hbs
    rcases List.mem_cons.1 ha with rfl | ha
    · exact h2 a b (r3 b (List.mem_range.2 hbs) has hbs)
    · exact h3 a b ha has hbs

theorem activateAll_spec (size : Nat) (m : Mask) (h : Square size m) :
    Square size (activateAll size m) ∧
      ∀ a, a < size → ∀ b, b < size → getB (activateAll size m) a b = true := by
  obtain ⟨h1, -, h3⟩ := activateRows_spec size (List.range size) m h
  exact ⟨h1, fun a ha b hb => h3 a b (List.mem_range.2 ha) ha hb⟩

theorem unsolved_of_all_active (s : GameState) (hsize : 0 < s.size)
    (hall : ∀ j, j < s.size → getB s.playerState 0 j = true)
    (j0 : Nat) (hj0 : j0 < s.size) (hgap : getB s.solution 0 j0 = false)
    (hcell : 1 ≤ getN s.grid 0 j0)
    (hr : s.rowTargets = rowTargetsOf s.size s.grid s.solution) :
    checkSolution s = false := by
  rw [← Bool.not_eq_true, checkSolution_eq_true_iff]
  intro hsolved
  have hrow := (hsolved 0 hsize).1
  simp only [isRowCorrect, decide_eq_true_eq, getRowSum_eq, hr,
    rowTargetsOf_get s.size s.grid s.solution 0 hsize, Option.some.injEq] at hrow
  have hlt : ∑ j in (Finset.range s.size).filter (fun j => getB s.solution 0 j = true),
        getN s.grid 0 j
      < ∑ j in (Finset.range s.size).filter (fun j => getB s.playerState 0 j = true),
          getN s.grid 0 j := by
    apply Finset.sum_lt_sum_of_subset (i := j0)
    · intro j hj
      rw [Finset.mem_filter, Finset.mem_range] at hj ⊢
      exact ⟨hj.1, hall j hj.1⟩
    · rw [Finset.mem_filter, Finset.mem_range]
      exact ⟨hj0, hall j0 hj0⟩
    · rw [Finset.mem_filter]
      intro hmem
      rw [hgap] at hmem
      exact Bool.noConfusion hmem.2
    · exact hcell
    · intro j _ _
      exact Nat.zero_le _
  omega

theorem square_allActive (size : Nat) : Square size (allActive size) := by
  constructor
  · simp [allActive]
  · intro row hrow
    simp only [allActive, List.mem_map] at hrow
    obtain ⟨_, _, rfl⟩ := hrow
    simp

theorem generate_row_gap {N : Nat} {ds rest : List Draw} {p : Puzzle} (hN : 1 ≤ N)
    (h : generate N ds = some (p, rest)) :
    ∃ j0, j0 < N ∧ getB p.solution 0 j0 = false ∧ 1 ≤ getN p.grid 0 j0 ∧
      p.rowTargets = rowTargetsOf N p.grid p.solution := by
  obtain ⟨sol0, ds0, hfill, -, hr, -⟩ := generate_eq_some h
  obtain ⟨j0, hj0, hgap⟩ := generate_gaps h 0 hN
  exact ⟨j0, hj0, hgap, (fillGrid_cell N ds _ sol0 ds0 hfill 0 j0 hN hj0).1, hr⟩

theorem playing_all_active (N : Nat) (p : Puzzle) (s : GameState) (hN : 1 ≤ N)
    (hgap : ∃ j0, j0 < N ∧ getB p.solution 0 j0 = false ∧ 1 ≤ getN p.grid 0 j0 ∧
      p.rowTargets = rowTargetsOf N p.grid p.solution)
    (h1 : s.size = N) (h2 : s.grid = p.grid) (h3 : s.solution = p.solution)
    (h4 : s.rowTargets = p.rowTargets) (h5 : s.colTargets = p.colTargets)
    (hsq : Square N s.playerState)
    (hall : ∀ a, a < N → ∀ b, b < N → getB s.playerState a b = true) : Playing N p s := by
  refine ⟨h1, h2, h3, h4, h5, hsq, ?_⟩
  intro hsolved
  obtain ⟨j0, hj0, hg, hc, hr⟩ := hgap
  have := unsolved_of_all_active s (by omega) (fun j hj => hall 0 (by omega) j (by omega))
    j0 (by omega) (by rw [h3]; exact hg) (by rw [h2]; exact hc)
    (by rw [h4, h1, h2, h3]; exact hr)
  rw [this] at hsolved
  exact Bool.noConfusion hsolved

theorem playing_install (N level : Nat) (ds rest : List Draw) (p : Puzzle) (hN : 1 ≤ N)
    (h : generate N ds = some (p, rest)) : Playing N p (install N level p) :=
  playing_all_active N p _ hN (generate_row_gap hN h) rfl rfl rfl rfl rfl (square_allActive N)
    (fun a ha b hb => getB_allActive N a b ha hb)

theorem playing_toggle (N : Nat) (p : Puzzle) (s : GameState) (r c : Nat)
    (h : Playing N p s) : Playing N p (toggleCell s r c) := by
  cases hc : s.isComplete with
  | true => rw [toggleCell_of_complete s r c hc]; exact h
  | false =>
    obtain ⟨h1, h2, h3, h4, h5, h6, -⟩ := h
    have hs := toggleCell_solved s r c
    rw [toggleCell_eq s r c hc] at hs ⊢
    exact ⟨h1, h2, h3, h4, h5, square_setB N _ _ _ _ h6, hs⟩

theorem playing_hint (N : Nat) (p : Puzzle) (s : GameState) (h : Playing N p s) :
    Playing N p (giveHint s) := by
  have hs := giveHint_solved s h.2.2.2.2.2.2
  by_cases hcap : 3 ≤ s.hintsUsed
  · rw [giveHint_of_capped s hcap]; exact h
  · cases hd : s.isComplete with
    | true => rw [giveHint_of_complete s hd]; exact h
    | false =>
      cases hf : firstMismatch s with
      | none =>
        have : giveHint s = s := by
          unfold giveHint
          rw [hf]
          simp
        rw [this]; exact h
      | some c =>
        obtain ⟨i, j⟩ := c
        obtain ⟨e1, -, e3, e4, e5, -, e7, e8⟩ := giveHint_eq s i j (by omega) hd hf
        obtain ⟨h1, h2, h3, h4, h5, h6, -⟩ := h
        refine ⟨by rw [e5, h1], by rw [e4, h2], by rw [e3, h3], by rw [e7, h4],
          by rw [e8, h5], ?_, hs⟩
        rw [e1]
        exact square_setB N _ _ _ _ h6

theorem playing_reset (N : Nat) (p : Puzzle) (s : GameState) (hN : 1 ≤ N)
    (hgap : ∃ j0, j0 < N ∧ getB p.solution 0 j0 = false ∧ 1 ≤ getN p.grid 0 j0 ∧
      p.rowTargets = rowTargetsOf N p.grid p.solution)
    (h : Playing N p s) : Playing N p (resetPuzzle s) := by
  obtain ⟨h1, h2, h3, h4, h5, h6, -⟩ := h
  subst h1
  have hact := activateAll_spec s.size s.playerState h6
  exact playing_all_active s.size p _ hN hgap rfl h2 h3 h4 h5 hact.1 hact.2

theorem playing_run (N : Nat) (p : Puzzle) (hN : 1 ≤ N)
    (hgap : ∃ j0, j0 < N ∧ getB p.solution 0 j0 = false ∧ 1 ≤ getN p.grid 0 j0 ∧
      p.rowTargets = rowTargetsOf N p.grid p.solution)
    (acts : List Action) : ∀ s, Playing N p s → Playing N p (run acts s) := by
  induction acts with
  | nil => intro s h; exact h
  | cons a as ih =>
    intro s h
    apply ih
    cases a with
    | toggle r c => exact playing_toggle N p s r c h
    | hint => exact playing_hint N p s h
    | reset => exact playing_reset N p s hN hgap h

theorem run_of_complete (calls : List Action) :
    ∀ s : GameState, s.isComplete = true → (∀ a, a ∈ calls → a.isPlay = true) →
      run calls s = s := by
  induction calls with
  | nil => intro s _ _; rfl
  | cons a as ih =>
    intro s hc hplay
    have hstep : step s a = s := by
      cases a with
      | toggle r c => exact toggleCell_of_complete s r c hc
      | hint => exact giveHint_of_complete s hc
      | reset => exact absurd (hplay Action.reset (List.mem_cons_self _ _)) (by simp [Action.isPlay])
    simp only [run, hstep]
    exact ih s hc (fun b hb => hplay b (List.mem_cons_of_mem a hb))

/-! ### The order in which the fill uses the draws -/

theorem fillRow_order (n : Nat) :
    ∀ (ds : List Draw) (gr : List Nat) (sr : List Bool) (rest : List Draw),
      fillRow n ds = some (gr, sr, rest) →
      rest = ds.drop (2 * n) ∧
      ∀ j, j < n → ∃ r m, ds.get? (2 * j) = some r ∧ ds.get? (2 * j + 1) = some m ∧
        gr.getD j 0 = r.floorMul 9 + 1 ∧ sr.getD j false = m.lt06 := by
  induction n with
  | zero =>
    intro ds gr sr rest h
    simp only [fillRow, Option.some.injEq, Prod.mk.injEq] at h
    exact ⟨by simp [h.2.2], fun j hj => absurd hj (Nat.not_lt_zero j)⟩
  | succ n ih =>
    intro ds gr sr rest h
    match ds, h with
    | [], h => simp [fillRow] at h
    | [_], h => simp [fillRow] at h
    | g :: m :: ds, h =>
      unfold fillRow at h
      split at h
      · rename_i gr1 sr1 rest1 hrec
        simp only [Option.some.injEq, Prod.mk.injEq] at h
        obtain ⟨rfl, rfl, rfl⟩ := h
        obtain ⟨h1, h2⟩ := ih ds gr1 sr1 rest1 hrec
        constructor
        · rw [h1]
          have : 2 * (n + 1) = 2 * n + 1 + 1 := by omega
          rw [this]
          rfl
        · intro j hj
          cases j with
          | zero => exact ⟨g, m, rfl, rfl, rfl, rfl⟩
          | succ j =>
            obtain ⟨r, m2, e1, e2, e3, e4⟩ := h2 j (by omega)
            refine ⟨r, m2, ?_, ?_, ?_, ?_⟩
            · have : 2 * (j + 1) = 2 * j + 1 + 1 := by omega
              rw [this]
              simpa using e1
            · have : 2 * (j + 1) + 1 = 2 * j + 1 + 1 + 1 := by omega
              rw [this]
              simpa using e2
            · simpa using e3
            · simpa using e4
      · simp at h

theorem fillGrid_order (size n : Nat) :
    ∀ (ds : List Draw) (g : Grid) (s : Mask) (rest : List Draw),
      fillGrid size n ds = some (g, s, rest) →
      rest = ds.drop (2 * (n * size)) ∧
      ∀ i, i < n → ∀ j, j < size →
        ∃ r m, ds.get? (2 * (i * size + j)) = some r ∧
          ds.get? (2 * (i * size + j) + 1) = some m ∧
          getN g i j = r.floorMul 9 + 1 ∧ getB s i j = m.lt06 := by
  induction n with
  | zero =>
    intro ds g s rest h
    simp only [fillGrid, Option.some.injEq, Prod.mk.injEq] at h
    exact ⟨by simp [h.2.2], fun i hi => absurd hi (Nat.not_lt_zero i)⟩
  | succ n ih =>
    intro ds g s rest h
    unfold fillGrid at h
    split at h
    · simp at h
    · rename_i gr sr rest1 hrow
      split at h
      · simp at h
      · rename_i g1 s1 rest2 hrec
        simp only [Option.some.injEq, Prod.mk.injEq] at h
        obtain ⟨rfl, rfl, rfl⟩ := h
        obtain ⟨h1, h2⟩ := ih rest1 g1 s1 rest2 hrec
        obtain ⟨r1, r2⟩ := fillRow_order size ds gr sr rest1 hrow
        constructor
        · rw [h1, r1, List.drop_drop]
          congr 1
          ring
        · intro i hi j hj
          cases i with
          | zero =>
            obtain ⟨r, m, e1, e2, e3, e4⟩ := r2 j hj
            refine ⟨r, m, by simpa using e1, by simpa using e2, ?_, ?_⟩
            · simpa [getN] using e3
            · simpa [getB] using e4
          | succ i =>
            obtain ⟨r, m, e1, e2, e3, e4⟩ := h2 i (by omega) j hj
            rw [r1] at e1 e2
            rw [List.get?_eq_getElem?, List.getElem?_drop] at e1 e2
            refine ⟨r, m, ?_, ?_, ?_, ?_⟩
            · have : 2 * ((i + 1) * size + j) = 2 * size + 2 * (i * size + j) := by ring
              rw [List.get?_eq_getElem?, this]; exact e1
            · have : 2 * ((i + 1) * size + j) + 1 = 2 * size + (2 * (i * size + j) + 1) := by
                ring
              rw [List.get?_eq_getElem?, this]; exact e2
            · simpa [getN] using e3
            · simpa [getB] using e4

/-! ### Facts on every returned puzzle -/

theorem countP_range_lt_of_false (p : Nat → Bool) (n c : Nat) (hc : c < n) (hp : p c = false) :
    (List.range n).countP p < n := by
  have hle := countP_range_le p n
  rcases Nat.lt_or_ge ((List.range n).countP p) n with h | h
  · exact h
  · have hall := countP_range_all_true p n (by omega) c hc
    rw [hp] at hall
    exact Bool.noConfusion hall

theorem generate_passes {N : Nat} {ds rest : List Draw} {p : Puzzle}
    (h : generate N ds = some (p, rest)) :
    ∃ sol0 ds0 sol1 ds1 sol2 ds2, fillGrid N N ds = some (p.grid, sol0, ds0) ∧
      rowPass N sol0 ds0 = some (sol1, ds1) ∧ colPass N sol1 ds1 = some (sol2, ds2) ∧
      finalPass N sol2 ds2 = some (p.solution, rest) ∧
      Square N sol0 ∧ Square N sol1 ∧ Square N sol2 := by
  obtain ⟨sol0, ds0, hfill, hrep, -, -⟩ := generate_eq_some h
  obtain ⟨sol1, ds1, sol2, ds2, hrow, hcol, hfin⟩ := repair_eq_some hrep
  have h0 := fillGrid_square N ds _ sol0 ds0 hfill
  have h1 := forEach_stable (rowRepair N) (Square N)
    (fun i s d s1 d1 => rowRepair_stable _ (square_setB N) N i s d s1 d1) _ _ _ _ _ hrow h0
  have h2 := (colPass_spec N sol1 ds1 sol2 ds2 hcol h1).1
  exact ⟨sol0, ds0, sol1, ds1, sol2, ds2, hfill, hrow, hcol, hfin, h0, h1, h2⟩

theorem generate_colCount_le {N : Nat} {ds rest : List Draw} {p : Puzzle}
    (h : generate N ds = some (p, rest)) (j : Nat) (hj : j < N) :
    colCount N p.solution j ≤ N - 1 := by
  obtain ⟨sol0, ds0, sol1, ds1, sol2, ds2, -, -, hcol, hfin, -, h1, -⟩ := generate_passes h
  exact le_trans (finalPass_colCount_le N sol2 ds2 _ rest hfin j)
    ((colPass_spec N sol1 ds1 sol2 ds2 hcol h1).2 j hj).2

/-! ### The row pass -/

theorem setB_getD_other (m : Mask) (i j k : Nat) (v : Bool) (h : k ≠ i) :
    (setB m i j v).getD k [] = m.getD k [] := by
  unfold setB
  simp only [List.getD_eq_getElem?_getD, List.getElem?_set_ne (Ne.symm h)]

theorem rowCount_congr (m1 m2 : Mask) (i : Nat) (h : m1.getD i [] = m2.getD i []) :
    rowCount m1 i = rowCount m2 i := by
  unfold rowCount
  rw [h]

theorem rowCount_setB_false_of_true (size : Nat) (m : Mask) (i j : Nat) (hsq : Square size m)
    (hi : i < size) (hj : j < size) (ht : getB m i j = true) :
    rowCount (setB m i j false) i + 1 = rowCount m i := by
  rw [rowCount_eq size _ i (square_setB size m i j false hsq) hi, rowCount_eq size m i hsq hi]
  symm
  apply countP_range_flip _ _ size j hj
  · intro b _ hne
    exact (getB_setB_ne m i j i b false (fun e => hne e.2)).symm
  · exact getB_setB_square size m i j false hsq hi hj
  · exact ht

theorem rowFill_rows (size i : Nat) (ds : List Draw) :
    ∀ (sol : Mask) (c : Nat) (sol1 : Mask) (c1 : Nat) (ds1 : List Draw),
      rowFill size i ds sol c = some (sol1, c1, ds1) →
      ∀ k, k ≠ i → sol1.getD k [] = sol.getD k [] := by
  induction ds with
  | nil =>
    intro sol c sol1 c1 ds1 h k _
    unfold rowFill at h
    split at h
    · simp at h
    · simp only [Option.some.injEq, Prod.mk.injEq] at h
      rw [← h.1]
  | cons r ds ih =>
    intro sol c sol1 c1 ds1 h k hk
    unfold rowFill at h
    split at h
    · split at h
      · rw [ih _ _ _ _ _ h k hk, setB_getD_other sol i _ k true hk]
      · exact ih _ _ _ _ _ h k hk
    · simp only [Option.some.injEq, Prod.mk.injEq] at h
      rw [← h.1]

theorem rowRepair_spec (size i : Nat) (hi : i < size) (sol : Mask) (ds : List Draw)
    (sol1 : Mask) (ds1 : List Draw) (h : rowRepair size i sol ds = some (sol1, ds1))
    (hsq : Square size sol) :
    Square size sol1 ∧ (3 ≤ size → 2 ≤ rowCount sol1 i) ∧ rowCount sol1 i ≤ size - 1 ∧
      (∀ k, k ≠ i → sol1.getD k [] = sol.getD k []) ∧
      (2 ≤ rowCount sol i → rowCount sol i ≤ size - 1 → sol1 = sol) := by
  unfold rowRepair at h
  split at h
  · simp at h
  · rename_i sol2 c2 ds2 hfill
    obtain ⟨h1, h2, h3⟩ := rowFill_spec size i hi ds sol _ sol2 c2 ds2 hfill hsq rfl
    have hrows := rowFill_rows size i ds sol _ sol2 c2 ds2 hfill
    have hle : rowCount sol2 i ≤ size := by
      rw [rowCount_eq size sol2 i h1 hi]; exact countP_range_le _ size
    have hsame : 2 ≤ rowCount sol i → sol2 = sol ∧ c2 = rowCount sol i := by
      intro hge
      rw [rowFill_done size i ds sol _ hge] at hfill
      simp only [Option.some.injEq, Prod.mk.injEq] at hfill
      exact ⟨hfill.1.symm, hfill.2.1.symm⟩
    split at h
    · rename_i hfull
      split at h
      · simp at h
      · rename_i r ds3
        simp only [Option.some.injEq, Prod.mk.injEq] at h
        obtain ⟨rfl, -⟩ := h
        have hj := Draw.floorMul_lt r size (by omega)
        have hcnt : (List.range size).countP (fun j => getB sol2 i j) = size := by
          rw [← rowCount_eq size sol2 i h1 hi]; omega
        have hall := countP_range_all_true (fun j => getB sol2 i j) size hcnt
        have hdec := rowCount_setB_false_of_true size sol2 i _ h1 hi hj (hall _ hj)
        refine ⟨square_setB size sol2 _ _ _ h1, fun _ => by omega, by omega, ?_, ?_⟩
        · intro k hk
          rw [setB_getD_other sol2 i _ k false hk, hrows k hk]
        · intro hge hle2
          obtain ⟨-, e2⟩ := hsame hge
          omega
    · rename_i hne
      simp only [Option.some.injEq, Prod.mk.injEq] at h
      obtain ⟨rfl, -⟩ := h
      exact ⟨h1, fun _ => by omega, by omega, hrows, fun hge _ => (hsame hge).1⟩

theorem rowPass_spec (size : Nat) (is : List Nat) (hnd : is.Nodup)
    (his : ∀ i, i ∈ is → i < size) :
    ∀ (sol : Mask) (ds : List Draw) (sol1 : Mask) (ds1 : List Draw),
      forEach (rowRepair size) is sol ds = some (sol1, ds1) → Square size sol →
      Square size sol1 ∧ (∀ k, k ∉ is → sol1.getD k [] = sol.getD k []) ∧
      ∀ k, k ∈ is → (3 ≤ size → 2 ≤ rowCount sol1 k) ∧ rowCount sol1 k ≤ size - 1 ∧
        (2 ≤ rowCount sol k → rowCount sol k ≤ size - 1 → sol1.getD k [] = sol.getD k []) := by
  induction is with
  | nil =>
    intro sol ds sol1 ds1 h hsq
    simp only [forEach, Option.some.injEq, Prod.mk.injEq] at h
    rw [← h.1]
    exact ⟨hsq, fun _ _ => rfl, fun k hk => absurd hk (List.not_mem_nil k)⟩
  | cons a is ih =>
    intro sol ds sol1 ds1 h hsq
    unfold forEach at h
    split at h
    · simp at h
    · rename_i sol2 ds2 hb
      rw [List.nodup_cons] at hnd
      have ha : a < size := his a (List.mem_cons_self a is)
      obtain ⟨b1, b2, b3, b4, b5⟩ := rowRepair_spec size a ha sol ds sol2 ds2 hb hsq
      obtain ⟨h1, h2, h3⟩ := ih hnd.2 (fun i hi => his i (List.mem_cons_of_mem a hi))
        sol2 ds2 sol1 ds1 h b1
      refine ⟨h1, ?_, ?_⟩
      · intro k hk
        rw [List.mem_cons, not_or] at hk
        rw [h2 k hk.2, b4 k hk.1]
      · intro k hk
        rcases List.mem_cons.1 hk with rfl | hk
        · have e := h2 k hnd.1
          rw [rowCount_congr sol1 sol2 k e]
          refine ⟨b2, b3, ?_⟩
          intro hge hle
          rw [e, b5 hge hle]
        · have hka : k ≠ a := fun e => hnd.1 (e ▸ hk)
          obtain ⟨g1, g2, g3⟩ := h3 k hk
          have e := b4 k hka
          refine ⟨g1, g2, ?_⟩
          intro hge hle
          rw [← rowCount_congr sol2 sol k e] at hge hle
          rw [g3 hge hle, e]

/-! ### The column pass writes one column at a time -/

theorem colFill_frame (size j : Nat) (ds : List Draw) :
    ∀ (sol : Mask) (c : Nat) (sol1 : Mask) (c1 : Nat) (ds1 : List Draw),
      colFill size j ds sol c = some (sol1, c1, ds1) →
      ∀ a b, b ≠ j → getB sol1 a b = getB sol a b := by
  induction ds with
  | nil =>
    intro sol c sol1 c1 ds1 h a b _
    unfold colFill at h
    split at h
    · simp at h
    · simp only [Option.some.injEq, Prod.mk.injEq] at h
      rw [← h.1]
  | cons r ds ih =>
    intro sol c sol1 c1 ds1 h a b hb
    unfold colFill at h
    split at h
    · split at h
      · rw [ih _ _ _ _ _ h a b hb, getB_setB_ne sol _ j a b true (fun e => hb e.2)]
      · exact ih _ _ _ _ _ h a b hb
    · simp only [Option.some.injEq, Prod.mk.injEq] at h
      rw [← h.1]

theorem colRepair_frame (size j : Nat) (sol : Mask) (ds : List Draw) (sol1 : Mask)
    (ds1 : List Draw) (h : colRepair size j sol ds = some (sol1, ds1)) :
    ∀ a b, b ≠ j → getB sol1 a b = getB sol a b := by
  intro a b hb
  unfold colRepair at h
  split at h
  · simp at h
  · rename_i sol2 c2 ds2 hfill
    have hf := colFill_frame size j ds sol _ sol2 c2 ds2 hfill a b hb
    split at h
    · split at h
      · simp at h
      · simp only [Option.some.injEq, Prod.mk.injEq] at h
        rw [← h.1, getB_setB_ne sol2 _ j a b false (fun e => hb e.2), hf]
    · simp only [Option.some.injEq, Prod.mk.injEq] at h
      rw [← h.1, hf]

/-! ### A run depends on the draws it uses and on nothing else -/

theorem rowFill_segment (size i : Nat) (ds : List Draw) :
    ∀ (sol : Mask) (c : Nat) (sol1 : Mask) (c1 : Nat) (rest : List Draw),
      rowFill size i ds sol c = some (sol1, c1, rest) →
      ∃ used, ds = used ++ rest ∧
        ∀ tail, rowFill size i (used ++ tail) sol c = some (sol1, c1, tail) := by
  induction ds with
  | nil =>
    intro sol c sol1 c1 rest h
    unfold rowFill at h
    split at h
    · simp at h
    · rename_i hge
      simp only [Option.some.injEq, Prod.mk.injEq] at h
      obtain ⟨rfl, rfl, rfl⟩ := h
      exact ⟨[], rfl, fun tail => rowFill_done size i _ sol c (by omega)⟩
  | cons r ds ih =>
    intro sol c sol1 c1 rest h
    unfold rowFill at h
    split at h
    · rename_i hlt
      split at h
      · rename_i hcell
        obtain ⟨used, e, hu⟩ := ih _ _ _ _ _ h
        refine ⟨r :: used, by rw [e]; rfl, fun tail => ?_⟩
        simp only [List.cons_append, rowFill, hlt, if_true, hcell]
        exact hu tail
      · rename_i hcell
        obtain ⟨used, e, hu⟩ := ih _ _ _ _ _ h
        refine ⟨r :: used, by rw [e]; rfl, fun tail => ?_⟩
        simp only [List.cons_append, rowFill, hlt, if_true, hcell, if_false]
        exact hu tail
    · rename_i hge
      simp only [Option.some.injEq, Prod.mk.injEq] at h
      obtain ⟨rfl, rfl, rfl⟩ := h
      exact ⟨[], rfl, fun tail => rowFill_done size i _ sol c (by omega)⟩

theorem colFill_segment (size j : Nat) (ds : List Draw) :
    ∀ (sol : Mask) (c : Nat) (sol1 : Mask) (c1 : Nat) (rest : List Draw),
      colFill size j ds sol c = some (sol1, c1, rest) →
      ∃ used, ds = used ++ rest ∧
        ∀ tail, colFill size j (used ++ tail) sol c = some (sol1, c1, tail) := by
  induction ds with
  | nil =>
    intro sol c sol1 c1 rest h
    unfold colFill at h
    split at h
    · simp at h
    · rename_i hge
      simp only [Option.some.injEq, Prod.mk.injEq] at h
      obtain ⟨rfl, rfl, rfl⟩ := h
      exact ⟨[], rfl, fun tail => colFill_done size j _ sol c (by omega)⟩
  | cons r ds ih =>
    intro sol c sol1 c1 rest h
    unfold colFill at h
    split at h
    · rename_i hlt
      split at h
      · rename_i hcell
        obtain ⟨used, e, hu⟩ := ih _ _ _ _ _ h
        refine ⟨r :: used, by rw [e]; rfl, fun tail => ?_⟩
        simp only [List.cons_append, colFill, hlt, if_true, hcell]
        exact hu tail
      · rename_i hcell
        obtain ⟨used, e, hu⟩ := ih _ _ _ _ _ h
        refine ⟨r :: used, by rw [e]; rfl, fun tail => ?_⟩
        simp only [List.cons_append, colFill, hlt, if_true, hcell, if_false]
        exact hu tail
    · rename_i hge
      simp only [Option.some.injEq, Prod.mk.injEq] at h
      obtain ⟨rfl, rfl, rfl⟩ := h
      exact ⟨[], rfl, fun tail => colFill_done size j _ sol c (by omega)⟩

theorem rowRepair_segment (size i : Nat) (sol : Mask) (ds : List Draw) (sol1 : Mask)
    (rest : List Draw) (h : rowRepair size i sol ds = some (sol1, rest)) :
    ∃ used, ds = used ++ rest ∧ ∀ tail, rowRepair size i sol (used ++ tail) = some (sol1, tail) := by
  unfold rowRepair at h
  split at h
  · simp at h
  · rename_i sol2 c2 ds2 hfill
    obtain ⟨used, e, hu⟩ := rowFill_segment size i ds sol _ sol2 c2 ds2 hfill
    split at h
    · rename_i hfull
      split at h
      · simp at h
      · rename_i r ds3
        simp only [Option.some.injEq, Prod.mk.injEq] at h
        obtain ⟨rfl, rfl⟩ := h
        refine ⟨used ++ [r], by rw [e]; simp, fun tail => ?_⟩
        unfold rowRepair
        rw [List.append_assoc, hu]
        simp [hfull]
    · rename_i hne
      simp only [Option.some.injEq, Prod.mk.injEq] at h
      obtain ⟨rfl, rfl⟩ := h
      refine ⟨used, e, fun tail => ?_⟩
      unfold rowRepair
      rw [hu]
      simp [hne]

theorem colRepair_segment (size j : Nat) (sol : Mask) (ds : List Draw) (sol1 : Mask)
    (rest : List Draw) (h : colRepair size j sol ds = some (sol1, rest)) :
    ∃ used, ds = used ++ rest ∧ ∀ tail, colRepair size j sol (used ++ tail) = some (sol1, tail) := by
  unfold colRepair at h
  split at h
  · simp at h
  · rename_i sol2 c2 ds2 hfill
    obtain ⟨used, e, hu⟩ := colFill_segment size j ds sol _ sol2 c2 ds2 hfill
    split at h
    · rename_i hfull
      split at h
      · simp at h
      · rename_i r ds3
        simp only [Option.some.injEq, Prod.mk.injEq] at h
        obtain ⟨rfl, rfl⟩ := h
        refine ⟨used ++ [r], by rw [e]; simp, fun tail => ?_⟩
        unfold colRepair
        rw [List.append_assoc, hu]
        simp [hfull]
    · rename_i hne
      simp only [Option.some.injEq, Prod.mk.injEq] at h
      obtain ⟨rfl, rfl⟩ := h
      refine ⟨used, e, fun tail => ?_⟩
      unfold colRepair
      rw [hu]
      simp [hne]

theorem finalRepair_segment (size i : Nat) (sol : Mask) (ds : List Draw) (sol1 : Mask)
    (rest : List Draw) (h : finalRepair size i sol ds = some (sol1, rest)) :
    ∃ used, ds = used ++ rest ∧
      ∀ tail, finalRepair size i sol (used ++ tail) = some (sol1, tail) := by
  rcases finalRepair_cases size i sol ds sol1 rest h with ⟨hne, rfl, rfl⟩ | ⟨hfull, hc, r, rfl, rfl⟩ |
    ⟨hfull, hc, r, rfl, rfl⟩
  · exact ⟨[], rfl, fun tail => by simp [finalRepair, hne]⟩
  · exact ⟨[r], rfl, fun tail => by simp [finalRepair, hfull, hc]⟩
  · exact ⟨[r], rfl, fun tail => by simp [finalRepair, hfull, hc]⟩

theorem forEach_segment (body : Nat → Mask → List Draw → Option (Mask × List Draw))
    (hbody : ∀ i sol ds sol1 rest, body i sol ds = some (sol1, rest) →
      ∃ used, ds = used ++ rest ∧ ∀ tail, body i sol (used ++ tail) = some (sol1, tail))
    (is : List Nat) :
    ∀ (sol : Mask) (ds : List Draw) (sol1 : Mask) (rest : List Draw),
      forEach body is sol ds = some (sol1, rest) →
      ∃ used, ds = used ++ rest ∧
        ∀ tail, forEach body is sol (used ++ tail) = some (sol1, tail) := by
  induction is with
  | nil =>
    intro sol ds sol1 rest h
    simp only [forEach, Option.some.injEq, Prod.mk.injEq] at h
    obtain ⟨rfl, rfl⟩ := h
    exact ⟨[], rfl, fun tail => rfl⟩
  | cons a is ih =>
    intro sol ds sol1 rest h
    unfold forEach at h
    split at h
    · simp at h
    · rename_i sol2 ds2 hb
      obtain ⟨u1, e1, h1⟩ := hbody a sol ds sol2 ds2 hb
      obtain ⟨u2, e2, h2⟩ := ih sol2 ds2 sol1 rest h
      refine ⟨u1 ++ u2, by rw [e1, e2, List.append_assoc], fun tail => ?_⟩
      unfold forEach
      rw [List.append_assoc, h1]
      exact h2 tail

theorem fillRow_segment (n : Nat) :
    ∀ (ds : List Draw) (gr : List Nat) (sr : List Bool) (rest : List Draw),
      fillRow n ds = some (gr, sr, rest) →
      ∃ used, ds = used ++ rest ∧ used.length = 2 * n ∧
        ∀ tail, fillRow n (used ++ tail) = some (gr, sr, tail) := by
  induction n with
  | zero =>
    intro ds gr sr rest h
    simp only [fillRow, Option.some.injEq, Prod.mk.injEq] at h
    obtain ⟨rfl, rfl, rfl⟩ := h
    exact ⟨[], rfl, rfl, fun tail => rfl⟩
  | succ n ih =>
    intro ds gr sr rest h
    match ds, h with
    | [], h => simp [fillRow] at h
    | [_], h => simp [fillRow] at h
    | g :: m :: ds, h =>
      unfold fillRow at h
      split at h
      · rename_i gr1 sr1 rest1 hrec
        simp only [Option.some.injEq, Prod.mk.injEq] at h
        obtain ⟨rfl, rfl, rfl⟩ := h
        obtain ⟨used, e, hl, hu⟩ := ih ds gr1 sr1 rest1 hrec
        refine ⟨g :: m :: used, by rw [e]; rfl, by simp [hl]; omega, fun tail => ?_⟩
        have e2 : (g :: m :: used) ++ tail = g :: m :: (used ++ tail) := rfl
        rw [e2, fillRow, hu tail]
      · simp at h

theorem fillGrid_segment (size n : Nat) :
    ∀ (ds : List Draw) (g : Grid) (s : Mask) (rest : List Draw),
      fillGrid size n ds = some (g, s, rest) →
      ∃ used, ds = used ++ rest ∧ used.length = 2 * (n * size) ∧
        ∀ tail, fillGrid size n (used ++ tail) = some (g, s, tail) := by
  induction n with
  | zero =>
    intro ds g s rest h
    simp only [fillGrid, Option.some.injEq, Prod.mk.injEq] at h
    obtain ⟨rfl, rfl, rfl⟩ := h
    exact ⟨[], rfl, by simp, fun tail => rfl⟩
  | succ n ih =>
    intro ds g s rest h
    unfold fillGrid at h
    split at h
    · simp at h
    · rename_i gr sr rest1 hrow
      split at h
      · simp at h
      · rename_i g1 s1 rest2 hrec
        simp only [Option.some.injEq, Prod.mk.injEq] at h
        obtain ⟨rfl, rfl, rfl⟩ := h
        obtain ⟨u1, e1, l1, h1⟩ := fillRow_segment size ds gr sr rest1 hrow
        obtain ⟨u2, e2, l2, h2⟩ := ih rest1 g1 s1 rest2 hrec
        refine ⟨u1 ++ u2, by rw [e1, e2, List.append_assoc], ?_, fun tail => ?_⟩
        · rw [List.length_append, l1, l2]; ring
        · unfold fillGrid
          rw [List.append_assoc, h1]
          dsimp only
          rw [h2]

theorem generate_of_passes (N : Nat) (grid : Grid) (sol0 sol1 sol2 sol3 : Mask)
    (ds ds0 ds1 ds2 rest : List Draw) (h0 : fillGrid N N ds = some (grid, sol0, ds0))
    (h1 : rowPass N sol0 ds0 = some (sol1, ds1)) (h2 : colPass N sol1 ds1 = some (sol2, ds2))
    (h3 : finalPass N sol2 ds2 = some (sol3, rest)) :
    generate N ds = some (Puzzle.mk grid sol3 (rowTargetsOf N grid sol3)
      (colTargetsOf N grid sol3), rest) := by
  unfold generate
  rw [h0]
  dsimp only
  unfold repair
  rw [h1]
  dsimp only
  rw [h2]
  dsimp only
  rw [h3]

/-! ### Toggling a cell twice -/

theorem list_set_getD {α : Type} (l : List α) (d : α) :
    ∀ i : Nat, l.set i (l.getD i d) = l := by
  induction l with
  | nil => intro i; rfl
  | cons x xs ih =>
    intro i
    cases i with
    | zero => rfl
    | succ i => simp only [List.getD_cons_succ, List.set_cons_succ, ih]

theorem setB_setB (m : Mask) (i j : Nat) (v w : Bool) :
    setB (setB m i j v) i j w = setB m i j w := by
  unfold setB
  by_cases hi : i < m.length
  · have e : (m.set i ((m.getD i []).set j v)).getD i [] = (m.getD i []).set j v := by
      rw [List.getD_eq_getElem?_getD, List.getElem?_set_self hi, Option.getD_some]
    rw [e, List.set_set, List.set_set]
  · have hset : ∀ x, m.set i x = m := fun x => List.set_eq_of_length_le (by omega)
    simp only [hset]

theorem setB_getB (m : Mask) (i j : Nat) : setB m i j (getB m i j) = m := by
  unfold setB getB
  rw [list_set_getD, list_set_getD]

/-! ### Sums of the targets -/

theorem sum_map_range (f : Nat → Nat) (n : Nat) :
    ((List.range n).map f).sum = ∑ i in Finset.range n, f i := by
  induction n with
  | zero => rfl
  | succ n ih =>
    rw [List.range_succ, List.map_append, List.sum_append, ih, Finset.sum_range_succ]
    simp

theorem rowTargetsOf_sum (N : Nat) (grid : Grid) (sol : Mask) :
    (rowTargetsOf N grid sol).sum
      = ∑ c in (Finset.range N ×ˢ Finset.range N).filter (fun c => getB sol c.1 c.2 = true),
          getN grid c.1 c.2 := by
  unfold rowTargetsOf
  rw [sum_map_range, Finset.sum_filter, Finset.sum_product]
  apply Finset.sum_congr rfl
  intro i _
  simp only [rowSum, foldl_cond_add, Finset.sum_filter]

theorem colTargetsOf_sum (N : Nat) (grid : Grid) (sol : Mask) :
    (colTargetsOf N grid sol).sum
      = ∑ c in (Finset.range N ×ˢ Finset.range N).filter (fun c => getB sol c.1 c.2 = true),
          getN grid c.1 c.2 := by
  unfold colTargetsOf
  rw [sum_map_range, Finset.sum_filter, Finset.sum_product_right]
  apply Finset.sum_congr rfl
  intro j _
  simp only [colSum, foldl_cond_add, Finset.sum_filter]

theorem masked_sum_le (p : Nat → Bool) (g : Nat → Nat) (N c : Nat) (hc : c < N)
    (hp : p c = false) (hg : ∀ j, j < N → g j ≤ 9) :
    ∑ j in (Finset.range N).filter (fun j => p j = true), g j ≤ 9 * (N - 1) := by
  have hsub : (Finset.range N).filter (fun j => p j = true) ⊆ (Finset.range N).erase c := by
    intro j hj
    rw [Finset.mem_filter, Finset.mem_range] at hj
    rw [Finset.mem_erase, Finset.mem_range]
    refine ⟨?_, hj.1⟩
    intro e
    rw [e, hp] at hj
    exact Bool.noConfusion hj.2
  have hcard : ((Finset.range N).filter (fun j => p j = true)).card ≤ N - 1 := by
    have := Finset.card_le_card hsub
    rw [Finset.card_erase_of_mem (Finset.mem_range.2 hc), Finset.card_range] at this
    exact this
  calc ∑ j in (Finset.range N).filter (fun j => p j = true), g j
      ≤ ∑ _j in (Finset.range N).filter (fun j => p j = true), 9 := by
        apply Finset.sum_le_sum
        intro j hj
        rw [Finset.mem_filter, Finset.mem_range] at hj
        exact hg j hj.1
    _ = 9 * ((Finset.range N).filter (fun j => p j = true)).card := by
        rw [Finset.sum_const, smul_eq_mul, Nat.mul_comm]
    _ ≤ 9 * (N - 1) := Nat.mul_le_mul_left 9 hcard

theorem generate_col_gap {N : Nat} {ds rest : List Draw} {p : Puzzle}
    (h : generate N ds = some (p, rest)) (j : Nat) (hj : j < N) :
    ∃ i, i < N ∧ getB p.solution i j = false := by
  have hle := generate_colCount_le h j hj
  apply countP_range_exists_false (fun i => getB p.solution i j) N
  have : colCount N p.solution j < N := by omega
  exact this

/-! ### The candidate branch of the final pass -/

theorem rowCount_full (size : Nat) (sol : Mask) (i : Nat) (hsq : Square size sol)
    (hi : i < size) (hfull : rowCount sol i = size) : ∀ j, j < size → getB sol i j = true := by
  rw [rowCount_eq size sol i hsq hi] at hfull
  exact countP_range_all_true (fun j => getB sol i j) size hfull

theorem finalRepair_candidate (size i : Nat) (sol : Mask) (ds : List Draw) (sol1 : Mask)
    (ds1 : List Draw) (hsq : Square size sol) (hi : i < size) (hfull : rowCount sol i = size)
    (hc : 0 < (candidates size sol).length)
    (h : finalRepair size i sol ds = some (sol1, ds1)) :
    ∃ j, j < size ∧ 2 < colCount size sol j ∧ getB sol i j = true ∧
      sol1 = setB sol i j false ∧ colCount size sol1 j + 1 = colCount size sol j ∧
      2 ≤ colCount size sol1 j ∧ ∀ k, k ≠ j → colCount size sol1 k = colCount size sol k := by
  rcases finalRepair_cases size i sol ds sol1 ds1 h with ⟨hne, -, -⟩ | ⟨-, -, r, -, rfl⟩ |
    ⟨-, hc0, -, -, -⟩
  · exact absurd hfull hne
  · obtain ⟨hlt, hgt⟩ := candidates_getD_lt size sol _ (Draw.floorMul_lt r _ hc)
    have hcell := rowCount_full size sol i hsq hi hfull _ hlt
    have hdec := colCount_setB_false_of_true size sol i _ hsq hi hlt hcell
    exact ⟨_, hlt, hgt, hcell, rfl, hdec, by omega,
      fun k hk => colCount_setB_other size sol i _ k false hk⟩
  · omega

/-! ### Loading a level -/

theorem levelSize_ge (level : Nat) : 5 ≤ levelSize level := by
  obtain ⟨h1, h2, h3, h4⟩ := levelSize_cases level
  by_cases a : level ≤ 5
  · rw [h1 a]
  · by_cases b : level ≤ 10
    · rw [h2 (by omega) b]; omega
    · by_cases c : level ≤ 15
      · rw [h3 (by omega) c]; omega
      · rw [h4 (by omega)]; omega

theorem loadLevel_of_generate (level : Nat) (ds rest : List Draw) (p : Puzzle)
    (h : generate (levelSize level) ds = some (p, rest)) :
    loadLevel level ds = some (install (levelSize level) level p, rest) := by
  unfold loadLevel
  rw [h]

theorem loadLevel_eq_some (level : Nat) (ds rest : List Draw) (s : GameState)
    (h : loadLevel level ds = some (s, rest)) :
    ∃ p, generate (levelSize level) ds = some (p, rest) ∧ s = install (levelSize level) level p := by
  unfold loadLevel at h
  split at h
  · simp at h
  · rename_i p rest2 hg
    simp only [Option.some.injEq, Prod.mk.injEq] at h
    obtain ⟨rfl, rfl⟩ := h
    exact ⟨p, hg, rfl⟩

/-! ## Properties of the specification -/

/-- C1. Whenever `generate N` returns, `rowTargets[i]` is the sum of `grid[i][j]`
over exactly the `j < N` with `solution[i][j]` true, for every row `i < N`, and
`colTargets[j]` is the sum of `grid[i][j]` over exactly the `i < N` with
`solution[i][j]` true, for every column `j < N`, for the returned mask. -/
theorem generate_targets (N : Nat) (ds rest : List Draw) (p : Puzzle)
    (h : generate N ds = some (p, rest)) :
    (∀ i, i < N → p.rowTargets.get? i
        = some (∑ j in (Finset.range N).filter (fun j => getB p.solution i j = true),
            getN p.grid i j)) ∧
    (∀ j, j < N → p.colTargets.get? j
        = some (∑ i in (Finset.range N).filter (fun i => getB p.solution i j = true),
            getN p.grid i j)) := by
  obtain ⟨sol0, ds0, -, -, hr, hc⟩ := generate_eq_some h
  rw [hr, hc]
  exact ⟨fun i hi => rowTargetsOf_get N _ _ i hi, fun j hj => colTargetsOf_get N _ _ j hj⟩

theorem generate_targets_witness :
    generate 3 sampleDraws = some (samplePuzzle, []) ∧
    ((∀ i, i < 3 → samplePuzzle.rowTargets.get? i
        = some (∑ j in (Finset.range 3).filter (fun j => getB samplePuzzle.solution i j = true),
            getN samplePuzzle.grid i j)) ∧
    (∀ j, j < 3 → samplePuzzle.colTargets.get? j
        = some (∑ i in (Finset.range 3).filter (fun i => getB samplePuzzle.solution i j = true),
            getN samplePuzzle.grid i j))) :=
  ⟨rfl, generate_targets 3 sampleDraws [] samplePuzzle rfl⟩

/-- C6. `checkSolution` is true exactly when, for every index `i < size`, the
masked sum of row `i` under `playerState` equals `rowTargets[i]` and the masked
sum of column `i` equals `colTargets[i]`; the interleaved loop gives the same
result as checking all rows and then all columns. -/
theorem checkSolution_iff (s : GameState) :
    (checkSolution s = true ↔
      ∀ i, i < s.size →
        s.rowTargets.get? i
          = some (∑ j in (Finset.range s.size).filter (fun j => getB s.playerState i j = true),
              getN s.grid i j) ∧
        s.colTargets.get? i
          = some (∑ k in (Finset.range s.size).filter (fun k => getB s.playerState k i = true),
              getN s.grid k i)) ∧
    checkSolution s
      = ((List.range s.size).all (isRowCorrect s) && (List.range s.size).all (isColCorrect s)) := by
  constructor
  · rw [checkSolution_eq_true_iff]
    simp only [isRowCorrect, isColCorrect, decide_eq_true_eq, getRowSum_eq, getColSum_eq]
  · rw [Bool.eq_iff_iff]
    simp only [checkSolution_eq_true_iff, Bool.and_eq_true, List.all_eq_true, List.mem_range]
    constructor
    · intro h
      exact ⟨fun i hi => (h i hi).1, fun i hi => (h i hi).2⟩
    · rintro ⟨h1, h2⟩ i hi
      exact ⟨h1 i hi, h2 i hi⟩

/-- C7. With the row and column targets that `generate` computes from a grid
and a solution mask, the player state equal to the solution mask makes
`checkSolution` true; in the end-to-end scenario the targets are `[4, 11, 15]`
and `[8, 13, 9]` and the check succeeds. -/
theorem checkSolution_of_solution (N : Nat) (grid : Grid) (sol : Mask)
    (level moves hints : Nat) (complete : Bool) :
    checkSolution
        { grid := grid, solution := sol, playerState := sol,
          rowTargets := rowTargetsOf N grid sol, colTargets := colTargetsOf N grid sol,
          size := N, level := level, moves := moves, hintsUsed := hints,
          isComplete := complete } = true ∧
    rowTargetsOf 3 sampleGrid sampleMask = [4, 11, 15] ∧
    colTargetsOf 3 sampleGrid sampleMask = [8, 13, 9] ∧
    checkSolution
        { grid := sampleGrid, solution := sampleMask, playerState := sampleMask,
          rowTargets := [4, 11, 15], colTargets := [8, 13, 9],
          size := 3, level := level, moves := moves, hintsUsed := hints,
          isComplete := complete } = true := by
  refine ⟨?_, rfl, rfl, rfl⟩
  rw [checkSolution_eq_true_iff]
  intro i hi
  simp only [isRowCorrect, isColCorrect, decide_eq_true_eq, getRowSum_eq, getColSum_eq]
  exact ⟨rowTargetsOf_get N grid sol i hi, colTargetsOf_get N grid sol i hi⟩

/-- C8. On a grid whose cells lie in `[1, 9]`, with the targets computed as the
masked sums under the solution mask, a player state that differs from the
solution mask in exactly one cell `(r, c)` of the board makes `checkSolution`
false. -/
theorem checkSolution_single_flip (N : Nat) (grid : Grid) (sol player : Mask) (r c : Nat)
    (level moves hints : Nat) (complete : Bool)
    (hr : r < N) (hc : c < N)
    (hgrid : ∀ i, i < N → ∀ j, j < N → 1 ≤ getN grid i j ∧ getN grid i j ≤ 9)
    (hdiff : ∀ i, i < N → ∀ j, j < N →
      (getB player i j ≠ getB sol i j ↔ (i = r ∧ j = c))) :
    checkSolution
        { grid := grid, solution := sol, playerState := player,
          rowTargets := rowTargetsOf N grid sol, colTargets := colTargetsOf N grid sol,
          size := N, level := level, moves := moves, hintsUsed := hints,
          isComplete := complete } = false := by
  rw [← Bool.not_eq_true, checkSolution_eq_true_iff]
  intro h
  have h1 := (h r hr).1
  simp only [isRowCorrect, decide_eq_true_eq, getRowSum_eq, rowTargetsOf_get N grid sol r hr,
    Option.some.injEq] at h1
  refine masked_sum_ne (fun j => getB sol r j) (fun j => getB player r j)
    (fun j => getN grid r j) N c hc ?_ ?_ (hgrid r hr c hc).1 h1
  · intro j hj hjc
    by_contra hne
    exact hjc ((hdiff r hr j hj).1 (fun e => hne e.symm)).2
  · intro e
    exact (hdiff r hr c hc).2 ⟨rfl, rfl⟩ e.symm

theorem checkSolution_single_flip_witness :
    checkSolution
        { grid := sampleGrid, solution := sampleMask,
          playerState := [[true, false, true], [false, false, true], [true, true, false]],
          rowTargets := rowTargetsOf 3 sampleGrid sampleMask,
          colTargets := colTargetsOf 3 sampleGrid sampleMask,
          size := 3, level := 1, moves := 1, hintsUsed := 0, isComplete := false } = false :=
  checkSolution_single_flip 3 sampleGrid sampleMask
    [[true, false, true], [false, false, true], [true, true, false]] 1 1 1 1 0 false
    (by decide) (by decide) (by decide) (by decide)

/-- C9. Line correctness is sum equality, not mask equality: `isRowCorrect(row)`
is true exactly when the masked sum of the row under `playerState` equals
`rowTargets[row]`, so replacing the player mask by another one with the same
masked sum of the row leaves the answer unchanged; for the grid row `[3, 5, 2]`
with target 5 the row is correct both for the player mask `[true, false, true]`
and for `[false, true, false]`, and it is not correct for `[true, true, false]`,
which sums to 8. -/
theorem isRowCorrect_sum_only (s : GameState) (other : Mask) (row : Nat)
    (level moves hints : Nat) (complete : Bool)
    (hsum : ∑ j in (Finset.range s.size).filter (fun j => getB s.playerState row j = true),
          getN s.grid row j
      = ∑ j in (Finset.range s.size).filter (fun j => getB other row j = true),
          getN s.grid row j) :
    (isRowCorrect s row = true ↔
      s.rowTargets.get? row
        = some (∑ j in (Finset.range s.size).filter (fun j => getB s.playerState row j = true),
            getN s.grid row j)) ∧
    (isRowCorrect s row = false ↔
      s.rowTargets.get? row
        ≠ some (∑ j in (Finset.range s.size).filter (fun j => getB s.playerState row j = true),
            getN s.grid row j)) ∧
    isRowCorrect { s with playerState := other } row = isRowCorrect s row ∧
    isRowCorrect
      { grid := [[3, 5, 2]], solution := [[true, false, true]],
        playerState := [[true, false, true]], rowTargets := [5], colTargets := [3, 0, 2],
        size := 3, level := level, moves := moves, hintsUsed := hints,
        isComplete := complete } 0 = true ∧
    isRowCorrect
      { grid := [[3, 5, 2]], solution := [[true, false, true]],
        playerState := [[false, true, false]], rowTargets := [5], colTargets := [3, 0, 2],
        size := 3, level := level, moves := moves, hintsUsed := hints,
        isComplete := complete } 0 = true ∧
    isRowCorrect
      { grid := [[3, 5, 2]], solution := [[true, false, true]],
        playerState := [[true, true, false]], rowTargets := [5], colTargets := [3, 0, 2],
        size := 3, level := level, moves := moves, hintsUsed := hints,
        isComplete := complete } 0 = false := by
  refine ⟨?_, ?_, ?_, rfl, rfl, rfl⟩
  · simp only [isRowCorrect, decide_eq_true_eq, getRowSum_eq]
  · simp only [isRowCorrect, decide_eq_false_iff_not, getRowSum_eq, ne_eq]
  · simp only [isRowCorrect, getRowSum_eq, hsum]

theorem isRowCorrect_sum_only_witness :
    isRowCorrect lineState 0 = true ∧
    isRowCorrect
      { lineState with playerState := [[false, true, false], [true, true, false],
          [true, true, false]] } 0 = true ∧
    isRowCorrect
      { lineState with playerState := [[true, true, false], [true, true, false],
          [true, true, false]] } 0 = false :=
  have h := isRowCorrect_sum_only lineState
    [[false, true, false], [true, true, false], [true, true, false]] 0 1 0 0 false (by decide)
  ⟨h.1.2 rfl, h.2.2.1.trans (h.1.2 rfl), rfl⟩

/-- C10. With fewer than 3 hints used, the puzzle not complete and the player
state differing from the solution somewhere on the board, `giveHint` changes
exactly the first mismatching cell in row-major order, which it sets to the
solution value; all other cells keep their value, the Hamming distance to the
solution drops by exactly one and `hintsUsed` grows by exactly one. -/
theorem giveHint_first_mismatch (s : GameState)
    (hh : s.hintsUsed < 3) (hc : s.isComplete = false)
    (hsq : Square s.size s.playerState)
    (hd : ∃ a, a < s.size ∧ ∃ b, b < s.size ∧ getB s.playerState a b ≠ getB s.solution a b) :
    ∃ i j, i < s.size ∧ j < s.size ∧
      getB s.playerState i j ≠ getB s.solution i j ∧
      (∀ a, a < s.size → ∀ b, b < s.size → (a < i ∨ (a = i ∧ b < j)) →
        getB s.playerState a b = getB s.solution a b) ∧
      getB (giveHint s).playerState i j = getB s.solution i j ∧
      (∀ a b, ¬ (a = i ∧ b = j) →
        getB (giveHint s).playerState a b = getB s.playerState a b) ∧
      Square s.size (giveHint s).playerState ∧
      hamming s.size (giveHint s).playerState s.solution + 1
        = hamming s.size s.playerState s.solution ∧
      (giveHint s).hintsUsed = s.hintsUsed + 1 ∧
      (giveHint s).solution = s.solution ∧ (giveHint s).size = s.size := by
  cases hf : firstMismatch s with
  | none =>
    obtain ⟨a, ha, b, hb, hne⟩ := hd
    exact absurd (firstMismatch_none s hf a ha b hb) hne
  | some c =>
    obtain ⟨i, j⟩ := c
    obtain ⟨hi, hj, hne, hfirst⟩ := firstMismatch_some s i j hf
    obtain ⟨hp, hu, hs, -, hz, -, -, -⟩ := giveHint_eq s i j hh hc hf
    refine ⟨i, j, hi, hj, hne, hfirst, ?_, ?_, ?_, ?_, hu, hs, hz⟩
    · rw [hp]; exact getB_setB_square s.size _ i j _ hsq hi hj
    · intro a b hab
      rw [hp]; exact getB_setB_ne _ i j a b _ hab
    · rw [hp]; exact square_setB s.size _ i j _ hsq
    · rw [hp]; exact hamming_setB s.size _ _ i j hsq hi hj hne

theorem giveHint_first_mismatch_witness :
    ∃ i j, i < sampleState.size ∧ j < sampleState.size ∧
      getB sampleState.playerState i j ≠ getB sampleState.solution i j ∧
      (∀ a, a < sampleState.size → ∀ b, b < sampleState.size → (a < i ∨ (a = i ∧ b < j)) →
        getB sampleState.playerState a b = getB sampleState.solution a b) ∧
      getB (giveHint sampleState).playerState i j = getB sampleState.solution i j ∧
      (∀ a b, ¬ (a = i ∧ b = j) →
        getB (giveHint sampleState).playerState a b = getB sampleState.playerState a b) ∧
      Square sampleState.size (giveHint sampleState).playerState ∧
      hamming sampleState.size (giveHint sampleState).playerState sampleState.solution + 1
        = hamming sampleState.size sampleState.playerState sampleState.solution ∧
      (giveHint sampleState).hintsUsed = sampleState.hintsUsed + 1 ∧
      (giveHint sampleState).solution = sampleState.solution ∧
      (giveHint sampleState).size = sampleState.size :=
  giveHint_first_mismatch sampleState (by decide) rfl (by decide)
    ⟨0, by decide, 1, by decide, by decide⟩

/-- C5. A freshly loaded puzzle is never solved already: whenever `generate N`
returns for a size `N ≥ 1`, `checkSolution` is false on the state that
`loadLevel` installs, whose player state is all active. -/
theorem fresh_puzzle_not_solved (N level : Nat) (ds rest : List Draw) (p : Puzzle)
    (hN : 1 ≤ N) (h : generate N ds = some (p, rest)) :
    checkSolution (install N level p) = false := by
  rw [← Bool.not_eq_true, checkSolution_eq_true_iff]
  intro hall
  have h0 : 0 < N := hN
  have hrow := (hall 0 h0).1
  obtain ⟨sol0, ds0, hfill, -, hr, -⟩ := generate_eq_some h
  obtain ⟨j0, hj0, hgap⟩ := generate_gaps h 0 h0
  have hcell := (fillGrid_cell N ds _ sol0 ds0 hfill 0 j0 h0 hj0).1
  simp only [isRowCorrect, install, decide_eq_true_eq, getRowSum_eq, hr,
    rowTargetsOf_get N p.grid p.solution 0 h0, Option.some.injEq] at hrow
  have hlt : ∑ j in (Finset.range N).filter (fun j => getB p.solution 0 j = true), getN p.grid 0 j
      < ∑ j in (Finset.range N).filter (fun j => getB (allActive N) 0 j = true),
          getN p.grid 0 j := by
    apply Finset.sum_lt_sum_of_subset (i := j0)
    · intro j hj
      rw [Finset.mem_filter, Finset.mem_range] at hj ⊢
      exact ⟨hj.1, getB_allActive N 0 j h0 hj.1⟩
    · rw [Finset.mem_filter, Finset.mem_range]
      exact ⟨hj0, getB_allActive N 0 j0 h0 hj0⟩
    · rw [Finset.mem_filter]
      intro hmem
      rw [hgap] at hmem
      exact Bool.noConfusion hmem.2
    · exact hcell
    · intro j _ _
      exact Nat.zero_le _
  omega

theorem fresh_puzzle_not_solved_witness :
    generate 3 sampleDraws = some (samplePuzzle, []) ∧
      checkSolution (install 3 1 samplePuzzle) = false :=
  ⟨rfl, fresh_puzzle_not_solved 3 1 sampleDraws [] samplePuzzle (by decide) rfl⟩

/-- C3, amended. Whenever `generate N` returns for `N ≥ 3`, every column of the
returned mask has at most `N - 1` active cells, and it has at least 2 active
cells when the final pass did not take its fallback branch on that run. -/
theorem generate_columns (N : Nat) (ds rest : List Draw) (p : Puzzle)
    (hN : 3 ≤ N) (h : generate N ds = some (p, rest)) :
    (∀ j, j < N → colCount N p.solution j ≤ N - 1) ∧
    (takesFallback N ds = false → ∀ j, j < N → 2 ≤ colCount N p.solution j) := by
  obtain ⟨sol0, ds0, hfill, hrep, -, -⟩ := generate_eq_some h
  obtain ⟨sol1, ds1, sol2, ds2, hrow, hcol, hfin⟩ := repair_eq_some hrep
  have h0 := fillGrid_square N ds _ sol0 ds0 hfill
  have h1 := forEach_stable (rowRepair N) (Square N)
    (fun i s d s1 d1 => rowRepair_stable _ (square_setB N) N i s d s1 d1) _ _ _ _ _ hrow h0
  obtain ⟨h2, hcols⟩ := colPass_spec N sol1 ds1 sol2 ds2 hcol h1
  constructor
  · intro j hj
    exact le_trans (finalPass_colCount_le N sol2 ds2 _ rest hfin j) (hcols j hj).2
  · intro hfb
    rw [takesFallback_eq hfill hrow hcol] at hfb
    exact finalPass_no_fallback N (List.range N) (fun i hi => List.mem_range.1 hi)
      sol2 ds2 _ rest hfin hfb h2 (fun j hj => (hcols j hj).1 hN)

theorem generate_columns_witness :
    generate 3 sampleDraws = some (samplePuzzle, []) ∧ takesFallback 3 sampleDraws = false ∧
    (∀ j, j < 3 → colCount 3 samplePuzzle.solution j ≤ 3 - 1) ∧
    (∀ j, j < 3 → 2 ≤ colCount 3 samplePuzzle.solution j) :=
  ⟨rfl, rfl, (generate_columns 3 sampleDraws [] samplePuzzle (by decide) rfl).1,
    (generate_columns 3 sampleDraws [] samplePuzzle (by decide) rfl).2 rfl⟩

/-- C3 fails as stated: on `fallbackDraws` the final pass takes its fallback
branch and `generate 3` returns a mask whose column 0 has one active cell. -/
theorem generate_columns_counterexample :
    ¬ ∀ (N : Nat) (ds rest : List Draw) (p : Puzzle), 3 ≤ N →
      generate N ds = some (p, rest) →
      ∀ j, j < N → 2 ≤ colCount N p.solution j ∧ colCount N p.solution j ≤ N - 1 := by
  intro hall
  have h := (hall 3 fallbackDraws [] fallbackPuzzle (by decide) rfl 0 (by decide)).1
  exact absurd h (by decide)

/-- C2. The row minimum fails on the code: on `rowDropDraws` every row is filled
with 2 to 4 active cells, the column pass finds column 0 fully active and
deactivates its cell in row 0, and `generate 5` returns a mask whose row 0 has
one active cell; so the row invariant does not hold on every run. -/
theorem generate_row_minimum_fails :
    generate 5 rowDropDraws = some (rowDropPuzzle, []) ∧
    rowCount rowDropPuzzle.solution 0 = 1 ∧
    ¬ ∀ (N : Nat) (ds rest : List Draw) (p : Puzzle), 3 ≤ N →
      generate N ds = some (p, rest) →
      ∀ i, i < N → 2 ≤ rowCount p.solution i ∧ rowCount p.solution i ≤ N - 1 := by
  refine ⟨rfl, rfl, ?_⟩
  intro hall
  have h := (hall 5 rowDropDraws [] rowDropPuzzle (by decide) rfl 0 (by decide)).1
  exact absurd h (by decide)

/-- C4, amended. For every size `N ≥ 2` and every infinite sequence of draws in
`[0,1)` in which each index below `N` is drawn again and again, the retry loops
finish and `generate N` returns a puzzle after finitely many draws. -/
theorem generate_terminates_of_fair (N : Nat) (s : Nat → Draw) (hN : 2 ≤ N)
    (hfair : Fair N s) : ∃ n p, generate N (firstDraws s n) = some (p, []) := by
  obtain ⟨n, p, h⟩ := generate_terminates N hN s hfair
  refine ⟨n, p, ?_⟩
  have h2 := h []
  rw [List.append_nil] at h2
  exact h2

theorem generate_terminates_of_fair_witness :
    Fair 3 thirds ∧ ∃ n p, generate 3 (firstDraws thirds n) = some (p, []) :=
  have hfair : Fair 3 thirds := fun k hk n =>
    ⟨3 * n + k, by omega, by
      show (3 * n + k) % 3 * 3 / 3 = k
      omega⟩
  ⟨hfair, generate_terminates_of_fair 3 thirds (by decide) hfair⟩

/-- C4 fails as stated: on the sequence of draws that are all 0 the column retry
loop of `generate 3` draws row 0 for ever, so no initial segment of the sequence
makes `generate 3` return; and `generate 1` returns on no draws at all, its row
retry loop waiting for a second active cell in a row of one cell. -/
theorem generate_terminates_counterexample :
    (¬ ∀ (N : Nat) (s : Nat → Draw), 1 ≤ N →
      ∃ n p rest, generate N (firstDraws s n) = some (p, rest)) ∧
    (∀ n, generate 3 (firstDraws (fun _ => zeroDraw) n) = none) ∧
    (∀ ds, generate 1 ds = none) := by
  have hzero : ∀ n, generate 3 (firstDraws (fun _ => zeroDraw) n) = none := by
    intro n
    rw [firstDraws_const]
    exact generate_zero_none n
  refine ⟨?_, hzero, generate_one_none⟩
  intro hall
  obtain ⟨n, p, rest, h⟩ := hall 3 (fun _ => zeroDraw) (by decide)
  rw [hzero n] at h
  exact Option.noConfusion h

/-- C11. Hints are capped at 3 per level: with `hintsUsed ≥ 3` a call of
`giveHint` leaves `playerState` and `hintsUsed` unchanged, and from the state
that `loadLevel` installs, where `hintsUsed = 0`, every sequence of `toggleCell`,
`giveHint` and `resetPuzzle` calls keeps `0 ≤ hintsUsed ≤ 3`. -/
theorem hints_capped (N level : Nat) (p : Puzzle) (acts : List Action) :
    (∀ s : GameState, 3 ≤ s.hintsUsed →
      (giveHint s).playerState = s.playerState ∧ (giveHint s).hintsUsed = s.hintsUsed) ∧
    (install N level p).hintsUsed = 0 ∧
    0 ≤ (run acts (install N level p)).hintsUsed ∧
    (run acts (install N level p)).hintsUsed ≤ 3 := by
  refine ⟨?_, rfl, Nat.zero_le _, run_hintsUsed_le acts _ (by simp [install])⟩
  intro s h
  rw [giveHint_of_capped s h]
  exact ⟨rfl, rfl⟩

/-- C15. `loadLevel` takes the board size from the level alone: 5 for levels 1
to 5, 6 for levels 6 to 10, 7 for levels 11 to 15 and 8 from level 16 on; the
size is one of 5, 6, 7, 8 and does not decrease when the level grows.
`loadLevel(level)` returns exactly when `generate` returns at that size, which
it does on every sequence of draws that draws each index again and again, and
the state it returns has that size; on `rowDropDraws` level 1 loads a board of
size 5. -/
theorem loadLevel_size (level : Nat) :
    (1 ≤ level → level ≤ 5 → levelSize level = 5) ∧
    (6 ≤ level → level ≤ 10 → levelSize level = 6) ∧
    (11 ≤ level → level ≤ 15 → levelSize level = 7) ∧
    (16 ≤ level → levelSize level = 8) ∧
    (levelSize level = 5 ∨ levelSize level = 6 ∨ levelSize level = 7 ∨ levelSize level = 8) ∧
    (∀ later, level ≤ later → levelSize level ≤ levelSize later) ∧
    (∀ ds s rest, loadLevel level ds = some (s, rest) →
      s.size = levelSize level ∧ s.level = level) ∧
    (∀ ds p rest, generate (levelSize level) ds = some (p, rest) →
      loadLevel level ds = some (install (levelSize level) level p, rest) ∧
      (install (levelSize level) level p).size = levelSize level) ∧
    (∀ s : Nat → Draw, Fair (levelSize level) s →
      ∃ n st, loadLevel level (firstDraws s n) = some (st, []) ∧
        st.size = levelSize level ∧ st.level = level) ∧
    loadLevel 1 rowDropDraws = some (install 5 1 rowDropPuzzle, []) := by
  obtain ⟨h1, h2, h3, h4⟩ := levelSize_cases level
  refine ⟨fun _ h => h1 h, h2, h3, h4, ?_, ?_, ?_, ?_, ?_, rfl⟩
  · by_cases a : level ≤ 5
    · exact Or.inl (h1 a)
    · by_cases b : level ≤ 10
      · exact Or.inr (Or.inl (h2 (by omega) b))
      · by_cases c : level ≤ 15
        · exact Or.inr (Or.inr (Or.inl (h3 (by omega) c)))
        · exact Or.inr (Or.inr (Or.inr (h4 (by omega))))
  · intro later hle
    obtain ⟨g1, g2, g3, g4⟩ := levelSize_cases later
    by_cases a : later ≤ 5
    · rw [g1 a, h1 (by omega)]
    · by_cases b : later ≤ 10
      · rw [g2 (by omega) b]
        by_cases a2 : level ≤ 5
        · rw [h1 a2]; omega
        · rw [h2 (by omega) (by omega)]
      · by_cases c : later ≤ 15
        · rw [g3 (by omega) c]
          by_cases a2 : level ≤ 5
          · rw [h1 a2]; omega
          · by_cases b2 : level ≤ 10
            · rw [h2 (by omega) b2]; omega
            · rw [h3 (by omega) (by omega)]
        · rw [g4 (by omega)]
          by_cases a2 : level ≤ 5
          · rw [h1 a2]; omega
          · by_cases b2 : level ≤ 10
            · rw [h2 (by omega) b2]; omega
            · by_cases c2 : level ≤ 15
              · rw [h3 (by omega) c2]; omega
              · rw [h4 (by omega)]
  · intro ds s rest h
    obtain ⟨p, -, rfl⟩ := loadLevel_eq_some level ds rest s h
    exact ⟨rfl, rfl⟩
  · intro ds p rest h
    exact ⟨loadLevel_of_generate level ds rest p h, rfl⟩
  · intro s hfair
    have hge := levelSize_ge level
    obtain ⟨n, p, hgen⟩ := generate_terminates (levelSize level) (by omega) s hfair
    have h0 := hgen []
    rw [List.append_nil] at h0
    exact ⟨n, install (levelSize level) level p,
      loadLevel_of_generate level _ [] p h0, rfl, rfl⟩

theorem loadLevel_size_witness :
    loadLevel 1 rowDropDraws = some (install 5 1 rowDropPuzzle, []) ∧
    (install 5 1 rowDropPuzzle).size = levelSize 1 ∧ levelSize 1 = 5 ∧
    (install 5 1 rowDropPuzzle).level = 1 :=
  ⟨rfl,
    ((loadLevel_size 1).2.2.2.2.2.2.1 rowDropDraws (install 5 1 rowDropPuzzle) [] rfl).1,
    (loadLevel_size 1).1 (by decide) (by decide),
    ((loadLevel_size 1).2.2.2.2.2.2.1 rowDropDraws (install 5 1 rowDropPuzzle) [] rfl).2⟩

/-- C12. Completion is terminal. In a game started by `loadLevel` on a generated
puzzle, after any sequence of `toggleCell`, `giveHint` and `resetPuzzle` calls, a
further `toggleCell` or `giveHint` call whose resulting board satisfies
`checkSolution` leaves `isComplete` true; and once `isComplete` is true, every
sequence of `toggleCell` and `giveHint` calls leaves the state, in particular
`playerState`, `moves` and `hintsUsed`, unchanged. -/
theorem completion_terminal (N level : Nat) (ds rest : List Draw) (p : Puzzle)
    (hN : 1 ≤ N) (hgen : generate N ds = some (p, rest)) (acts : List Action) :
    (∀ r c, checkSolution (toggleCell (run acts (install N level p)) r c) = true →
      (toggleCell (run acts (install N level p)) r c).isComplete = true) ∧
    (checkSolution (giveHint (run acts (install N level p))) = true →
      (giveHint (run acts (install N level p))).isComplete = true) ∧
    (∀ (s : GameState) (calls : List Action), s.isComplete = true →
      (∀ a, a ∈ calls → a.isPlay = true) →
      run calls s = s ∧ (run calls s).playerState = s.playerState ∧
        (run calls s).moves = s.moves ∧ (run calls s).hintsUsed = s.hintsUsed) := by
  have hplay := playing_run N p hN (generate_row_gap hN hgen) acts _
    (playing_install N level ds rest p hN hgen)
  refine ⟨fun r c => toggleCell_solved _ r c, giveHint_solved _ hplay.2.2.2.2.2.2, ?_⟩
  intro s calls hc hcalls
  have := run_of_complete calls s hc hcalls
  exact ⟨this, by rw [this], by rw [this], by rw [this]⟩

theorem completion_terminal_witness :
    generate 3 sampleDraws = some (samplePuzzle, []) ∧
    (run [Action.toggle 0 1, Action.toggle 1 0, Action.toggle 2 2] (install 3 1 samplePuzzle)).isComplete
      = true ∧
    run [Action.toggle 0 0, Action.hint]
        (run [Action.toggle 0 1, Action.toggle 1 0, Action.toggle 2 2] (install 3 1 samplePuzzle))
      = run [Action.toggle 0 1, Action.toggle 1 0, Action.toggle 2 2] (install 3 1 samplePuzzle) :=
  ⟨rfl, rfl,
    ((completion_terminal 3 1 sampleDraws [] samplePuzzle (by decide) rfl []).2.2
      (run [Action.toggle 0 1, Action.toggle 1 0, Action.toggle 2 2] (install 3 1 samplePuzzle))
      [Action.toggle 0 0, Action.hint] rfl (by decide)).1⟩

/-- C13. Whenever `generate N` returns, the grid has exactly `N` rows of exactly
`N` cells, the cell `grid[i][j]` is `floor(9 * r) + 1` for the draw `r` in
`[0,1)` at position `2 * (i * N + j)` and lies between 1 and 9, the solution
mask is `N × N`, and `rowTargets` and `colTargets` have length `N`. -/
theorem generate_shape (N : Nat) (ds rest : List Draw) (p : Puzzle)
    (h : generate N ds = some (p, rest)) :
    p.grid.length = N ∧ (∀ row, row ∈ p.grid → row.length = N) ∧
    (∀ i, i < N → ∀ j, j < N →
      ∃ r, ds.get? (2 * (i * N + j)) = some r ∧ 0 ≤ r.value ∧ r.value < 1 ∧
        getN p.grid i j = ⌊(9 : ℚ) * r.value⌋₊ + 1 ∧
        1 ≤ getN p.grid i j ∧ getN p.grid i j ≤ 9) ∧
    Square N p.solution ∧ p.rowTargets.length = N ∧ p.colTargets.length = N := by
  obtain ⟨sol0, ds0, hfill, -, hr, hc⟩ := generate_eq_some h
  obtain ⟨h1, -, h3, -⟩ := fillGrid_spec N N ds _ sol0 ds0 hfill
  refine ⟨h1, fun row hrow => (h3 row hrow).1, ?_, generate_square h, ?_, ?_⟩
  · intro i hi j hj
    obtain ⟨r, m, e1, -, e3, -⟩ := (fillGrid_order N N ds _ sol0 ds0 hfill).2 i hi j hj
    have hb := fillGrid_cell N ds _ sol0 ds0 hfill i j hi hj
    refine ⟨r, e1, r.value_nonneg, r.value_lt_one, ?_, hb.1, hb.2⟩
    rw [e3, Draw.floorMul_eq_floor]
    norm_num
  · rw [hr]; simp [rowTargetsOf]
  · rw [hc]; simp [colTargetsOf]

theorem generate_shape_witness :
    generate 3 sampleDraws = some (samplePuzzle, []) ∧
    samplePuzzle.grid.length = 3 ∧ (∀ row, row ∈ samplePuzzle.grid → row.length = 3) ∧
    (∀ i, i < 3 → ∀ j, j < 3 →
      ∃ r, sampleDraws.get? (2 * (i * 3 + j)) = some r ∧ 0 ≤ r.value ∧ r.value < 1 ∧
        getN samplePuzzle.grid i j = ⌊(9 : ℚ) * r.value⌋₊ + 1 ∧
        1 ≤ getN samplePuzzle.grid i j ∧ getN samplePuzzle.grid i j ≤ 9) ∧
    Square 3 samplePuzzle.solution ∧ samplePuzzle.rowTargets.length = 3 ∧
    samplePuzzle.colTargets.length = 3 :=
  ⟨rfl, generate_shape 3 sampleDraws [] samplePuzzle rfl⟩

/-- C16. Whenever `generate N` returns for `N ≥ 1`, no row and no column of the
returned mask is fully active: each row and each column has an inactive cell,
hence at most `N - 1` active cells. -/
theorem generate_no_full_line (N : Nat) (ds rest : List Draw) (p : Puzzle)
    (hN : 1 ≤ N) (h : generate N ds = some (p, rest)) :
    (∀ i, i < N → (∃ j, j < N ∧ getB p.solution i j = false) ∧ rowCount p.solution i ≤ N - 1) ∧
    (∀ j, j < N → (∃ i, i < N ∧ getB p.solution i j = false) ∧
      colCount N p.solution j ≤ N - 1) := by
  constructor
  · intro i hi
    obtain ⟨j, hj, hgap⟩ := generate_gaps h i hi
    refine ⟨⟨j, hj, hgap⟩, ?_⟩
    rw [rowCount_eq N p.solution i (generate_square h) hi]
    have := countP_range_lt_of_false (fun j => getB p.solution i j) N j hj hgap
    omega
  · intro j hj
    have hle := generate_colCount_le h j hj
    refine ⟨?_, hle⟩
    apply countP_range_exists_false (fun i => getB p.solution i j) N
    have : colCount N p.solution j < N := by omega
    exact this

theorem generate_no_full_line_witness :
    generate 3 fallbackDraws = some (fallbackPuzzle, []) ∧
    (∀ i, i < 3 → (∃ j, j < 3 ∧ getB fallbackPuzzle.solution i j = false) ∧
      rowCount fallbackPuzzle.solution i ≤ 3 - 1) ∧
    (∀ j, j < 3 → (∃ i, i < 3 ∧ getB fallbackPuzzle.solution i j = false) ∧
      colCount 3 fallbackPuzzle.solution j ≤ 3 - 1) :=
  ⟨rfl, generate_no_full_line 3 fallbackDraws [] fallbackPuzzle (by decide) rfl⟩

/-- C17. The row repair pass, run on an `N × N` mask with `N ≥ 3`: when it
finishes, every row has at least 2 and at most `N - 1` active cells, and a row
differs from what it was only if it started with fewer than 2 active cells or
with all `N` cells active. -/
theorem rowPass_post (N : Nat) (sol : Mask) (ds : List Draw) (sol1 : Mask) (ds1 : List Draw)
    (hN : 3 ≤ N) (hsq : Square N sol) (h : rowPass N sol ds = some (sol1, ds1)) :
    (∀ i, i < N → 2 ≤ rowCount sol1 i ∧ rowCount sol1 i ≤ N - 1) ∧
    (∀ i, i < N → sol1.getD i [] ≠ sol.getD i [] → rowCount sol i < 2 ∨ rowCount sol i = N) := by
  obtain ⟨-, -, h3⟩ := rowPass_spec N (List.range N) (List.nodup_range N)
    (fun i hi => List.mem_range.1 hi) sol ds sol1 ds1 h hsq
  constructor
  · intro i hi
    obtain ⟨g1, g2, -⟩ := h3 i (List.mem_range.2 hi)
    exact ⟨g1 hN, g2⟩
  · intro i hi hne
    obtain ⟨-, -, g3⟩ := h3 i (List.mem_range.2 hi)
    have hle : rowCount sol i ≤ N := by
      rw [rowCount_eq N sol i hsq hi]; exact countP_range_le _ N
    by_contra hcon
    push_neg at hcon
    exact hne (g3 (by omega) (by omega))

theorem rowPass_post_witness :
    rowPass 3 [[true, true, true], [false, false, false], [true, false, true]]
        [tenth 0, tenth 0, tenth 4]
      = some ([[false, true, true], [true, true, false], [true, false, true]], []) ∧
    (∀ i, i < 3 →
      2 ≤ rowCount [[false, true, true], [true, true, false], [true, false, true]] i ∧
      rowCount [[false, true, true], [true, true, false], [true, false, true]] i ≤ 3 - 1) ∧
    (∀ i, i < 3 →
      List.getD [[false, true, true], [true, true, false], [true, false, true]] i []
        ≠ List.getD [[true, true, true], [false, false, false], [true, false, true]] i [] →
      rowCount [[true, true, true], [false, false, false], [true, false, true]] i < 2 ∨
      rowCount [[true, true, true], [false, false, false], [true, false, true]] i = 3) :=
  ⟨rfl, rowPass_post 3 [[true, true, true], [false, false, false], [true, false, true]]
    [tenth 0, tenth 0, tenth 4]
    [[false, true, true], [true, true, false], [true, false, true]] []
    (by decide) (by decide) rfl⟩

/-- C18. The column repair pass, run on an `N × N` mask with `N ≥ 3`: when it
finishes, every column has at least 2 and at most `N - 1` active cells; the
body of the pass for column `j` changes no cell outside column `j`. -/
theorem colPass_post (N : Nat) (sol : Mask) (ds : List Draw) (sol1 : Mask) (ds1 : List Draw)
    (hN : 3 ≤ N) (hsq : Square N sol) (h : colPass N sol ds = some (sol1, ds1)) :
    (∀ j, j < N → 2 ≤ colCount N sol1 j ∧ colCount N sol1 j ≤ N - 1) ∧
    (∀ (j : Nat) (m : Mask) (d : List Draw) (m1 : Mask) (d1 : List Draw),
      colRepair N j m d = some (m1, d1) → ∀ a b, b ≠ j → getB m1 a b = getB m a b) := by
  constructor
  · intro j hj
    obtain ⟨g1, g2⟩ := (colPass_spec N sol ds sol1 ds1 h hsq).2 j hj
    exact ⟨g1 hN, g2⟩
  · intro j m d m1 d1 hrep
    exact colRepair_frame N j m d m1 d1 hrep

theorem colPass_post_witness :
    colPass 3 [[true, true, false], [true, true, false], [true, true, false]]
        [tenth 7, tenth 0, tenth 0, tenth 4]
      = some ([[true, false, true], [true, true, true], [false, true, false]], []) ∧
    (∀ j, j < 3 →
      2 ≤ colCount 3 [[true, false, true], [true, true, true], [false, true, false]] j ∧
      colCount 3 [[true, false, true], [true, true, true], [false, true, false]] j ≤ 3 - 1) :=
  ⟨rfl, (colPass_post 3 [[true, true, false], [true, true, false], [true, true, false]]
    [tenth 7, tenth 0, tenth 0, tenth 4]
    [[true, false, true], [true, true, true], [false, true, false]] []
    (by decide) (by decide) rfl).1⟩

/-- C19. The column repair pass can undo the row invariant: on the `3 × 3` mask
with three rows `[true, true, false]`, where every row has 2 active cells, and
the draws `0.7, 0, 0, 0.4`, the pass returns a mask whose row 1 is fully
active. -/
theorem colPass_refills_row :
    ∃ (N : Nat) (sol : Mask) (ds : List Draw) (sol1 : Mask) (rest : List Draw),
      3 ≤ N ∧ Square N sol ∧ (∀ i, i < N → 2 ≤ rowCount sol i ∧ rowCount sol i ≤ N - 1) ∧
      colPass N sol ds = some (sol1, rest) ∧ ∃ i, i < N ∧ rowCount sol1 i = N :=
  ⟨3, [[true, true, false], [true, true, false], [true, true, false]],
    [tenth 7, tenth 0, tenth 0, tenth 4],
    [[true, false, true], [true, true, true], [false, true, false]], [],
    by decide, by decide, by decide, rfl, 1, by decide, rfl⟩

/-- C20. The fallback branch of the final pass can break the column minimum: on
`fallbackDraws` every column has 2 active cells after the column pass, the
final pass takes its fallback branch, and `generate 3` returns a mask whose
column 0 has one active cell. -/
theorem fallback_breaks_column_minimum :
    ∃ (N : Nat) (ds rest : List Draw) (p : Puzzle) (grid : Grid) (sol0 sol1 sol2 : Mask)
      (ds0 ds1 ds2 : List Draw),
      3 ≤ N ∧ generate N ds = some (p, rest) ∧
      fillGrid N N ds = some (grid, sol0, ds0) ∧ rowPass N sol0 ds0 = some (sol1, ds1) ∧
      colPass N sol1 ds1 = some (sol2, ds2) ∧ (∀ j, j < N → 2 ≤ colCount N sol2 j) ∧
      fallbackIn N (List.range N) sol2 ds2 = true ∧
      finalPass N sol2 ds2 = some (p.solution, rest) ∧
      ∃ j, j < N ∧ colCount N p.solution j < 2 :=
  ⟨3, fallbackDraws, [], fallbackPuzzle, [[1, 1, 1], [1, 1, 1], [1, 1, 1]],
    [[true, true, false], [true, true, false], [true, true, false]],
    [[true, true, false], [true, true, false], [true, true, false]],
    [[true, false, true], [true, true, true], [false, true, false]],
    [tenth 7, tenth 0, tenth 0, tenth 4, tenth 0], [tenth 7, tenth 0, tenth 0, tenth 4, tenth 0],
    [tenth 0],
    by decide, rfl, rfl, rfl, rfl, by decide, rfl, rfl, 0, by decide, by decide⟩

/-- C14. `generate` is a function of the size and of the draws it uses. A run
that returns splits its draws into four consecutive segments and the unused
rest: the fill uses the first `2 * N * N` draws, per cell in row-major order the
grid value and then the mask bit; then come the draws of the row repair, of the
column repair and of the final row pass. Every run on draws that start with the
same four segments returns the same grid, solution, `rowTargets` and
`colTargets`, and leaves what follows the segments unused. -/
theorem generate_deterministic (N : Nat) (ds rest : List Draw) (p : Puzzle)
    (h : generate N ds = some (p, rest)) :
    ∃ (u0 u1 u2 u3 : List Draw) (sol0 sol1 sol2 : Mask),
      ds = u0 ++ (u1 ++ (u2 ++ (u3 ++ rest))) ∧ u0.length = 2 * (N * N) ∧
      (∀ i, i < N → ∀ j, j < N →
        ∃ r m, u0.get? (2 * (i * N + j)) = some r ∧ u0.get? (2 * (i * N + j) + 1) = some m ∧
          getN p.grid i j = r.floorMul 9 + 1 ∧ getB sol0 i j = m.lt06) ∧
      (∀ tail, fillGrid N N (u0 ++ tail) = some (p.grid, sol0, tail)) ∧
      (∀ tail, rowPass N sol0 (u1 ++ tail) = some (sol1, tail)) ∧
      (∀ tail, colPass N sol1 (u2 ++ tail) = some (sol2, tail)) ∧
      (∀ tail, finalPass N sol2 (u3 ++ tail) = some (p.solution, tail)) ∧
      p.rowTargets = rowTargetsOf N p.grid p.solution ∧
      p.colTargets = colTargetsOf N p.grid p.solution ∧
      (∀ tail, generate N (u0 ++ (u1 ++ (u2 ++ (u3 ++ tail)))) = some (p, tail)) ∧
      (∀ tail q left, generate N (u0 ++ (u1 ++ (u2 ++ (u3 ++ tail)))) = some (q, left) →
        q = p ∧ left = tail) := by
  obtain ⟨sol0, ds0, hfill, hrep, hr, hc⟩ := generate_eq_some h
  obtain ⟨sol1, ds1, sol2, ds2, hrow, hcol, hfin⟩ := repair_eq_some hrep
  obtain ⟨u0, e0, l0, g0⟩ := fillGrid_segment N N ds _ sol0 ds0 hfill
  obtain ⟨u1, e1, g1⟩ := forEach_segment (rowRepair N)
    (fun i s d s1 r => rowRepair_segment N i s d s1 r) (List.range N) sol0 ds0 sol1 ds1 hrow
  obtain ⟨u2, e2, g2⟩ := forEach_segment (colRepair N)
    (fun i s d s1 r => colRepair_segment N i s d s1 r) (List.range N) sol1 ds1 sol2 ds2 hcol
  obtain ⟨u3, e3, g3⟩ := forEach_segment (finalRepair N)
    (fun i s d s1 r => finalRepair_segment N i s d s1 r) (List.range N) sol2 ds2 _ rest hfin
  have hgen : ∀ tail, generate N (u0 ++ (u1 ++ (u2 ++ (u3 ++ tail)))) = some (p, tail) := by
    intro tail
    have := generate_of_passes N p.grid sol0 sol1 sol2 p.solution _ _ _ _ tail
      (g0 _) (g1 _) (g2 _) (g3 tail)
    rw [this, ← hr, ← hc]
  refine ⟨u0, u1, u2, u3, sol0, sol1, sol2, by rw [e0, e1, e2, e3], l0, ?_, g0, g1, g2, g3,
    hr, hc, hgen, ?_⟩
  · intro i hi j hj
    have hf := g0 []
    exact (fillGrid_order N N (u0 ++ []) _ sol0 [] hf).2 i hi j hj |>.imp fun r hr2 =>
      hr2.imp fun m hm => by simpa using hm
  · intro tail q left hq
    rw [hgen tail] at hq
    simp only [Option.some.injEq, Prod.mk.injEq] at hq
    exact ⟨hq.1.symm, hq.2.symm⟩

theorem generate_deterministic_witness :
    generate 3 fallbackDraws = some (fallbackPuzzle, []) ∧
    ∃ (u0 u1 u2 u3 : List Draw) (sol0 sol1 sol2 : Mask),
      fallbackDraws = u0 ++ (u1 ++ (u2 ++ (u3 ++ []))) ∧ u0.length = 2 * (3 * 3) ∧
      (∀ i, i < 3 → ∀ j, j < 3 →
        ∃ r m, u0.get? (2 * (i * 3 + j)) = some r ∧ u0.get? (2 * (i * 3 + j) + 1) = some m ∧
          getN fallbackPuzzle.grid i j = r.floorMul 9 + 1 ∧ getB sol0 i j = m.lt06) ∧
      (∀ tail, fillGrid 3 3 (u0 ++ tail) = some (fallbackPuzzle.grid, sol0, tail)) ∧
      (∀ tail, rowPass 3 sol0 (u1 ++ tail) = some (sol1, tail)) ∧
      (∀ tail, colPass 3 sol1 (u2 ++ tail) = some (sol2, tail)) ∧
      (∀ tail, finalPass 3 sol2 (u3 ++ tail) = some (fallbackPuzzle.solution, tail)) ∧
      fallbackPuzzle.rowTargets = rowTargetsOf 3 fallbackPuzzle.grid fallbackPuzzle.solution ∧
      fallbackPuzzle.colTargets = colTargetsOf 3 fallbackPuzzle.grid fallbackPuzzle.solution ∧
      (∀ tail, generate 3 (u0 ++ (u1 ++ (u2 ++ (u3 ++ tail)))) = some (fallbackPuzzle, tail)) ∧
      (∀ tail q left, generate 3 (u0 ++ (u1 ++ (u2 ++ (u3 ++ tail)))) = some (q, left) →
        q = fallbackPuzzle ∧ left = tail) :=
  ⟨rfl, generate_deterministic 3 fallbackDraws [] fallbackPuzzle rfl⟩

/-- C23. With `isComplete` false and `(row, col)` a cell of the `size × size`
player state, `toggleCell(row, col)` negates `playerState[row][col]`, leaves
every other cell and `grid`, `solution`, `rowTargets`, `colTargets`, `hintsUsed`
and `size` unchanged and adds exactly 1 to `moves`; when the board is not solved
after the call, a second `toggleCell(row, col)` gives back the original
`playerState` with `moves` increased by 2. -/
theorem toggleCell_frame (s : GameState) (row col : Nat) (hc : s.isComplete = false)
    (hsq : Square s.size s.playerState) (hrow : row < s.size) (hcol : col < s.size) :
    getB (toggleCell s row col).playerState row col = (!getB s.playerState row col) ∧
    (∀ a b, ¬ (a = row ∧ b = col) →
      getB (toggleCell s row col).playerState a b = getB s.playerState a b) ∧
    Square s.size (toggleCell s row col).playerState ∧
    (toggleCell s row col).grid = s.grid ∧ (toggleCell s row col).solution = s.solution ∧
    (toggleCell s row col).rowTargets = s.rowTargets ∧
    (toggleCell s row col).colTargets = s.colTargets ∧
    (toggleCell s row col).hintsUsed = s.hintsUsed ∧
    (toggleCell s row col).size = s.size ∧
    (toggleCell s row col).moves = s.moves + 1 ∧
    (checkSolution (toggleCell s row col) = false →
      (toggleCell (toggleCell s row col) row col).playerState = s.playerState ∧
      (toggleCell (toggleCell s row col) row col).moves = s.moves + 2) := by
  have heq := toggleCell_eq s row col hc
  refine ⟨?_, ?_, ?_, ?_, ?_, ?_, ?_, ?_, ?_, ?_, ?_⟩
  · rw [heq]; exact getB_setB_square s.size _ row col _ hsq hrow hcol
  · intro a b hab
    rw [heq]; exact getB_setB_ne _ row col a b _ hab
  · rw [heq]; exact square_setB s.size _ row col _ hsq
  · rw [heq]
  · rw [heq]
  · rw [heq]
  · rw [heq]
  · rw [heq]
  · rw [heq]
  · rw [heq]
  · intro hns
    have hc2 : (toggleCell s row col).isComplete = false := by
      rw [heq] at hns ⊢
      dsimp only
      rw [← hns]
      exact checkSolution_congr _ _ rfl rfl rfl rfl rfl
    have heq2 := toggleCell_eq (toggleCell s row col) row col hc2
    have hcell : getB (toggleCell s row col).playerState row col = (!getB s.playerState row col) := by
      rw [heq]; exact getB_setB_square s.size _ row col _ hsq hrow hcol
    have hps : (toggleCell s row col).playerState
        = setB s.playerState row col (!getB s.playerState row col) := by rw [heq]
    have hmv : (toggleCell s row col).moves = s.moves + 1 := by rw [heq]
    rw [heq2]
    dsimp only
    rw [hcell, hps, hmv, setB_setB, Bool.not_not, setB_getB]
    exact ⟨rfl, rfl⟩

theorem toggleCell_frame_witness :
    getB (toggleCell sampleState 0 1).playerState 0 1 = (!getB sampleState.playerState 0 1) ∧
    (toggleCell sampleState 0 1).moves = sampleState.moves + 1 ∧
    (toggleCell (toggleCell sampleState 0 1) 0 1).playerState = sampleState.playerState ∧
    (toggleCell (toggleCell sampleState 0 1) 0 1).moves = sampleState.moves + 2 :=
  have h := toggleCell_frame sampleState 0 1 rfl (by decide) (by decide) (by decide)
  ⟨h.1, h.2.2.2.2.2.2.2.2.2.1, (h.2.2.2.2.2.2.2.2.2.2 rfl).1, (h.2.2.2.2.2.2.2.2.2.2 rfl).2⟩

/-- C22. For every puzzle that `generate N` returns, the sum of all `rowTargets`
and the sum of all `colTargets` both equal the sum of `grid[i][j]` over the
cells with `solution[i][j]` true, hence each other, and every row target and
every column target is at most `9 * (N - 1)`. -/
theorem generate_target_sums (N : Nat) (ds rest : List Draw) (p : Puzzle)
    (h : generate N ds = some (p, rest)) :
    p.rowTargets.sum
      = ∑ c in (Finset.range N ×ˢ Finset.range N).filter
          (fun c => getB p.solution c.1 c.2 = true), getN p.grid c.1 c.2 ∧
    p.colTargets.sum
      = ∑ c in (Finset.range N ×ˢ Finset.range N).filter
          (fun c => getB p.solution c.1 c.2 = true), getN p.grid c.1 c.2 ∧
    p.rowTargets.sum = p.colTargets.sum ∧
    (∀ i t, p.rowTargets.get? i = some t → t ≤ 9 * (N - 1)) ∧
    (∀ j t, p.colTargets.get? j = some t → t ≤ 9 * (N - 1)) := by
  obtain ⟨sol0, ds0, hfill, -, hr, hc⟩ := generate_eq_some h
  have h1 := rowTargetsOf_sum N p.grid p.solution
  have h2 := colTargetsOf_sum N p.grid p.solution
  rw [← hr] at h1
  rw [← hc] at h2
  refine ⟨h1, h2, by rw [h1, h2], ?_, ?_⟩
  · intro i t ht
    have hi : i < N := by
      have hlen : p.rowTargets.length = N := by rw [hr]; simp [rowTargetsOf]
      have := List.get?_eq_some.1 ht
      obtain ⟨hlt, -⟩ := this
      omega
    rw [hr, rowTargetsOf_get N p.grid p.solution i hi, Option.some.injEq] at ht
    rw [← ht]
    obtain ⟨j0, hj0, hgap⟩ := generate_gaps h i hi
    exact masked_sum_le (fun j => getB p.solution i j) (fun j => getN p.grid i j) N j0 hj0 hgap
      (fun j hj => (fillGrid_cell N ds _ sol0 ds0 hfill i j hi hj).2)
  · intro j t ht
    have hj : j < N := by
      have hlen : p.colTargets.length = N := by rw [hc]; simp [colTargetsOf]
      have := List.get?_eq_some.1 ht
      obtain ⟨hlt, -⟩ := this
      omega
    rw [hc, colTargetsOf_get N p.grid p.solution j hj, Option.some.injEq] at ht
    rw [← ht]
    obtain ⟨i0, hi0, hgap⟩ := generate_col_gap h j hj
    exact masked_sum_le (fun i => getB p.solution i j) (fun i => getN p.grid i j) N i0 hi0 hgap
      (fun i hi => (fillGrid_cell N ds _ sol0 ds0 hfill i j hi hj).2)

theorem generate_target_sums_witness :
    generate 3 sampleDraws = some (samplePuzzle, []) ∧
    samplePuzzle.rowTargets.sum = 30 ∧ samplePuzzle.colTargets.sum = 30 ∧
    samplePuzzle.rowTargets.sum = samplePuzzle.colTargets.sum ∧
    (∀ i t, samplePuzzle.rowTargets.get? i = some t → t ≤ 9 * (3 - 1)) ∧
    (∀ j t, samplePuzzle.colTargets.get? j = some t → t ≤ 9 * (3 - 1)) :=
  have h := generate_target_sums 3 sampleDraws [] samplePuzzle rfl
  ⟨rfl, rfl, rfl, h.2.2.1, h.2.2.2.1, h.2.2.2.2⟩

/-- C21. The candidate branch of the final pass is safe for columns: when the
body meets a fully active row and some column has more than 2 active cells, the
cell it deactivates lies in such a column, which keeps at least 2 active cells,
and no other column count changes; so for `N ≥ 3`, on every run of `generate N`
whose final pass never takes the fallback branch, every column of the returned
mask has between 2 and `N - 1` active cells. -/
theorem candidate_branch_safe (N : Nat) (ds rest : List Draw) (p : Puzzle)
    (hN : 3 ≤ N) (h : generate N ds = some (p, rest)) (hfb : takesFallback N ds = false) :
    (∀ (i : Nat) (sol : Mask) (d : List Draw) (sol1 : Mask) (d1 : List Draw),
      Square N sol → i < N → rowCount sol i = N → 0 < (candidates N sol).length →
      finalRepair N i sol d = some (sol1, d1) →
      ∃ j, j < N ∧ 2 < colCount N sol j ∧ getB sol i j = true ∧ sol1 = setB sol i j false ∧
        colCount N sol1 j + 1 = colCount N sol j ∧ 2 ≤ colCount N sol1 j ∧
        ∀ k, k ≠ j → colCount N sol1 k = colCount N sol k) ∧
    (∀ j, j < N → 2 ≤ colCount N p.solution j ∧ colCount N p.solution j ≤ N - 1) := by
  constructor
  · intro i sol d sol1 d1 hsq hi hfull hc hrep
    exact finalRepair_candidate N i sol d sol1 d1 hsq hi hfull hc hrep
  · intro j hj
    obtain ⟨sol0, ds0, sol1, ds1, sol2, ds2, hfill, hrow, hcol, hfin, -, h1, h2⟩ :=
      generate_passes h
    rw [takesFallback_eq hfill hrow hcol] at hfb
    have hcols := (colPass_spec N sol1 ds1 sol2 ds2 hcol h1).2
    exact ⟨finalPass_no_fallback N (List.range N) (fun i hi => List.mem_range.1 hi)
        sol2 ds2 _ rest hfin hfb h2 (fun k hk => (hcols k hk).1 hN) j hj,
      generate_colCount_le h j hj⟩

theorem candidate_branch_safe_witness :
    generate 4 candidateDraws = some (candidatePuzzle, []) ∧
    takesFallback 4 candidateDraws = false ∧
    finalRepair 4 0
        [[true, true, true, true], [true, true, false, true], [true, false, true, false],
          [false, true, true, false]] [tenth 0]
      = some (candidatePuzzle.solution, []) ∧
    (∀ j, j < 4 →
      2 ≤ colCount 4 candidatePuzzle.solution j ∧ colCount 4 candidatePuzzle.solution j ≤ 4 - 1) :=
  ⟨rfl, rfl, rfl,
    (candidate_branch_safe 4 candidateDraws [] candidatePuzzle (by decide) rfl rfl).2⟩

end Sumthing
